import Mathlib

/-!
# Verification of `rodusek.dev/pkg/cli` (diagnostic package)

A shallow embedding of the diagnostic data model, the annotations, the
reporter and its constructors, the emitters, the flags, the `wrap` package
and the colour detection of the `ansi` package, followed by the theorems
that settle the claims of the specification.

Conventions of the embedding

* A Go `string` is a byte sequence.  It is modelled by `String`, one `Char`
  per byte; every string operation the embedded code performs (`==`, `len`,
  indexing, concatenation, `strings.Join`, single-byte replacers) is
  byte-wise, so that reading is exact.  `strings.Fields` and
  `strings.TrimSpace` decode UTF-8 to find white space; they are modelled on
  the bytes through the encodings of the white space code points.
* A Go `int` is a 64-bit two's complement integer.  It is modelled by `Int`;
  the statement `x++` on a counter of `Metrics` wraps around at 64 bits
  (`increment`).  The other arithmetic of the embedded code (comparing and
  subtracting positions, adding lengths, dividing by 10) is on the integers
  as they are.
* A Go `error` is `Option String`: `none` is `nil`, `some m` is an error with
  text `m`.
* A pointer field (`*Position`, `*Diagnostic`) is an `Option`; `none` is the
  nil pointer.  Two pointer fields are never aliases of one another.
* An interface value with mutable state behind it (`io.Writer`, `Emitter`) is
  a transition function over an explicit state `σ`.  That state is apart from
  the fields of the reporter: an emitter does not reach into the reporter
  that calls it.
* A function that formats a text and writes it is split into the text it
  formats and the `Write` call that receives it.
* A run-time panic is an outcome of its own (`Exec.panic`); a state of a run
  that has panicked stays as it is.
* The process environment and the functions of the standard library that
  read it are the fields of `Host` and `Env`.
-/

namespace GoCli

/-! ## diagnostic/severity.go -/

/-- Go `error`. -/
abbrev Error := Option String

/-- The type `Severity`, a string type. -/
abbrev Severity := String

def SeverityError : Severity := "error"
def SeverityWarning : Severity := "warning"
def SeverityNotice : Severity := "notice"
def SeverityDebug : Severity := "debug"

/-- The method `(*Severity).validate`. -/
def Severity.validate (s : Severity) : Error :=
  if s = SeverityError ∨ s = SeverityWarning ∨ s = SeverityNotice ∨ s = SeverityDebug then
    none
  else
    some ("severity: unknown value '" ++ s ++ "'")

/-! ## diagnostic/diagnostic.go -/

/-- The struct `Position`. -/
structure Position where
  Line : Int
  Column : Int
deriving DecidableEq, Repr

/-- The struct `Diagnostic`. -/
structure Diagnostic where
  Severity : Severity
  Code : String
  Title : String
  Message : String
  File : String
  Start : Option Position
  End : Option Position
deriving DecidableEq, Repr

/-- The constructor `New(severity, message)`. -/
def New (severity : Severity) (message : String) : Diagnostic :=
  { Severity := severity, Code := "", Title := "", Message := message, File := "",
    Start := none, End := none }

/-- The method `(*Diagnostic).validate`; the receiver may be the nil pointer. -/
def Diagnostic.validate (d : Option Diagnostic) : Error :=
  match d with
  | none => some "diagnostic: nil diagnostic"
  | some d =>
    if d.Severity = "" then
      some "diagnostic: required field 'severity' is missing"
    else if d.Message = "" then
      some "diagnostic: required field 'message' is missing"
    else
      match Severity.validate d.Severity with
      | some err => some err
      | none => none

/-! ## diagnostic/reporter.go -/

/-- What one call of `Emitter.Emit` leaves behind: the state of the emitter
(and of whatever it writes to), the diagnostic behind the pointer it was
handed (an emitter may write to it) and the returned error. -/
structure EmitResult (σ : Type) where
  state : σ
  msg : Diagnostic
  err : Error

/-- The interface `Emitter`. -/
structure Emitter (σ : Type) where
  Emit : Diagnostic → σ → EmitResult σ

/-- The struct `Metrics`. -/
structure Metrics where
  Errors : Int
  Warnings : Int
  Notices : Int
  Debugs : Int
deriving DecidableEq, Repr

/-- The struct `Reporter`; `emitter` may be the nil interface. -/
structure Reporter (σ : Type) where
  emitter : Option (Emitter σ)
  metrics : Metrics
  showDebug : Bool

/-- What one call of `Report` leaves behind.  `calls` is the trace of the
arguments of the `Emit` calls made during the call. -/
structure ReportResult (σ : Type) where
  reporter : Reporter σ
  state : σ
  msg : Option Diagnostic
  err : Error
  calls : List Diagnostic

/-- The largest value of the type `int`, `math.MaxInt`. -/
def maxInt : Int := 9223372036854775807

/-- The smallest value of the type `int`, `math.MinInt`. -/
def minInt : Int := -9223372036854775808

/-- The value of type `int` an integer is stored as: its two's complement
representative, `n` modulo 2^64 in the range from `minInt` to `maxInt`. -/
def wrapInt (n : Int) : Int :=
  (n + 9223372036854775808) % 18446744073709551616 - 9223372036854775808

/-- The statement `x++` on an `int`: the value of `x` afterwards. -/
def increment (x : Int) : Int := wrapInt (x + 1)

/-- The end of `Report`: `if r.emitter == nil { return nil }` and
`return r.emitter.Emit(msg)`, for the reporter `r` with the counters already
updated. -/
def Reporter.forward {σ : Type} (r : Reporter σ) (s : σ) (d : Diagnostic) : ReportResult σ :=
  match r.emitter with
  | none => { reporter := r, state := s, msg := some d, err := none, calls := [] }
  | some e =>
    let o := e.Emit d s
    { reporter := r, state := o.state, msg := some o.msg, err := o.err, calls := [d] }

/-- The method `(*Reporter).Report`. -/
def Reporter.Report {σ : Type} (r : Reporter σ) (s : σ) (msg : Option Diagnostic) :
    ReportResult σ :=
  match Diagnostic.validate msg with
  | some err => { reporter := r, state := s, msg := msg, err := some err, calls := [] }
  | none =>
    match msg with
    | none =>
      -- not reached: `validate` rejects the nil diagnostic
      { reporter := r, state := s, msg := none, err := some "nil pointer dereference",
        calls := [] }
    | some d =>
      if d.Severity = SeverityError then
        Reporter.forward
          { r with metrics := { r.metrics with Errors := increment r.metrics.Errors } } s d
      else if d.Severity = SeverityWarning then
        Reporter.forward
          { r with metrics := { r.metrics with Warnings := increment r.metrics.Warnings } } s d
      else if d.Severity = SeverityNotice then
        Reporter.forward
          { r with metrics := { r.metrics with Notices := increment r.metrics.Notices } } s d
      else if d.Severity = SeverityDebug then
        let r1 : Reporter σ :=
          { r with metrics := { r.metrics with Debugs := increment r.metrics.Debugs } }
        if r1.showDebug = false then
          { reporter := r1, state := s, msg := some d, err := none, calls := [] }
        else
          Reporter.forward r1 s d
      else
        Reporter.forward r s d

/-- The method `(*Reporter).ShowDebug`. -/
def Reporter.ShowDebug {σ : Type} (r : Reporter σ) (b : Bool) : Reporter σ :=
  { r with showDebug := b }

/-- A sequence of `Report` calls on one reporter, each starting from the
state the previous one left. -/
def Reporter.ReportAll {σ : Type} (r : Reporter σ) (s : σ) :
    List (Option Diagnostic) → Reporter σ × σ
  | [] => (r, s)
  | m :: ms =>
    let o := r.Report s m
    Reporter.ReportAll o.reporter o.state ms

/-! ## diagnostic/annotation.go -/

/-- The interface `Annotation`.  Its only method, `annotate`, is unexported,
so the nine constructors of the package are all of its implementations. -/
inductive Annotation where
  | Title (title : String)
  | Line (line : Int)
  | LineRange (start stop : Int)
  | Column (column : Int)
  | ColumnRange (start stop : Int)
  | File (file : String)
  | Start (line column : Int)
  | End (line column : Int)
  | Code (code : String)
deriving DecidableEq, Repr

/-- The statement `if a.Start == nil { a.Start = &Position{} }` (and the same
for `End`): the position behind the pointer afterwards. -/
def allocate (p : Option Position) : Position :=
  match p with
  | some pos => pos
  | none => { Line := 0, Column := 0 }

/-- The method `annotate` of each of the nine annotations. -/
def Annotation.annotate : Annotation → Diagnostic → Diagnostic
  | .Title title, a => { a with Title := title }
  | .Line line, a =>
    let start := allocate a.Start
    { a with Start := some { start with Line := line } }
  | .LineRange start stop, a =>
    let s := allocate a.Start
    let e := allocate a.End
    { a with Start := some { s with Line := start }, End := some { e with Line := stop } }
  | .Column column, a =>
    let start := allocate a.Start
    { a with Start := some { start with Column := column } }
  | .ColumnRange start stop, a =>
    let s := allocate a.Start
    let e := allocate a.End
    { a with Start := some { s with Column := start }, End := some { e with Column := stop } }
  | .File file, a => { a with File := file }
  | .Start line column, a =>
    let start := allocate a.Start
    { a with Start := some { start with Line := line, Column := column } }
  | .End line column, a =>
    let stop := allocate a.End
    { a with End := some { stop with Line := line, Column := column } }
  | .Code code, a => { a with Code := code }

/-- The method `(*Diagnostic).With`. -/
def Diagnostic.With (d : Diagnostic) (annotations : List Annotation) : Diagnostic :=
  annotations.foldl (fun acc a => a.annotate acc) d

/-- The fields of a diagnostic an annotation can assign to. -/
inductive Field where
  | title | code | file | startLine | startColumn | endLine | endColumn
deriving DecidableEq, Repr

/-- The fields on the left of the assignments in the body of each annotation. -/
def Annotation.writes : Annotation → List Field
  | .Title _ => [.title]
  | .Line _ => [.startLine]
  | .LineRange _ _ => [.startLine, .endLine]
  | .Column _ => [.startColumn]
  | .ColumnRange _ _ => [.startColumn, .endColumn]
  | .File _ => [.file]
  | .Start _ _ => [.startLine, .startColumn]
  | .End _ _ => [.endLine, .endColumn]
  | .Code _ => [.code]

/-! ## Library functions the emitters call -/

/-- The interface `io.Writer` over the state `σ` of the sink: `Write p` hands
the bytes `p` to the sink and returns its error. -/
structure Writer (σ : Type) where
  Write : String → σ → σ × Error

/-- The writer `*bytes.Buffer`: it appends and never fails. -/
def bufferWriter : Writer String :=
  { Write := fun p buf => (buf ++ p, none) }

/-- The function `fmt.Fprintf(w, ...)`, given the formatted text: one `Write`
call with the whole text, whose error it returns. -/
def Fprintf {σ : Type} (w : Writer σ) (text : String) (s : σ) : σ × Error :=
  w.Write text s

/-- The verb `%d` applied to an `int`. -/
def fmtInt (n : Int) : String := toString n

/-- The function `strings.Join`. -/
def Join : List String → String → String
  | [], _ => ""
  | [a], _ => a
  | a :: b :: rest, sep => a ++ sep ++ Join (b :: rest) sep

/-- The function `strings.Repeat`, for a count that is not negative. -/
def Repeat (s : String) : Nat → String
  | 0 => ""
  | n + 1 => s ++ Repeat s n

/-- A replacer `strings.NewReplacer(old1, new1, ...)` all of whose old strings
are single bytes, on the bytes of its argument: every byte that is an old
string is replaced by the new string of the first pair that has it. -/
def replaceBytes (pairs : List (Char × String)) : List Char → List Char
  | [] => []
  | c :: cs =>
    (match pairs.lookup c with
      | some new => new.data
      | none => [c]) ++ replaceBytes pairs cs

/-- The method `(*strings.Replacer).Replace` of such a replacer. -/
def Replace (pairs : List (Char × String)) (s : String) : String :=
  ⟨replaceBytes pairs s.data⟩

/-- The function `strings.Split(s, sep)` for a one-byte separator, on the
bytes of `s`. -/
def splitBytes (sep : Char) : List Char → List (List Char)
  | [] => [[]]
  | c :: cs =>
    if c = sep then
      [] :: splitBytes sep cs
    else
      match splitBytes sep cs with
      | [] => [[c]]
      | piece :: pieces => (c :: piece) :: pieces

/-- The function `strings.Split(s, sep)` for a one-byte separator. -/
def Split (s : String) (sep : Char) : List String :=
  (splitBytes sep s.data).map String.mk

/-- What the embedded code asks of the process it runs in and of the standard
library: `filepath.Abs` and `os.ReadFile` (`none` is an error) and the JSON
encoding of a string done by `encoding/json`. -/
structure Host where
  Abs : String → Option String
  ReadFile : String → Option String
  jsonString : String → String

/-! ## diagnostic/emitter_noop.go -/

/-- The method `noopEmitter.Emit`. -/
def noopEmitter.Emit {σ : Type} (msg : Diagnostic) (s : σ) : EmitResult σ :=
  { state := s, msg := msg, err := none }

/-- The value `noopEmitter{}` as an `Emitter`. -/
def noopEmitter {σ : Type} : Emitter σ := { Emit := noopEmitter.Emit }

/-! ## diagnostic/emitter_github.go -/

/-- The struct `githubEmitter`. -/
structure githubEmitter (σ : Type) where
  writer : Writer σ

/-- The variable `fieldEscaper`. -/
def fieldEscaper : List (Char × String) := [(',', "%2C")]

/-- The variable `contentEscaper`. -/
def contentEscaper : List (Char × String) := [('\n', "%0A"), ('\r', "%0D")]

/-- The method `(*githubEmitter).escapeMessage`. -/
def githubEmitter.escapeMessage (s : String) : String := Replace contentEscaper s

/-- The method `(*githubEmitter).escapeField`. -/
def githubEmitter.escapeField (s : String) : String := Replace fieldEscaper s

/-- The method `(*githubEmitter).fields`. -/
def githubEmitter.fields (msg : Diagnostic) : List String :=
  let fields : List String := []
  let fields :=
    if msg.Title ≠ "" then
      let title := githubEmitter.escapeField msg.Title
      if msg.Code ≠ "" then
        fields ++ ["title=[" ++ msg.Code ++ "] " ++ title]
      else
        fields ++ ["title=" ++ title]
    else fields
  let fields := if msg.File ≠ "" then fields ++ ["file=" ++ msg.File] else fields
  let fields :=
    match msg.Start with
    | some start =>
      let fields := if start.Column > 0 then fields ++ ["col=" ++ fmtInt start.Column] else fields
      if start.Line > 0 then fields ++ ["line=" ++ fmtInt start.Line] else fields
    | none => fields
  match msg.End with
  | some stop =>
    let fields := if stop.Column > 0 then fields ++ ["colEnd=" ++ fmtInt stop.Column] else fields
    if stop.Line > 0 then fields ++ ["lineEnd=" ++ fmtInt stop.Line] else fields
  | none => fields

/-- The text `(*githubEmitter).Emit` formats and hands to `fmt.Fprintf`. -/
def githubEmitter.text (msg : Diagnostic) : String :=
  "::" ++ msg.Severity ++ " " ++ Join (githubEmitter.fields msg) "," ++ "::" ++
    githubEmitter.escapeMessage msg.Message ++ "\n"

/-- The method `(*githubEmitter).Emit`: the result of `Fprintf` is dropped
and nil is returned. -/
def githubEmitter.Emit {σ : Type} (e : githubEmitter σ) (msg : Diagnostic) (s : σ) :
    EmitResult σ :=
  { state := (Fprintf e.writer (githubEmitter.text msg) s).1, msg := msg, err := none }

/-- A `*githubEmitter` as an `Emitter`. -/
def githubEmitter.toEmitter {σ : Type} (e : githubEmitter σ) : Emitter σ :=
  { Emit := e.Emit }

/-! ## diagnostic/emitter_json.go -/

/-- The struct `jsonEmitter`. -/
structure jsonEmitter (σ : Type) where
  writer : Writer σ

/-- A JSON object with the given members. -/
def jsonObject (members : List String) : String :=
  "\x7b" ++ Join members "," ++ "\x7d"

/-- The encoding `encoding/json` gives a `Position`, following its struct
tags: `line` and `column`, each left out when zero. -/
def Position.marshal (p : Position) : String :=
  jsonObject
    ((if p.Line ≠ 0 then ["\"line\":" ++ fmtInt p.Line] else []) ++
     (if p.Column ≠ 0 then ["\"column\":" ++ fmtInt p.Column] else []))

/-- The encoding `encoding/json` gives a `Diagnostic`, following its struct
tags: the fields in declaration order, those tagged `omitempty` left out when
empty or nil. -/
def Diagnostic.marshal (h : Host) (d : Diagnostic) : String :=
  jsonObject
    (["\"severity\":" ++ h.jsonString d.Severity] ++
     (if d.Code ≠ "" then ["\"code\":" ++ h.jsonString d.Code] else []) ++
     (if d.Title ≠ "" then ["\"title\":" ++ h.jsonString d.Title] else []) ++
     ["\"message\":" ++ h.jsonString d.Message] ++
     (if d.File ≠ "" then ["\"file\":" ++ h.jsonString d.File] else []) ++
     (match d.Start with
      | some p => ["\"position\":" ++ p.marshal]
      | none => []) ++
     (match d.End with
      | some p => ["\"end\":" ++ p.marshal]
      | none => []))

/-- The method `(*jsonEmitter).Emit`: the file is made absolute in place when
`filepath.Abs` succeeds, then `Encode` writes the encoding and a line feed in
one `Write` and returns its error. -/
def jsonEmitter.Emit {σ : Type} (h : Host) (e : jsonEmitter σ) (msg : Diagnostic) (s : σ) :
    EmitResult σ :=
  let msg :=
    if msg.File ≠ "" then
      match h.Abs msg.File with
      | some abs => { msg with File := abs }
      | none => msg
    else msg
  let o := e.writer.Write (msg.marshal h ++ "\n") s
  { state := o.1, msg := msg, err := o.2 }

/-- A `*jsonEmitter` as an `Emitter`. -/
def jsonEmitter.toEmitter {σ : Type} (h : Host) (e : jsonEmitter σ) : Emitter σ :=
  { Emit := jsonEmitter.Emit h e }

/-- The constructor `NewGitHubReporter`; `w` may be the nil writer. -/
def NewGitHubReporter {σ : Type} (h : Host) (w : Option (Writer σ)) : Reporter σ :=
  let emitter : Emitter σ :=
    match w with
    | some w => jsonEmitter.toEmitter h { writer := w }
    | none => noopEmitter
  { emitter := some emitter,
    metrics := { Errors := 0, Warnings := 0, Notices := 0, Debugs := 0 },
    showDebug := false }

/-- The constructor `NewJSONReporter`; `w` may be the nil writer. -/
def NewJSONReporter {σ : Type} (h : Host) (w : Option (Writer σ)) : Reporter σ :=
  let emitter : Emitter σ :=
    match w with
    | some w => jsonEmitter.toEmitter h { writer := w }
    | none => noopEmitter
  { emitter := some emitter,
    metrics := { Errors := 0, Warnings := 0, Notices := 0, Debugs := 0 },
    showDebug := false }

/-- The constructor `NewReporter`; `e` may be the nil emitter. -/
def NewReporter {σ : Type} (e : Option (Emitter σ)) : Reporter σ :=
  let e : Emitter σ :=
    match e with
    | some e => e
    | none => noopEmitter
  { emitter := some e,
    metrics := { Errors := 0, Warnings := 0, Notices := 0, Debugs := 0 },
    showDebug := false }

/-! ## formatting/ansi -/

/-- The type `ansi.SGRParam`, a `uint8`. -/
abbrev SGRParam := Nat

/-- The type `ansi.SGRControlSequence`. -/
abbrev SGRControlSequence := List SGRParam

def SGRPrefix : String := "\x1b["
def SGRSuffix : String := "m"

def ansi.Reset : SGRParam := 0
def ansi.Bold : SGRParam := 1
def ansi.Underline : SGRParam := 4
def ansi.FGRed : SGRParam := 31
def ansi.FGGreen : SGRParam := 32
def ansi.FGYellow : SGRParam := 33
def ansi.FGCyan : SGRParam := 36
def ansi.FGWhite : SGRParam := 37
def ansi.FGBrightBlack : SGRParam := 90
def ansi.FGBrightWhite : SGRParam := 97

/-- The function `ansi.Format`. -/
def ansi.Format (params : List SGRParam) : SGRControlSequence := params

/-- The method `SGRControlSequence.Format` for the verb `%v`: the prefix,
the parameters in decimal separated by `;`, the suffix. -/
def SGRControlSequence.Format (cs : SGRControlSequence) : String :=
  SGRPrefix ++ Join (cs.map (fun a => toString a)) ";" ++ SGRSuffix

/-- The method `SGRParam.Format` for the verb `%v`. -/
def SGRParam.Format (p : SGRParam) : String :=
  SGRPrefix ++ toString p ++ SGRSuffix

/-! ## diagnostic/emitter_terminal.go -/

/-- The struct `wrap.Wrapper`. -/
structure Wrapper where
  MaxWidth : Int
deriving DecidableEq, Repr

/-- The struct `terminalEmitter`; `wrapper` may be nil. -/
structure terminalEmitter (σ : Type) where
  writer : Writer σ
  basePath : String
  wrapper : Option Wrapper

/-- A run that either returns or stops in a run-time panic. -/
inductive Exec (α : Type) where
  | ok (v : α)
  | panic (m : String)
deriving DecidableEq, Repr

def underlineFormat : SGRControlSequence := ansi.Format [ansi.FGGreen]
def codeFormat : SGRControlSequence := ansi.Format [ansi.Bold, ansi.FGWhite]
def excerptFormat : SGRControlSequence := ansi.Format [ansi.FGBrightBlack]

/-- The method `(*terminalEmitter).severityFormat`. -/
def terminalEmitter.severityFormat (severity : Severity) : SGRControlSequence :=
  if severity = SeverityError then ansi.Format [ansi.FGRed, ansi.Bold]
  else if severity = SeverityWarning then ansi.Format [ansi.FGYellow]
  else if severity = SeverityNotice then ansi.Format [ansi.FGCyan]
  else if severity = SeverityDebug then ansi.Format [ansi.FGBrightBlack]
  else ansi.Format [ansi.FGBrightBlack]

/-- The loop `for i != 0 { i /= 10; count++ }` of `countDigits`, run for at
most `fuel` rounds. -/
def countDigitsLoop : Nat → Int → Int → Int
  | 0, _, count => count
  | fuel + 1, i, count =>
    if i = 0 then count else countDigitsLoop fuel (i.tdiv 10) (count + 1)

/-- The function `countDigits`.  The loop is given `|i|` rounds, more than it
takes: every round makes `|i|` smaller. -/
def countDigits (i : Int) : Int :=
  if i = 0 then 1 else countDigitsLoop i.natAbs i 0

/-- The struct `lineData`. -/
structure lineData where
  text : String
  line : Int
  col : Int
deriving DecidableEq, Repr

/-- The struct `lineRange`. -/
structure lineRange where
  start : lineData
  «end» : lineData
deriving DecidableEq, Repr

/-- The zero value `lineData{}`. -/
def lineData.zero : lineData := { text := "", line := 0, col := 0 }

/-- The method `(*lineRange).isContiguous`. -/
def lineRange.isContiguous (lr : lineRange) : Bool :=
  decide (lr.start.line + 1 = lr.«end».line)

/-- The function `readLineData`.  Indexing `lines` at a negative index is a
run-time panic. -/
def readLineData (lines : List String) (pos : Position) : Exec lineData :=
  if pos.Line = 0 then .ok lineData.zero
  else
    let line := pos.Line - 1
    if line ≥ (lines.length : Int) then .ok lineData.zero
    else
      match (if line < 0 then none else lines[line.toNat]?) with
      | none => .panic "index out of range"
      | some text =>
        let col := pos.Column
        if col = 0 then .ok { text := text, line := pos.Line, col := 0 }
        else .ok { text := text, line := pos.Line, col := col }

/-- The function `readLines`. -/
def readLines (h : Host) (file : String) : Except String (List String) :=
  match h.ReadFile file with
  | none => .error "read error"
  | some content => .ok (Split content '\n')

/-- The function `readLineRange`. -/
def readLineRange (h : Host) (file : String) (start stop : Option Position) :
    Exec (Except String lineRange) :=
  match readLines h file with
  | .error err => .ok (.error err)
  | .ok lines =>
    let first : Exec lineData :=
      match start with
      | some p => readLineData lines p
      | none => .ok lineData.zero
    match first with
    | .panic m => .panic m
    | .ok sd =>
      let second : Exec lineData :=
        match stop with
        | some p => readLineData lines p
        | none => .ok lineData.zero
      match second with
      | .panic m => .panic m
      | .ok ed => .ok (.ok { start := sd, «end» := ed })

/-- The loop of `countPrefixSpaces` over the bytes of the line not yet
visited, with the number of rounds `col - i` that remain: it stops at the
end of the line or when no round remains. -/
def countPrefixSpacesLoop : List Char → Nat → Int
  | [], _ => 0
  | _ :: _, 0 => 0
  | ch :: rest, n + 1 => (if ch = '\t' then 3 else 1) + countPrefixSpacesLoop rest n

/-- The function `countPrefixSpaces`. -/
def countPrefixSpaces (line : String) (col : Int) : Int :=
  countPrefixSpacesLoop line.data col.toNat

/-- The method `(*terminalEmitter).format`. -/
def terminalEmitter.format (msg : Diagnostic) : String :=
  let indentAmount : Int := 1
  let indentAmount :=
    match msg.Start with
    | some start =>
      if start.Line > 0 ∧ countDigits start.Line > indentAmount then countDigits start.Line
      else indentAmount
    | none => indentAmount
  let indentAmount :=
    match msg.End with
    | some stop =>
      if stop.Line > 0 ∧ countDigits stop.Line > indentAmount then countDigits stop.Line
      else indentAmount
    | none => indentAmount
  Repeat " " indentAmount.toNat

/-- The verb `%*d`: the decimal form of `n`, padded with spaces on the left
to the given width. -/
def fmtIntWidth (width : Int) (n : Int) : String :=
  Repeat " " (width.toNat - (fmtInt n).length) ++ fmtInt n

/-- The call `strings.ReplaceAll(s, "\t", "   ")`. -/
def expandTabs (s : String) : String := Replace [('\t', "   ")] s

/-- The text `writeBlockQuotePrefix` formats. -/
def terminalEmitter.blockQuotePrefixText (format : SGRControlSequence) (msg : Diagnostic) :
    String :=
  " " ++ format.Format ++ terminalEmitter.format msg ++ format.Format ++ " |" ++
    SGRParam.Format ansi.Reset ++ "\n"

/-- The texts `(*terminalEmitter).writeExcerpt` formats, in the order in
which it writes them (it stops at the first write that fails). -/
def terminalEmitter.excerptTexts (h : Host) (format : SGRControlSequence) (msg : Diagnostic) :
    Exec (List String) :=
  match msg.Start with
  | none => .ok []
  | some start =>
    if start.Line = 0 ∨ msg.File = "" then .ok []
    else
      match readLineRange h msg.File (some start) msg.End with
      | .panic m => .panic m
      | .ok (.error _) => .ok []
      | .ok (.ok data) =>
        if data.start.line = 0 then .ok []
        else
          let digits := max (countDigits data.start.line) (countDigits data.«end».line)
          let startLine := expandTabs data.start.text
          let head : List String :=
            [terminalEmitter.blockQuotePrefixText format msg,
             " " ++ codeFormat.Format ++ fmtIntWidth digits data.start.line ++ format.Format ++
               " |" ++ excerptFormat.Format ++ "   " ++ startLine ++
               SGRParam.Format ansi.Reset ++ "\n"]
          if data.«end».line = 0 ∨ data.«end».line = data.start.line then .ok head
          else
            let dots : List String :=
              if data.isContiguous = false then
                [" " ++ terminalEmitter.format msg ++ format.Format ++ " |" ++
                  excerptFormat.Format ++ "   ..." ++ SGRParam.Format ansi.Reset ++ "\n"]
              else []
            let endLine := expandTabs data.«end».text
            .ok (head ++ dots ++
              [" " ++ codeFormat.Format ++ fmtIntWidth digits data.«end».line ++
                format.Format ++ " |" ++ excerptFormat.Format ++ "   " ++ endLine ++
                SGRParam.Format ansi.Reset ++ "\n"])

/-- The variable `underline` of `writeUnderline`. -/
def terminalEmitter.underlineMarks (data : lineRange) (msg : Diagnostic) (start : Position) :
    String :=
  let distance : Int :=
    match msg.End with
    | some stop =>
      countPrefixSpaces data.«end».text stop.Column -
        countPrefixSpaces data.start.text start.Column
    | none => 1
  if distance > 1 then "^" ++ Repeat "~" distance.toNat else "^"

/-- The text `(*terminalEmitter).writeUnderline` formats: `ok none` when it
returns before writing. -/
def terminalEmitter.underlineText (h : Host) (format : SGRControlSequence) (msg : Diagnostic) :
    Exec (Option String) :=
  match msg.Start with
  | none => .ok none
  | some start =>
    if start.Column = 0 then .ok none
    else
      let skip : Bool :=
        match msg.End with
        | some stop => decide (start.Line ≠ stop.Line) || decide (start.Column > stop.Column)
        | none => false
      if skip then .ok none
      else
        match readLineRange h msg.File msg.Start msg.End with
        | .panic m => .panic m
        | .ok (.error _) => .ok none
        | .ok (.ok data) =>
          let underline := terminalEmitter.underlineMarks data msg start
          let spaces :=
            Repeat " " (max 0 (countPrefixSpaces data.start.text start.Column - 1)).toNat
          .ok (some (" " ++ terminalEmitter.format msg ++ format.Format ++ " |   " ++ spaces ++
            underlineFormat.Format ++ underline ++ SGRParam.Format ansi.Reset ++ "\n"))

/-- The method `(*terminalEmitter).writeUnderline`. -/
def terminalEmitter.writeUnderline {σ : Type} (h : Host) (e : terminalEmitter σ)
    (format : SGRControlSequence) (msg : Diagnostic) (s : σ) : Exec (σ × Error) :=
  match terminalEmitter.underlineText h format msg with
  | .panic m => .panic m
  | .ok none => .ok (s, none)
  | .ok (some text) => .ok (Fprintf e.writer text s)

/-- The display width of a text in the excerpt row: the length of its
tab-expanded form. -/
def displayWidth (s : List Char) : Nat :=
  (replaceBytes [('\t', "   ")] s).length

/-! ## The GitHub field list as the specification words it -/

/-- The column of `start`, zero when `start` is absent. -/
def startColumn (d : Diagnostic) : Int :=
  match d.Start with
  | some p => p.Column
  | none => 0

/-- The line of `start`, zero when `start` is absent. -/
def startLine (d : Diagnostic) : Int :=
  match d.Start with
  | some p => p.Line
  | none => 0

/-- The column of `end`, zero when `end` is absent. -/
def endColumn (d : Diagnostic) : Int :=
  match d.End with
  | some p => p.Column
  | none => 0

/-- The line of `end`, zero when `end` is absent. -/
def endLine (d : Diagnostic) : Int :=
  match d.End with
  | some p => p.Line
  | none => 0

/-- The six entries of the specification in their fixed order, each with the
condition under which it is present: title, file, col, line, colEnd,
lineEnd. -/
def githubFieldTable (d : Diagnostic) : List (Bool × String) :=
  [ (decide (d.Title ≠ ""),
      if d.Code ≠ "" then "title=[" ++ d.Code ++ "] " ++ githubEmitter.escapeField d.Title
      else "title=" ++ githubEmitter.escapeField d.Title),
    (decide (d.File ≠ ""), "file=" ++ d.File),
    (decide (startColumn d > 0), "col=" ++ fmtInt (startColumn d)),
    (decide (startLine d > 0), "line=" ++ fmtInt (startLine d)),
    (decide (endColumn d > 0), "colEnd=" ++ fmtInt (endColumn d)),
    (decide (endLine d > 0), "lineEnd=" ++ fmtInt (endLine d)) ]

/-! ## diagnostic/diagnostictest/diagnostictest.go -/

/-- The struct `diagnostictest.Recorder`. -/
structure Recorder where
  Diagnostics : List Diagnostic
deriving DecidableEq, Repr

/-- The method `(*Recorder).Emit`. -/
def Recorder.Emit (msg : Diagnostic) (r : Recorder) : EmitResult Recorder :=
  { state := { Diagnostics := r.Diagnostics ++ [msg] }, msg := msg, err := none }

/-- A `*Recorder` as an `Emitter`. -/
def Recorder.toEmitter : Emitter Recorder := { Emit := Recorder.Emit }

/-! ## Sample values the theorems are evaluated at -/

/-- An emitter every call of which fails. -/
def brokenEmitter : Emitter Unit :=
  { Emit := fun msg s => { state := s, msg := msg, err := some "broken pipe" } }

/-- A host with one readable file, `a.go`, whose first line is a tab followed
by `foo`.  Its JSON string encoding is the one `encoding/json` gives strings
that need no escape: the string between double quotes. -/
def sampleHost : Host :=
  { Abs := fun path => some ("/work/" ++ path),
    ReadFile := fun file => if file = "a.go" then some "\tfoo\nbar" else none,
    jsonString := fun str => "\"" ++ str ++ "\"" }

/-- The diagnostic of the specification's GitHub example, with message `m`. -/
def sampleWarning (m : String) : Diagnostic :=
  (New SeverityWarning m).With
    [ Annotation.Title "Oops", Annotation.Code "W1", Annotation.File "a.go",
      Annotation.Start 3 5]

/-- A diagnostic whose title, code and file each hold a comma. -/
def commaDiagnostic : Diagnostic :=
  (New SeverityError "m").With
    [ Annotation.Title "Oo,ps", Annotation.Code "W,1", Annotation.File "a,b.go"]

/-- A diagnostic that points at line 1 of `a.go`, at the given column. -/
def columnDiagnostic (column : Int) : Diagnostic :=
  (New SeverityError "m").With [ Annotation.File "a.go", Annotation.Start 1 column]

/-! ## Library functions of `strings` and `strconv` the wrapper and `ansi` call -/

/-- The UTF-8 encodings of the code points `unicode.IsSpace` accepts: the six
ASCII white space bytes, U+0085, U+00A0, U+1680, U+2000 to U+200A, U+2028,
U+2029, U+202F, U+205F and U+3000.  Each starts with a byte that no UTF-8
continuation is, so where one stands in a string the decoder of
`strings.Fields` and `strings.TrimSpace` reads it as that code point. -/
def spaceRunes : List (List Char) :=
  [ ['\t'], ['\n'], ['\x0b'], ['\x0c'], ['\r'], [' '],
    ['\xc2', '\x85'], ['\xc2', '\xa0'],
    ['\xe1', '\x9a', '\x80'],
    ['\xe2', '\x80', '\x80'], ['\xe2', '\x80', '\x81'], ['\xe2', '\x80', '\x82'],
    ['\xe2', '\x80', '\x83'], ['\xe2', '\x80', '\x84'], ['\xe2', '\x80', '\x85'],
    ['\xe2', '\x80', '\x86'], ['\xe2', '\x80', '\x87'], ['\xe2', '\x80', '\x88'],
    ['\xe2', '\x80', '\x89'], ['\xe2', '\x80', '\x8a'],
    ['\xe2', '\x80', '\xa8'], ['\xe2', '\x80', '\xa9'], ['\xe2', '\x80', '\xaf'],
    ['\xe2', '\x81', '\x9f'],
    ['\xe3', '\x80', '\x80'] ]

/-- The number of bytes of the white space code point the bytes start with,
zero when they start with none. -/
def spaceWidth (bytes : List Char) : Nat :=
  match spaceRunes.find? (fun r => r.isPrefixOf bytes) with
  | some r => r.length
  | none => 0

/-- The scan of `strings.Fields` over the bytes not yet read: `skip` bytes of
a white space code point are still to be passed, `word` is the field read so
far. -/
def fieldsLoop : Nat → List Char → List Char → List (List Char)
  | _, word, [] => if word = [] then [] else [word]
  | skip + 1, word, _ :: rest => fieldsLoop skip word rest
  | 0, word, c :: rest =>
    match spaceWidth (c :: rest) with
    | 0 => fieldsLoop 0 (word ++ [c]) rest
    | n + 1 => (if word = [] then [] else [word]) ++ fieldsLoop n [] rest

/-- The function `strings.Fields`. -/
def Fields (s : String) : List String :=
  (fieldsLoop 0 [] s.data).map String.mk

/-- The left half of `strings.TrimSpace`: the bytes after the leading white
space, `skip` bytes of a white space code point being still to be passed. -/
def trimLeftLoop : Nat → List Char → List Char
  | _, [] => []
  | skip + 1, _ :: rest => trimLeftLoop skip rest
  | 0, c :: rest =>
    match spaceWidth (c :: rest) with
    | 0 => c :: rest
    | n + 1 => trimLeftLoop n rest

/-- The right half of `strings.TrimSpace`: the bytes up to the point from
which only white space follows. -/
def trimRightBytes : List Char → List Char
  | [] => []
  | c :: rest => if trimLeftLoop 0 (c :: rest) = [] then [] else c :: trimRightBytes rest

/-- The function `strings.TrimSpace`. -/
def TrimSpace (s : String) : String :=
  ⟨trimRightBytes (trimLeftLoop 0 s.data)⟩

/-- The function `strconv.ParseBool`; `none` is its error. -/
def ParseBool (str : String) : Option Bool :=
  if str = "1" ∨ str = "t" ∨ str = "T" ∨ str = "TRUE" ∨ str = "true" ∨ str = "True" then
    some true
  else if str = "0" ∨ str = "f" ∨ str = "F" ∨ str = "FALSE" ∨ str = "false" ∨
      str = "False" then
    some false
  else none

/-! ## formatting/wrap/wrap.go -/

/-- The variable `defaultWrapper`. -/
def defaultWrapper : Wrapper := { MaxWidth := 120 }

/-- The method `(*Wrapper).maxWidth`; the receiver may be nil. -/
def Wrapper.maxWidth (w : Option Wrapper) : Int :=
  match w with
  | none => defaultWrapper.MaxWidth
  | some w => if w.MaxWidth = 0 then defaultWrapper.MaxWidth else w.MaxWidth

/-- The variables `newlines` and `sb` of `(*Wrapper).Lines`. -/
structure WrapState where
  newlines : List String
  sb : String
deriving DecidableEq, Repr

/-- One round of the inner loop of `Lines`, for one word of a line. -/
def wrapWord (maxWidth : Int) (st : WrapState) (word : String) : WrapState :=
  let st : WrapState :=
    if (st.sb.length : Int) + (word.length : Int) + 1 > maxWidth then
      { newlines := st.newlines ++ [st.sb], sb := "" }
    else st
  let st : WrapState :=
    if st.sb.length > 0 then { st with sb := st.sb ++ " " } else st
  { st with sb := st.sb ++ word }

/-- One round of the outer loop of `Lines`, for one line. -/
def wrapLine (maxWidth : Int) (st : WrapState) (line : String) : WrapState :=
  if TrimSpace line = "" then
    { st with newlines := st.newlines ++ [""] }
  else
    (Fields line).foldl (wrapWord maxWidth) st

/-- The method `(*Wrapper).Lines`; the receiver may be nil.  A nil slice is
the empty list. -/
def Wrapper.Lines (w : Option Wrapper) (lines : List String) : List String :=
  if lines.length = 0 then []
  else if lines.length = 1 ∧ lines[0]? = some "" then []
  else
    let st := lines.foldl (wrapLine (Wrapper.maxWidth w)) { newlines := [], sb := "" }
    if st.sb.length > 0 then st.newlines ++ [st.sb] else st.newlines

/-- The method `(*Wrapper).Strings`. -/
def Wrapper.Strings (w : Option Wrapper) (lines : List String) : String :=
  Join (Wrapper.Lines w lines) "\n"

/-- The method `(*Wrapper).String`. -/
def Wrapper.String (w : Option Wrapper) (s : String) : String :=
  Wrapper.Strings w (Split s '\n')

/-- The function `wrap.Lines`. -/
def wrap.Lines (lines : List String) : List String :=
  Wrapper.Lines (some defaultWrapper) lines

/-- The function `wrap.Strings`. -/
def wrap.Strings (lines : List String) : String :=
  Wrapper.Strings (some defaultWrapper) lines

/-- The function `wrap.String`. -/
def wrap.String (s : String) : String :=
  Wrapper.String (some defaultWrapper) s

/-! ## The process environment and the dynamic type of a writer -/

/-- What the embedded code asks of the process environment: `os.Getenv`,
`os.Getwd` (its error is dropped), `filepath.Rel` (`none` is an error),
`term.IsTerminal` and the width `term.GetSize` returns (`none` is an
error). -/
structure Env where
  Getenv : String → String
  Getwd : String
  Rel : String → String → Option String
  IsTerminal : Nat → Bool
  GetSize : Nat → Option Int

/-- The method `Fd` of the dynamic type of a writer, which the code looks
for by type assertion with one of two result types. -/
inductive FdMethod where
  | absent
  | uintptr (fd : Nat)
  | uint64 (fd : Nat)
deriving DecidableEq, Repr

/-- A non-nil `io.Writer` value: its `Write` method and what the type
assertions of the code find on its dynamic type, the method `Fd` and the
marker method `alwaysFormat` of `ansi.alwaysFormatter`. -/
structure Sink (σ : Type) where
  writer : Writer σ
  Fd : FdMethod
  alwaysFormat : Bool

/-- A `*bytes.Buffer` as a writer value: no `Fd`, no marker. -/
def bufferSink : Sink String :=
  { writer := bufferWriter, Fd := FdMethod.absent, alwaysFormat := false }

/-- An `*os.File` with the given descriptor that appends to a buffer. -/
def fileSink (fd : Nat) : Sink String :=
  { writer := bufferWriter, Fd := FdMethod.uintptr fd, alwaysFormat := false }

/-! ## formatting/ansi/writer.go -/

/-- The function `envIsTrue`: it hands `name` itself to `strconv.ParseBool`. -/
def envIsTrue (name : String) : Bool :=
  match ParseBool name with
  | some b => b
  | none => false

/-- The function `ansi.CanFormat`; `w` may be the nil writer. -/
def CanFormat {σ : Type} (env : Env) (w : Option (Sink σ)) : Bool :=
  if (match w with
      | some sink => sink.alwaysFormat
      | none => false) then true
  else if envIsTrue "NO_COLOR" || envIsTrue "NOCOLOR" then false
  else
    match w with
    | some sink =>
      match sink.Fd with
      | FdMethod.uintptr fd => env.IsTerminal fd
      | _ => false
    | none => false

/-- The function `ansi.EnableFormat`: an `*alwaysFormatWriter` around `w`,
whose `Write` is that of `w`. -/
def EnableFormat {σ : Type} (w : Sink σ) : Sink σ :=
  { writer := { Write := fun p s => w.writer.Write p s }, Fd := FdMethod.absent,
    alwaysFormat := true }

/-! ## formatting/wrap/wrap.go, `FromTerminal` -/

/-- The function `wrap.FromTerminal`, its error dropped as
`NewTerminalReporter` does: `none` is the nil wrapper. -/
def FromTerminal {σ : Type} (env : Env) (w : Sink σ) : Option Wrapper :=
  match w.Fd with
  | FdMethod.uint64 fd =>
    match env.GetSize fd with
    | some width => some { MaxWidth := width }
    | none => none
  | _ => none

/-! ## diagnostic/emitter_text.go and emitter_log.go -/

/-- The struct `textEmitter`. -/
structure textEmitter (σ : Type) where
  writer : Writer σ

/-- The method `(*textEmitter).Emit`. -/
def textEmitter.Emit {σ : Type} (e : textEmitter σ) (msg : Diagnostic) (s : σ) : EmitResult σ :=
  let o := e.writer.Write msg.Message s
  { state := o.1, msg := msg, err := o.2 }

/-- A `*textEmitter` as an `Emitter`. -/
def textEmitter.toEmitter {σ : Type} (e : textEmitter σ) : Emitter σ :=
  { Emit := e.Emit }

/-- The struct `logEmitter`: a `*log.Logger` made by `log.New(w, "", 0)`. -/
structure logEmitter (σ : Type) where
  logger : Writer σ

/-- The text `Printf` of such a logger writes: the formatted text, and a
line feed when the text does not end in one. -/
def logEmitter.text (msg : Diagnostic) : String :=
  let text := msg.Severity ++ "\t" ++ msg.Message
  if text.data.getLast? = some '\n' then text else text ++ "\n"

/-- The method `(*logEmitter).Emit`: one write, its error dropped. -/
def logEmitter.Emit {σ : Type} (e : logEmitter σ) (msg : Diagnostic) (s : σ) : EmitResult σ :=
  { state := (e.logger.Write (logEmitter.text msg) s).1, msg := msg, err := none }

/-- A `*logEmitter` as an `Emitter`. -/
def logEmitter.toEmitter {σ : Type} (e : logEmitter σ) : Emitter σ :=
  { Emit := e.Emit }

/-! ## diagnostic/emitter_terminal.go, the whole of `Emit` -/

def titleFormat : SGRControlSequence := ansi.Format [ansi.FGBrightWhite]
def fileFormat : SGRControlSequence := ansi.Format [ansi.FGBrightWhite, ansi.Underline]

/-- A run of `fmt.Fprintf` calls on one writer, each followed by
`if err != nil { return err }`: the texts are written in order up to the
first write that fails, whose error is returned. -/
def writeAll {σ : Type} (w : Writer σ) : List String → σ → σ × Error
  | [], s => (s, none)
  | text :: texts, s =>
    match Fprintf w text s with
    | (s1, some err) => (s1, some err)
    | (s1, none) => writeAll w texts s1

/-- The texts `(*terminalEmitter).writeTitle` formats, in order. -/
def terminalEmitter.titleTexts {σ : Type} (e : terminalEmitter σ)
    (format : SGRControlSequence) (msg : Diagnostic) : List String :=
  [format.Format ++ msg.Severity] ++
  (if msg.Code ≠ "" then ["[" ++ codeFormat.Format ++ msg.Code ++ format.Format ++ "]"]
   else []) ++
  [":" ++ SGRParam.Format ansi.Reset] ++
  (if msg.Title ≠ "" then
    [" " ++ titleFormat.Format ++ msg.Title ++ SGRParam.Format ansi.Reset ++ "\n"]
   else if msg.Message ≠ "" then
    [" " ++ Wrapper.String e.wrapper msg.Message ++ "\n"]
   else [])

/-- The method `(*terminalEmitter).writeTitle`. -/
def terminalEmitter.writeTitle {σ : Type} (e : terminalEmitter σ)
    (format : SGRControlSequence) (msg : Diagnostic) (s : σ) : σ × Error :=
  writeAll e.writer (terminalEmitter.titleTexts e format msg) s

/-- The method `(*terminalEmitter).relPath`. -/
def terminalEmitter.relPath {σ : Type} (h : Host) (env : Env) (e : terminalEmitter σ)
    (path : String) : String :=
  let root := e.basePath
  if root = "" then path
  else
    let path :=
      match h.Abs path with
      | some abs => abs
      | none => path
    match env.Rel root path with
    | some rel => rel
    | none => path

/-- The method `(*terminalEmitter).source`. -/
def terminalEmitter.source {σ : Type} (h : Host) (env : Env) (e : terminalEmitter σ)
    (msg : Diagnostic) : String :=
  let sb := terminalEmitter.relPath h env e msg.File
  match msg.Start with
  | none => sb
  | some start =>
    if start.Line ≠ 0 then
      let sb := sb ++ ":" ++ fmtInt start.Line
      if msg.End.isSome ∧ start.Line ≠ 0 then
        match msg.End with
        | some stop => sb ++ "-" ++ fmtInt stop.Line
        | none => sb
      else
        let sb := sb ++ ":" ++ fmtInt start.Column
        match msg.End with
        | some stop => sb ++ "-" ++ fmtInt stop.Column
        | none => sb
    else sb

/-- The texts `(*terminalEmitter).writeFile` formats, in order. -/
def terminalEmitter.fileTexts {σ : Type} (h : Host) (env : Env) (e : terminalEmitter σ)
    (format : SGRControlSequence) (msg : Diagnostic) : List String :=
  if msg.File ≠ "" then
    [" " ++ terminalEmitter.format msg ++ format.Format ++ "--->" ++ SGRParam.Format ansi.Reset,
     " " ++ fileFormat.Format ++ terminalEmitter.source h env e msg ++
       SGRParam.Format ansi.Reset ++ "\n"]
  else []

/-- The method `(*terminalEmitter).writeFile`. -/
def terminalEmitter.writeFile {σ : Type} (h : Host) (env : Env) (e : terminalEmitter σ)
    (format : SGRControlSequence) (msg : Diagnostic) (s : σ) : σ × Error :=
  writeAll e.writer (terminalEmitter.fileTexts h env e format msg) s

/-- The method `(*terminalEmitter).writeExcerpt`. -/
def terminalEmitter.writeExcerpt {σ : Type} (h : Host) (e : terminalEmitter σ)
    (format : SGRControlSequence) (msg : Diagnostic) (s : σ) : Exec (σ × Error) :=
  match terminalEmitter.excerptTexts h format msg with
  | .panic m => .panic m
  | .ok texts => .ok (writeAll e.writer texts s)

/-- The wrapper `writeMessage` wraps the message with: that of the emitter,
or a fresh one of width 120 when the emitter has none, after the statement
`wrapper.MaxWidth -= (len(prefix) + 3)`. -/
def terminalEmitter.messageWrapper {σ : Type} (e : terminalEmitter σ) (msg : Diagnostic) :
    Wrapper :=
  let wrapper : Wrapper :=
    match e.wrapper with
    | some w => w
    | none => { MaxWidth := 120 }
  { MaxWidth := wrapper.MaxWidth - (((terminalEmitter.format msg).length : Int) + 3) }

/-- The texts `(*terminalEmitter).writeMessage` formats, in order. -/
def terminalEmitter.messageTexts {σ : Type} (e : terminalEmitter σ)
    (format : SGRControlSequence) (msg : Diagnostic) : List String :=
  if msg.Title = "" then []
  else if msg.Message ≠ "" then
    let lines := Wrapper.Lines (some (terminalEmitter.messageWrapper e msg)) [msg.Message]
    [terminalEmitter.blockQuotePrefixText format msg] ++
    lines.map (fun line =>
      " " ++ format.Format ++ terminalEmitter.format msg ++ format.Format ++ " | " ++
        SGRParam.Format ansi.Reset ++ line ++ "\n") ++
    (if lines.length > 0 then [terminalEmitter.blockQuotePrefixText format msg] else [])
  else []

/-- The emitter `writeMessage` leaves behind: the statement
`wrapper.MaxWidth -= (len(prefix) + 3)` writes through the pointer
`e.wrapper` when that is not nil. -/
def terminalEmitter.afterMessage {σ : Type} (e : terminalEmitter σ) (msg : Diagnostic) :
    terminalEmitter σ :=
  if msg.Title = "" then e
  else if msg.Message ≠ "" then
    match e.wrapper with
    | some _ => { e with wrapper := some (terminalEmitter.messageWrapper e msg) }
    | none => e
  else e

/-- The method `(*terminalEmitter).writeMessage`: the emitter afterwards,
the sink afterwards and the error. -/
def terminalEmitter.writeMessage {σ : Type} (e : terminalEmitter σ)
    (format : SGRControlSequence) (msg : Diagnostic) (s : σ) : terminalEmitter σ × σ × Error :=
  let o := writeAll e.writer (terminalEmitter.messageTexts e format msg) s
  (terminalEmitter.afterMessage e msg, o.1, o.2)

/-- The method `(*terminalEmitter).Emit`: the emitter afterwards, the sink
afterwards and the error, or a panic. -/
def terminalEmitter.Emit {σ : Type} (h : Host) (env : Env) (e : terminalEmitter σ)
    (msg : Diagnostic) (s : σ) : Exec (terminalEmitter σ × σ × Error) :=
  let format := terminalEmitter.severityFormat msg.Severity
  match terminalEmitter.writeTitle e format msg s with
  | (s1, some err) => .ok (e, s1, some err)
  | (s1, none) =>
    match terminalEmitter.writeFile h env e format msg s1 with
    | (s2, some err) => .ok (e, s2, some err)
    | (s2, none) =>
      match terminalEmitter.writeExcerpt h e format msg s2 with
      | .panic m => .panic m
      | .ok (s3, some err) => .ok (e, s3, some err)
      | .ok (s3, none) =>
        match terminalEmitter.writeUnderline h e format msg s3 with
        | .panic m => .panic m
        | .ok (s4, some err) => .ok (e, s4, some err)
        | .ok (s4, none) => .ok (terminalEmitter.writeMessage e format msg s4)

/-- A `*terminalEmitter` as an `Emitter`.  Its state is the sink and the
wrapper behind the pointer `e.wrapper`; a panic ends the run, after which
nothing happens any more. -/
def terminalEmitter.toEmitter {σ : Type} (h : Host) (env : Env) (e : terminalEmitter σ) :
    Emitter (Exec (σ × Option Wrapper)) :=
  { Emit := fun msg st =>
      match st with
      | .panic m => { state := .panic m, msg := msg, err := none }
      | .ok (s, wrapper) =>
        match terminalEmitter.Emit h env { e with wrapper := wrapper } msg s with
        | .panic m => { state := .panic m, msg := msg, err := none }
        | .ok (e1, s1, err) => { state := .ok (s1, e1.wrapper), msg := msg, err := err } }

/-! ## diagnostic/reporter.go, the other constructors -/

/-- An emitter on a sink, as an emitter on the state of a run that also
holds the wrapper of a terminal emitter, which it leaves alone. -/
def Emitter.lift {σ : Type} (e : Emitter σ) : Emitter (Exec (σ × Option Wrapper)) :=
  { Emit := fun msg st =>
      match st with
      | .panic m => { state := .panic m, msg := msg, err := none }
      | .ok (s, wrapper) =>
        let o := e.Emit msg s
        { state := .ok (o.state, wrapper), msg := o.msg, err := o.err } }

/-- A reporter on a sink, as a reporter on the state of such a run. -/
def Reporter.lift {σ : Type} (r : Reporter σ) : Reporter (Exec (σ × Option Wrapper)) :=
  { emitter := r.emitter.map Emitter.lift, metrics := r.metrics, showDebug := r.showDebug }

/-- The struct `TerminalOptions`. -/
structure TerminalOptions where
  BasePath : String
deriving DecidableEq, Repr

/-- The method `(*TerminalOptions).basePath`; the receiver may be nil. -/
def TerminalOptions.basePath (env : Env) (opts : Option TerminalOptions) : String :=
  match opts with
  | none => env.Getwd
  | some opts => if opts.BasePath = "" then env.Getwd else opts.BasePath

/-- The constructor `NewTerminalReporter`; `w` may be the nil writer.  The
wrapper `wrap.FromTerminal(w)` gives is where the state of the run starts. -/
def NewTerminalReporter {σ : Type} (h : Host) (env : Env) (w : Option (Sink σ))
    (opts : Option TerminalOptions) : Reporter (Exec (σ × Option Wrapper)) :=
  let emitter : Emitter (Exec (σ × Option Wrapper)) :=
    match w with
    | some sink =>
      terminalEmitter.toEmitter h env
        { writer := sink.writer, wrapper := FromTerminal env sink,
          basePath := TerminalOptions.basePath env opts }
    | none => Emitter.lift noopEmitter
  { emitter := some emitter,
    metrics := { Errors := 0, Warnings := 0, Notices := 0, Debugs := 0 },
    showDebug := false }

/-- The constructor `NewTextReporter`; `w` may be the nil writer. -/
def NewTextReporter {σ : Type} (w : Option (Sink σ)) : Reporter σ :=
  let emitter : Emitter σ :=
    match w with
    | some sink => textEmitter.toEmitter { writer := sink.writer }
    | none => noopEmitter
  { emitter := some emitter,
    metrics := { Errors := 0, Warnings := 0, Notices := 0, Debugs := 0 },
    showDebug := false }

/-- The constructor `NewLogReporter`; `w` may be the nil writer. -/
def NewLogReporter {σ : Type} (w : Option (Sink σ)) : Reporter σ :=
  let emitter : Emitter σ :=
    match w with
    | some sink => logEmitter.toEmitter { logger := sink.writer }
    | none => noopEmitter
  { emitter := some emitter,
    metrics := { Errors := 0, Warnings := 0, Notices := 0, Debugs := 0 },
    showDebug := false }

/-- The constructor `NewNoopReporter`. -/
def NewNoopReporter {σ : Type} : Reporter σ :=
  { emitter := some noopEmitter,
    metrics := { Errors := 0, Warnings := 0, Notices := 0, Debugs := 0 },
    showDebug := false }

/-! ## diagnostic/flags.go -/

/-- The type `outputFormatFlag`, a string type. -/
abbrev outputFormatFlag := String

/-- The method `(*outputFormatFlag).UnmarshalText`: the flag afterwards and
the error. -/
def outputFormatFlag.UnmarshalText (f : outputFormatFlag) (b : String) :
    outputFormatFlag × Error :=
  if b = "text" ∨ b = "terminal" ∨ b = "json" ∨ b = "github" ∨ b = "log" ∨ b = "none" then
    (b, none)
  else
    (f, some ("output-format: invalid value '" ++ b ++ "'"))

/-- The method `(*outputFormatFlag).Set`. -/
def outputFormatFlag.Set (f : outputFormatFlag) (s : String) : outputFormatFlag × Error :=
  outputFormatFlag.UnmarshalText f s

/-- The struct `Flags`. -/
structure Flags where
  outputFormat : outputFormatFlag
  debug : Bool
deriving DecidableEq, Repr

/-- The method `(*Flags).Reporter`; `w` may be the nil writer. -/
def Flags.Reporter {σ : Type} (h : Host) (env : Env) (f : Flags) (w : Option (Sink σ)) :
    GoCli.Reporter (Exec (σ × Option Wrapper)) :=
  let reporter : GoCli.Reporter (Exec (σ × Option Wrapper)) :=
    if f.outputFormat = "text" then Reporter.lift (NewTextReporter w)
    else if f.outputFormat = "terminal" then NewTerminalReporter h env w none
    else if f.outputFormat = "json" then
      Reporter.lift (NewJSONReporter h (w.map (fun sink => sink.writer)))
    else if f.outputFormat = "github" then
      Reporter.lift (NewGitHubReporter h (w.map (fun sink => sink.writer)))
    else if f.outputFormat = "log" then Reporter.lift (NewLogReporter w)
    else
      let isTerminal : Bool :=
        match w with
        | some sink =>
          match sink.Fd with
          | FdMethod.uintptr fd => env.IsTerminal fd
          | _ => false
        | none => false
      if isTerminal then NewTerminalReporter h env w none
      else Reporter.lift (NewTextReporter w)
  reporter.ShowDebug f.debug

/-- The state in which a run on the writer `w` in sink state `s` starts. -/
def startRun {σ : Type} (env : Env) (w : Option (Sink σ)) (s : σ) :
    Exec (σ × Option Wrapper) :=
  .ok (s, match w with
    | some sink => FromTerminal env sink
    | none => none)

/-! ## Greedy wrapping and blank lines as the specification words them -/

/-- A text that consists only of white space: a run of white space code
points. -/
inductive WhiteSpaceOnly : List Char → Prop where
  | nil : WhiteSpaceOnly []
  | cons (r rest : List Char) : r ∈ spaceRunes → WhiteSpaceOnly rest →
      WhiteSpaceOnly (r ++ rest)

/-- The text of an output line that holds the given words: the words joined
by single spaces. -/
def lineText (words : List String) : String := Join words " "

/-- Greedy wrapping to the width `w`: `cur` holds the words of the current
output line; a line break is placed before a word exactly when the current
line, a separating space and the word together are longer than `w`; the
result is the words of each output line. -/
def greedyLoop (w : Int) : List String → List String → List (List String)
  | cur, [] => [cur]
  | cur, word :: rest =>
    if ((lineText cur).length : Int) + (word.length : Int) + 1 > w then
      cur :: greedyLoop w [word] rest
    else
      greedyLoop w (cur ++ [word]) rest

/-! ## More sample values -/

/-- An environment in which `NO_COLOR` is set to `1`, descriptor 1 is a
terminal 80 columns wide, and the working directory is `/work`. -/
def sampleEnv : Env :=
  { Getenv := (fun name => if name = "NO_COLOR" then "1" else ""),
    Getwd := "/work",
    Rel := (fun _ path => some path),
    IsTerminal := (fun fd => decide (fd = 1)),
    GetSize := (fun fd => if fd = 1 then some 80 else none) }

/-- The flags after `--output-format=none`. -/
def noneFlags : Flags := { outputFormat := "none", debug := false }

/-- A diagnostic on `lines.txt` with the given start and end line. -/
def rangeDiagnostic (first last : Int) : Diagnostic :=
  (New SeverityError "m").With [ Annotation.File "lines.txt", Annotation.LineRange first last]

/-- A host whose one readable file, `lines.txt`, has the five lines `l1` to
`l5`. -/
def linesHost : Host :=
  { Abs := (fun path => some ("/work/" ++ path)),
    ReadFile := (fun file => if file = "lines.txt" then some "l1\nl2\nl3\nl4\nl5" else none),
    jsonString := (fun str => "\"" ++ str ++ "\"") }

/-! ## The rows of the excerpt, named -/

/-- The row `writeExcerpt` formats for an excerpted line: the line number
right-aligned in `digits` columns, the separator and the tab-expanded text. -/
def excerptRow (format : SGRControlSequence) (digits : Int) (line : Int) (text : String) :
    String :=
  " " ++ codeFormat.Format ++ fmtIntWidth digits line ++ format.Format ++ " |" ++
    excerptFormat.Format ++ "   " ++ expandTabs text ++ SGRParam.Format ansi.Reset ++ "\n"

/-- The ellipsis row `writeExcerpt` formats between two excerpted lines. -/
def ellipsisRow (format : SGRControlSequence) (msg : Diagnostic) : String :=
  " " ++ terminalEmitter.format msg ++ format.Format ++ " |" ++ excerptFormat.Format ++
    "   ..." ++ SGRParam.Format ansi.Reset ++ "\n"

/-- The condition under which the specification has the underline drawn:
the start column is known, and the end is unset or lies on the start line at
a column that is not before the start column. -/
def underlineDue (msg : Diagnostic) : Prop :=
  ∃ start, msg.Start = some start ∧ start.Column ≠ 0 ∧
    (msg.End = none ∨
      ∃ stop, msg.End = some stop ∧ stop.Line = start.Line ∧ start.Column ≤ stop.Column)

/-- A terminal emitter on a buffer, with no base path and no wrapper. -/
def sampleTerminal : terminalEmitter String :=
  { writer := bufferWriter, basePath := "", wrapper := none }

/-- A diagnostic with a title that points at line 3, column 1 of a file that
`sampleHost` cannot read. -/
def missingDiagnostic : Diagnostic :=
  (New SeverityError "m").With
    [ Annotation.Title "T", Annotation.File "missing.go", Annotation.Start 3 1]

/-- The sink and the error a run of `Emit` leaves, `none` after a panic. -/
def emitOutcome {σ : Type} (r : Exec (terminalEmitter σ × σ × Error)) : Option (σ × Error) :=
  match r with
  | .ok (_, s, err) => some (s, err)
  | .panic _ => none

/-! ## Words as the specification words them -/

/-- The bytes start with no white space code point. -/
def NoSpaceAt (bytes : List Char) : Prop :=
  ∀ r ∈ spaceRunes, ¬ r <+: bytes

/-- No white space code point stands anywhere in the bytes. -/
def SpaceFree (bytes : List Char) : Prop :=
  ∀ i, i < bytes.length → NoSpaceAt (bytes.drop i)

/-- A word: bytes, at least one, among which no white space stands. -/
def IsWord (word : String) : Prop :=
  word.data ≠ [] ∧ SpaceFree word.data

/-- The white-space-separated words of a list of lines, in order. -/
def wordsOf (lines : List String) : List String :=
  (lines.map Fields).flatten

/-- The loop state of `Lines` holds the words of `groups`, group by group, in
the lines it has put out and the words `cur` in its string builder. -/
def WrapState.Holds (st : WrapState) (groups : List (List String)) (cur : List String) :
    Prop :=
  st.newlines = groups.map lineText ∧ st.sb = lineText cur ∧
  (∀ g ∈ groups, ∀ word ∈ g, IsWord word) ∧ (∀ word ∈ cur, IsWord word)

/-! ## Sample values for the terminal emitter -/

/-- A diagnostic on line 2 of `a.go`, which is `bar`, from one column to
another. -/
def barDiagnostic (first last : Int) : Diagnostic :=
  (New SeverityError "m").With
    [ Annotation.File "a.go", Annotation.Start 2 first, Annotation.End 2 last]

/-- A diagnostic with the column range from (3, 5) to (3, 9) in `a.go`. -/
def spanDiagnostic : Diagnostic :=
  (New SeverityError "m").With
    [ Annotation.File "a.go", Annotation.Start 3 5, Annotation.End 3 9]

/-- A diagnostic at line 9, column 2 of `a.go`, which has two lines. -/
def pastEndDiagnostic : Diagnostic :=
  (New SeverityError "m").With [ Annotation.File "a.go", Annotation.Start 9 2]

/-- A diagnostic at column 2 of `a.go` with no line. -/
def noLineDiagnostic : Diagnostic :=
  (New SeverityError "m").With [ Annotation.File "a.go", Annotation.Column 2]

/-- A terminal emitter on a buffer whose wrapper is 12 columns wide. -/
def narrowTerminal : terminalEmitter String :=
  { writer := bufferWriter, basePath := "", wrapper := some { MaxWidth := 12 } }

/-- A diagnostic with a title and a message of three words. -/
def wordyDiagnostic : Diagnostic :=
  (New SeverityError "aaaa bbbb cc").With [ Annotation.Title "T"]

/-- The emitter a run of `Emit` leaves, the one given after a panic. -/
def emitterAfter {σ : Type} (e : terminalEmitter σ)
    (r : Exec (terminalEmitter σ × σ × Error)) : terminalEmitter σ :=
  match r with
  | .ok (e1, _, _) => e1
  | .panic _ => e

/-! ## diagnostictest/diagnostictest.go: conditions and queries -/

/-- The panic of the Go runtime on a field access through a nil pointer. -/
def nilDereference : String :=
  "runtime error: invalid memory address or nil pointer dereference"

/-- The type `Condition`, a function on a diagnostic; a call returns a
boolean or panics. -/
def Condition : Type := Diagnostic → Exec Bool

/-- The function `HasMessage`. -/
def HasMessage (message : String) : Condition :=
  fun d => .ok (decide (d.Message = message))

/-- The function `HasTitle`. -/
def HasTitle (s : String) : Condition :=
  fun d => .ok (decide (d.Title = s))

/-- The function `HasSeverity`. -/
def HasSeverity (severity : List Severity) : Condition :=
  fun d => .ok (severity.any (fun s => decide (d.Severity = s)))

/-- The function `HasCode`. -/
def HasCode (s : String) : Condition :=
  fun d => .ok (decide (d.Code = s))

/-- The function `HasFile`. -/
def HasFile (s : String) : Condition :=
  fun d => .ok (decide (d.File = s))

/-- The function `HasStart`: `d.Start.Line` and `d.Start.Column` are read
through the pointer `d.Start`. -/
def HasStart (line column : Int) : Condition :=
  fun d =>
    match d.Start with
    | none => .panic nilDereference
    | some start => .ok (decide (start.Line = line) && decide (start.Column = column))

/-- The function `HasEnd`: `d.End.Line` and `d.End.Column` are read through
the pointer `d.End`. -/
def HasEnd (line column : Int) : Condition :=
  fun d =>
    match d.End with
    | none => .panic nilDereference
    | some stop => .ok (decide (stop.Line = line) && decide (stop.Column = column))

/-- The function `HasRange`: the four comparisons are evaluated from the
left, and `d.End` is read only when the two on `d.Start` hold. -/
def HasRange (startLine startColumn endLine endColumn : Int) : Condition :=
  fun d =>
    match d.Start with
    | none => .panic nilDereference
    | some start =>
      if start.Line = startLine ∧ start.Column = startColumn then
        match d.End with
        | none => .panic nilDereference
        | some stop => .ok (decide (stop.Line = endLine) && decide (stop.Column = endColumn))
      else .ok false

/-- The function `matchesAll`: it returns false at the first condition that
does, without calling the ones after it. -/
def matchesAll : List Condition → Diagnostic → Exec Bool
  | [], _ => .ok true
  | condition :: rest, d =>
    match condition d with
    | .panic m => .panic m
    | .ok false => .ok false
    | .ok true => matchesAll rest d

/-- The loop of `(*Recorder).Filter` over the diagnostics not yet visited;
`diagnostics` is the slice built so far. -/
def filterLoop (conditions : List Condition) :
    List Diagnostic → List Diagnostic → Exec (List Diagnostic)
  | [], diagnostics => .ok diagnostics
  | d :: rest, diagnostics =>
    match matchesAll conditions d with
    | .panic m => .panic m
    | .ok true => filterLoop conditions rest (diagnostics ++ [d])
    | .ok false => filterLoop conditions rest diagnostics

/-- The method `(*Recorder).Filter`. -/
def Recorder.Filter (r : Recorder) (conditions : List Condition) : Exec (List Diagnostic) :=
  filterLoop conditions r.Diagnostics []

/-- The method `(*Recorder).Count`. -/
def Recorder.Count (r : Recorder) (conditions : List Condition) : Exec Int :=
  match r.Filter conditions with
  | .panic m => .panic m
  | .ok diagnostics => .ok diagnostics.length

/-- The method `(*Recorder).Contains`. -/
def Recorder.Contains (r : Recorder) (c : List Condition) : Exec Bool :=
  match r.Count c with
  | .panic m => .panic m
  | .ok n => .ok (decide (n > 0))

/-- The conditions of a list return on a diagnostic, none panics, and all
hold. -/
def Satisfies (conditions : List Condition) (d : Diagnostic) : Bool :=
  conditions.all (fun condition => condition d == .ok true)

/-- A recorder that holds one diagnostic with no position, then one at
(1, 1) with no end, then one from (1, 1) to (1, 4). -/
def sampleRecorder : Recorder :=
  { Diagnostics :=
      [New SeverityError "bare",
       (New SeverityError "point").With [ Annotation.Start 1 1],
       (New SeverityError "span").With [ Annotation.Start 1 1, Annotation.End 1 4]] }

/-- A recorder all of whose diagnostics have a start and an end. -/
def rangedRecorder : Recorder :=
  { Diagnostics :=
      [(New SeverityError "one").With [ Annotation.Start 1 1, Annotation.End 1 4],
       (New SeverityWarning "two").With [ Annotation.Start 2 1, Annotation.End 2 4],
       (New SeverityError "three").With [ Annotation.Start 1 1, Annotation.End 1 4]] }

/-- A reporter on a recorder whose four counters have been set to the largest
`int` through the pointer that `Metrics()` returns. -/
def fullReporter : Reporter Recorder :=
  { emitter := some Recorder.toEmitter,
    metrics := { Errors := maxInt, Warnings := maxInt, Notices := maxInt, Debugs := maxInt },
    showDebug := false }

/-! # Theorems -/

/-! ## Validation and the reporter -/

/-- Validation succeeds exactly for a known severity and a non-empty message. -/
theorem validate_eq_none_iff (d : Diagnostic) :
    Diagnostic.validate (some d) = none ↔
      (d.Severity = SeverityError ∨ d.Severity = SeverityWarning ∨
        d.Severity = SeverityNotice ∨ d.Severity = SeverityDebug) ∧ d.Message ≠ "" := by
  simp only [Diagnostic.validate, Severity.validate]
  constructor
  · intro h
    split_ifs at h with h1 h2 h3
    · exact ⟨h3, h2⟩
  · rintro ⟨h1, h2⟩
    have h0 : d.Severity ≠ "" := by
      rcases h1 with h | h | h | h <;> rw [h] <;> decide
    simp [h0, h2, h1]

/-- Forwarding to the emitter leaves the reporter as it is. -/
theorem forward_reporter {σ : Type} (r : Reporter σ) (s : σ) (d : Diagnostic) :
    (r.forward s d).reporter = r := by
  unfold Reporter.forward
  cases r.emitter <;> rfl

/-- A call of `Report` changes neither `showDebug` nor the emitter. -/
theorem report_showDebug {σ : Type} (r : Reporter σ) (s : σ) (m : Option Diagnostic) :
    (r.Report s m).reporter.showDebug = r.showDebug ∧
      (r.Report s m).reporter.emitter = r.emitter := by
  unfold Reporter.Report
  split
  · exact ⟨rfl, rfl⟩
  · split
    · exact ⟨rfl, rfl⟩
    · cases hsd : r.showDebug <;> split_ifs <;> simp [forward_reporter, hsd]

/-- A sequence of `Report` calls changes neither `showDebug` nor the emitter. -/
theorem reportAll_showDebug {σ : Type} (ms : List (Option Diagnostic)) :
    ∀ (r : Reporter σ) (s : σ),
      (r.ReportAll s ms).1.showDebug = r.showDebug ∧
        (r.ReportAll s ms).1.emitter = r.emitter := by
  induction ms with
  | nil => intro r s; exact ⟨rfl, rfl⟩
  | cons m ms ih =>
    intro r s
    simp only [Reporter.ReportAll]
    obtain ⟨h1, h2⟩ := ih (r.Report s m).reporter (r.Report s m).state
    obtain ⟨h3, h4⟩ := report_showDebug r s m
    exact ⟨h1.trans h3, h2.trans h4⟩

/-- The path `Report` takes for a valid debug diagnostic. -/
theorem report_debug {σ : Type} (r : Reporter σ) (s : σ) (d : Diagnostic)
    (hv : Diagnostic.validate (some d) = none) (hd : d.Severity = SeverityDebug) :
    r.Report s (some d) =
      if r.showDebug = false then
        { reporter :=
            { r with metrics := { r.metrics with Debugs := increment r.metrics.Debugs } },
          state := s, msg := some d, err := none, calls := [] }
      else
        Reporter.forward
          { r with metrics := { r.metrics with Debugs := increment r.metrics.Debugs } } s d := by
  have e1 : ¬ SeverityDebug = SeverityError := by decide
  have e2 : ¬ SeverityDebug = SeverityWarning := by decide
  have e3 : ¬ SeverityDebug = SeverityNotice := by decide
  simp only [Reporter.Report, hv, hd, e1, e2, e3, if_true, if_false]

/-- Below the largest `int`, the statement `x++` adds 1. -/
theorem increment_of_lt (c : Int) (hlo : minInt ≤ c) (hhi : c < maxInt) :
    increment c = c + 1 := by
  unfold increment wrapInt
  unfold minInt at hlo
  unfold maxInt at hhi
  omega

/-- The statement `x++` leaves a value of the type `int`. -/
theorem increment_range (c : Int) : minInt ≤ increment c ∧ increment c ≤ maxInt := by
  unfold increment wrapInt minInt maxInt
  omega

/-- C1 as stated fails: on a reporter whose counters hold the largest `int`,
`Report` of a valid error diagnostic leaves `Errors` at the smallest `int`,
which is not the largest plus 1 and is smaller than the counter was; the
three other counters keep their values. -/
theorem report_wraps_counter_at_maxInt :
    Diagnostic.validate (some (New SeverityError "e")) = none ∧
    fullReporter.metrics.Errors = maxInt ∧
    (fullReporter.Report { Diagnostics := [] }
        (some (New SeverityError "e"))).reporter.metrics =
      { fullReporter.metrics with Errors := minInt } ∧
    minInt ≠ maxInt + 1 ∧ minInt < maxInt := by
  decide

/-- C1, amended: for every reporter state and emitter and every diagnostic
that passes validation, the severity is one of the four known ones and
`Report` replaces the counter of that severity by its increment, the three
other counters keeping their values; the increment of a counter below the
largest `int` is the counter plus exactly 1, and that of the largest `int`
is the smallest `int`. -/
theorem report_increments_matching_counter {σ : Type} (r : Reporter σ) (s : σ)
    (d : Diagnostic) (hv : Diagnostic.validate (some d) = none) :
    (d.Severity = SeverityError ∨ d.Severity = SeverityWarning ∨
      d.Severity = SeverityNotice ∨ d.Severity = SeverityDebug) ∧
    (d.Severity = SeverityError →
      (r.Report s (some d)).reporter.metrics =
        { r.metrics with Errors := increment r.metrics.Errors }) ∧
    (d.Severity = SeverityWarning →
      (r.Report s (some d)).reporter.metrics =
        { r.metrics with Warnings := increment r.metrics.Warnings }) ∧
    (d.Severity = SeverityNotice →
      (r.Report s (some d)).reporter.metrics =
        { r.metrics with Notices := increment r.metrics.Notices }) ∧
    (d.Severity = SeverityDebug →
      (r.Report s (some d)).reporter.metrics =
        { r.metrics with Debugs := increment r.metrics.Debugs }) ∧
    (∀ c : Int, minInt ≤ c → c < maxInt → increment c = c + 1) ∧
    increment maxInt = minInt := by
  refine ⟨((validate_eq_none_iff d).1 hv).1, ?_, ?_, ?_, ?_, increment_of_lt, by decide⟩ <;>
    intro h
  · simp only [Reporter.Report, hv, h, if_true, forward_reporter]
  · have e1 : ¬ SeverityWarning = SeverityError := by decide
    simp only [Reporter.Report, hv, h, e1, if_true, if_false, forward_reporter]
  · have e1 : ¬ SeverityNotice = SeverityError := by decide
    have e2 : ¬ SeverityNotice = SeverityWarning := by decide
    simp only [Reporter.Report, hv, h, e1, e2, if_true, if_false, forward_reporter]
  · rw [report_debug r s d hv h]
    split_ifs
    · rfl
    · rw [forward_reporter]

/-- C1, amended, at a warning reported through an emitter that fails: the
call returns the emitter's error and `Warnings` goes from 0 to 1, the others
stay 0. -/
theorem report_increments_matching_counter_witness :
    Diagnostic.validate (some (New SeverityWarning "w")) = none ∧
    ((NewReporter (some brokenEmitter)).Report () (some (New SeverityWarning "w"))).err =
      some "broken pipe" ∧
    ((NewReporter (some brokenEmitter)).Report () (some (New SeverityWarning "w"))).reporter.metrics =
      { Errors := 0, Warnings := 1, Notices := 0, Debugs := 0 } ∧
    increment 0 = 0 + 1 :=
  ⟨by decide, by decide,
    (report_increments_matching_counter (NewReporter (some brokenEmitter)) ()
      (New SeverityWarning "w") (by decide)).2.2.1 rfl,
    (report_increments_matching_counter (NewReporter (some brokenEmitter)) ()
      (New SeverityWarning "w") (by decide)).2.2.2.2.2.1 0 (by decide) (by decide)⟩

/-- C2: let `ShowDebug(b)` be called on any reporter and any reports follow;
for a valid debug diagnostic reported then, `Debugs` is incremented (it grows
by 1 when it is below the largest `int`), and when `b` is false `Report`
returns nil without calling the emitter (the emitter state is untouched),
when `b` is true it calls the emitter exactly once, with that diagnostic, and
returns what the emitter returned. -/
theorem debug_gated_by_showDebug {σ : Type} (r : Reporter σ) (s : σ) (b : Bool)
    (earlier : List (Option Diagnostic)) (r1 : Reporter σ) (s1 : σ) (d : Diagnostic)
    (hrun : (r.ShowDebug b).ReportAll s earlier = (r1, s1))
    (hv : Diagnostic.validate (some d) = none) (hd : d.Severity = SeverityDebug) :
    (r1.Report s1 (some d)).reporter.metrics.Debugs = increment r1.metrics.Debugs ∧
    (minInt ≤ r1.metrics.Debugs → r1.metrics.Debugs < maxInt →
      (r1.Report s1 (some d)).reporter.metrics.Debugs = r1.metrics.Debugs + 1) ∧
    (b = false →
      (r1.Report s1 (some d)).err = none ∧
      (r1.Report s1 (some d)).calls = [] ∧
      (r1.Report s1 (some d)).state = s1) ∧
    (b = true → ∀ e : Emitter σ, r.emitter = some e →
      (r1.Report s1 (some d)).calls = [d] ∧
      (r1.Report s1 (some d)).state = (e.Emit d s1).state ∧
      (r1.Report s1 (some d)).err = (e.Emit d s1).err) := by
  obtain ⟨h1, h2⟩ := reportAll_showDebug earlier (r.ShowDebug b) s
  rw [hrun] at h1 h2
  have h1b : r1.showDebug = b := h1
  have h2b : r1.emitter = r.emitter := h2
  have hcount : (r1.Report s1 (some d)).reporter.metrics.Debugs =
      increment r1.metrics.Debugs := by
    rw [report_debug r1 s1 d hv hd]
    split_ifs
    · rfl
    · rw [forward_reporter]
  refine ⟨hcount, fun hlo hhi => by rw [hcount, increment_of_lt _ hlo hhi], ?_, ?_⟩
  · intro hb
    rw [report_debug r1 s1 d hv hd, h1b, hb]
    simp
  · intro hb e he
    rw [report_debug r1 s1 d hv hd, h1b, hb]
    simp [Reporter.forward, h2b, he]

/-- C2 at a recorder: after `ShowDebug(true)` and one error report, a debug
report is recorded after the error; the same with `ShowDebug(false)` leaves
the recorder with the error only. -/
theorem debug_gated_by_showDebug_witness :
    Diagnostic.validate (some (New SeverityDebug "d")) = none ∧
    ((((NewReporter (some Recorder.toEmitter)).ShowDebug true).ReportAll
        { Diagnostics := [] } [some (New SeverityError "e")]).1.Report
      { Diagnostics := [New SeverityError "e"] } (some (New SeverityDebug "d"))).state =
      { Diagnostics := [New SeverityError "e", New SeverityDebug "d"] } ∧
    ((((NewReporter (some Recorder.toEmitter)).ShowDebug false).ReportAll
        { Diagnostics := [] } [some (New SeverityError "e")]).1.Report
      { Diagnostics := [New SeverityError "e"] } (some (New SeverityDebug "d"))).state =
      { Diagnostics := [New SeverityError "e"] } :=
  ⟨by decide,
   ((debug_gated_by_showDebug (NewReporter (some Recorder.toEmitter)) { Diagnostics := [] } true
      [some (New SeverityError "e")] _ _ (New SeverityDebug "d") rfl (by decide) rfl).2.2.2 rfl
        Recorder.toEmitter rfl).2.1,
   ((debug_gated_by_showDebug (NewReporter (some Recorder.toEmitter)) { Diagnostics := [] } false
      [some (New SeverityError "e")] _ _ (New SeverityDebug "d") rfl (by decide) rfl).2.2.1 rfl).2.2⟩

/-- C3: for every reporter state and every diagnostic whose severity or
message is empty, `Report` returns an error, the reporter (its four counters
included) is what it was, and the emitter is not called: its state is what
it was. -/
theorem report_rejects_missing_field {σ : Type} (r : Reporter σ) (s : σ) (d : Diagnostic)
    (h : d.Severity = "" ∨ d.Message = "") :
    (r.Report s (some d)).err ≠ none ∧
    (r.Report s (some d)).reporter = r ∧
    (r.Report s (some d)).reporter.metrics = r.metrics ∧
    (r.Report s (some d)).calls = [] ∧
    (r.Report s (some d)).state = s := by
  have hv : Diagnostic.validate (some d) ≠ none := by
    intro hn
    obtain ⟨h1, h2⟩ := (validate_eq_none_iff d).1 hn
    rcases h with h | h
    · rw [h] at h1
      revert h1
      decide
    · exact h2 h
  obtain ⟨err, he⟩ := Option.ne_none_iff_exists'.1 hv
  simp [Reporter.Report, he]

/-- C3 at an error diagnostic with an empty message handed to a recorder:
nothing is recorded and the counters stay at zero. -/
theorem report_rejects_missing_field_witness :
    ((New SeverityError "").Severity = "" ∨ (New SeverityError "").Message = "") ∧
    ((NewReporter (some Recorder.toEmitter)).Report { Diagnostics := [] }
        (some (New SeverityError ""))).state = { Diagnostics := [] } ∧
    ((NewReporter (some Recorder.toEmitter)).Report { Diagnostics := [] }
        (some (New SeverityError ""))).reporter.metrics =
      { Errors := 0, Warnings := 0, Notices := 0, Debugs := 0 } ∧
    ((NewReporter (some Recorder.toEmitter)).Report { Diagnostics := [] }
        (some (New SeverityError ""))).err ≠ none :=
  ⟨Or.inr rfl,
   (report_rejects_missing_field (NewReporter (some Recorder.toEmitter)) { Diagnostics := [] }
      (New SeverityError "") (Or.inr rfl)).2.2.2.2,
   (report_rejects_missing_field (NewReporter (some Recorder.toEmitter)) { Diagnostics := [] }
      (New SeverityError "") (Or.inr rfl)).2.2.1,
   (report_rejects_missing_field (NewReporter (some Recorder.toEmitter)) { Diagnostics := [] }
      (New SeverityError "") (Or.inr rfl)).1⟩

/-- C4: for every non-nil diagnostic, `validate` returns an error exactly
when the severity is not one of error, warning, notice, debug (so also when
it is empty) or the message is empty; and its result is the one it gives the
diagnostic that has the same severity and message and nothing else set. -/
theorem validate_fails_iff (d : Diagnostic) :
    (Diagnostic.validate (some d) ≠ none ↔
      (¬ (d.Severity = "error" ∨ d.Severity = "warning" ∨ d.Severity = "notice" ∨
          d.Severity = "debug") ∨ d.Message = "")) ∧
    Diagnostic.validate (some d) = Diagnostic.validate (some (New d.Severity d.Message)) := by
  constructor
  · rw [Ne, validate_eq_none_iff]
    simp only [SeverityError, SeverityWarning, SeverityNotice, SeverityDebug]
    tauto
  · rfl

/-! ## The GitHub emitter -/

/-- C5: the reporter `NewGitHubReporter` builds on a buffer writes, for the
error diagnostic with message `boom`, the JSON object of the diagnostic and
a line feed, where the GitHub emitter writes `::error ::boom` and a line
feed; the two differ whatever the JSON string encoding of the host is. -/
theorem NewGitHubReporter_writes_json (h : Host) :
    ((NewGitHubReporter h (some bufferWriter)).Report "" (some (New SeverityError "boom"))).state =
      "\x7b\"severity\":" ++ h.jsonString "error" ++ ",\"message\":" ++ h.jsonString "boom" ++
        "\x7d\n" ∧
    (githubEmitter.Emit { writer := bufferWriter } (New SeverityError "boom") "").state =
      "::error ::boom\n" ∧
    ((NewGitHubReporter h (some bufferWriter)).Report "" (some (New SeverityError "boom"))).state ≠
      (githubEmitter.Emit { writer := bufferWriter } (New SeverityError "boom") "").state := by
  have h1 : ((NewGitHubReporter h (some bufferWriter)).Report ""
      (some (New SeverityError "boom"))).state =
      "\x7b\"severity\":" ++ h.jsonString "error" ++ ",\"message\":" ++ h.jsonString "boom" ++
        "\x7d\n" := by
    simp [NewGitHubReporter, Reporter.Report, Reporter.forward, Diagnostic.validate,
      Severity.validate, New, SeverityError, jsonEmitter.toEmitter, jsonEmitter.Emit,
      bufferWriter, Diagnostic.marshal, jsonObject, Join]
    apply String.ext
    simp [String.data_append]
  have h2 : (githubEmitter.Emit { writer := bufferWriter } (New SeverityError "boom") "").state =
      "::error ::boom\n" := by decide
  refine ⟨h1, h2, ?_⟩
  rw [h1, h2]
  intro heq
  have hdata := congrArg String.data heq
  simp [String.data_append] at hdata

/-- The replacer of the message leaves no byte that is one of its old bytes,
when no new string holds one. -/
theorem replaceBytes_not_mem (pairs : List (Char × String)) (c : Char)
    (hold : ∃ new, pairs.lookup c = some new)
    (hnew : ∀ p ∈ pairs, c ∉ p.2.data) (l : List Char) :
    c ∉ replaceBytes pairs l := by
  induction l with
  | nil => simp [replaceBytes]
  | cons x xs ih =>
    simp only [replaceBytes, List.mem_append, not_or]
    refine ⟨?_, ih⟩
    cases hx : pairs.lookup x with
    | none =>
      simp only [List.mem_singleton]
      intro e
      subst e
      obtain ⟨new, hn⟩ := hold
      rw [hx] at hn
      cases hn
    | some new =>
      obtain ⟨k, hk⟩ : ∃ k, (k, new) ∈ pairs := by
        clear ih hold hnew
        induction pairs with
        | nil => simp [List.lookup] at hx
        | cons p ps ihp =>
          obtain ⟨a, b⟩ := p
          simp only [List.lookup] at hx
          split at hx
          · cases hx
            exact ⟨a, List.mem_cons_self _ _⟩
          · obtain ⟨k, hk⟩ := ihp hx
            exact ⟨k, List.mem_cons_of_mem _ hk⟩
      exact hnew (k, new) hk

/-- C6 as stated fails: for the diagnostic of the example with message `m`,
the bytes `Emit` writes are not the annotation alone. -/
theorem githubEmitter_output_not_bare :
    (githubEmitter.Emit { writer := bufferWriter } (sampleWarning "m") "").state ≠
      "::warning title=[W1] Oops,file=a.go,col=5,line=3::m" := by
  decide

/-- C6, amended: for every diagnostic, `Emit` hands the writer, in one write,
`::<severity> <fields joined by ",">::<escaped message>` followed by one line
feed, and returns nil; the escaped message is the message with every line
feed replaced by `%0A` and every carriage return by `%0D`, every other byte
kept, so it holds neither; for the example diagnostic the text is
`::warning title=[W1] Oops,file=a.go,col=5,line=3::<escaped message>` and a
line feed. -/
theorem githubEmitter_emits_annotation_line {σ : Type} (e : githubEmitter σ) (d : Diagnostic)
    (s : σ) (m : String) :
    (e.Emit d s).state =
      (e.writer.Write ("::" ++ d.Severity ++ " " ++ Join (githubEmitter.fields d) "," ++ "::" ++
        githubEmitter.escapeMessage d.Message ++ "\n") s).1 ∧
    (e.Emit d s).err = none ∧
    (githubEmitter.escapeMessage d.Message).data =
      (d.Message.data.map (fun c =>
        if c = '\n' then ['%', '0', 'A'] else if c = '\r' then ['%', '0', 'D'] else [c])).flatten ∧
    '\n' ∉ (githubEmitter.escapeMessage d.Message).data ∧
    '\r' ∉ (githubEmitter.escapeMessage d.Message).data ∧
    githubEmitter.text (sampleWarning m) =
      "::warning title=[W1] Oops,file=a.go,col=5,line=3::" ++ githubEmitter.escapeMessage m ++
        "\n" := by
  refine ⟨rfl, rfl, ?_, ?_, ?_, rfl⟩
  · show replaceBytes contentEscaper d.Message.data = _
    induction d.Message.data with
    | nil => rfl
    | cons x xs ih =>
      simp only [replaceBytes, List.map_cons, List.flatten_cons, ih]
      congr 1
      by_cases h1 : x = '\n'
      · subst h1; rfl
      · by_cases h2 : x = '\r'
        · subst h2; rfl
        · have e1 : (x == '\n') = false := by simpa using h1
          have e2 : (x == '\r') = false := by simpa using h2
          simp [contentEscaper, List.lookup, e1, e2, h1, h2]
  · exact replaceBytes_not_mem contentEscaper '\n' ⟨"%0A", rfl⟩ (by decide) _
  · exact replaceBytes_not_mem contentEscaper '\r' ⟨"%0D", rfl⟩ (by decide) _

/-- C7: for every diagnostic the GitHub field list is the six entries title,
file, col, line, colEnd, lineEnd in that order, each one kept exactly when
its source value is non-empty or greater than zero; the title entry carries
the code in brackets when the code is non-empty, and a code without a title
gives no entry. -/
theorem github_fields_in_fixed_order (d : Diagnostic) :
    githubEmitter.fields d = ((githubFieldTable d).filter Prod.fst).map Prod.snd ∧
    List.Sublist (githubEmitter.fields d) ((githubFieldTable d).map Prod.snd) := by
  have key : githubEmitter.fields d = ((githubFieldTable d).filter Prod.fst).map Prod.snd := by
    obtain ⟨sev, code, title, message, file, start, stop⟩ := d
    simp only [githubEmitter.fields, githubFieldTable, startColumn, startLine, endColumn, endLine,
      List.filter_cons, List.filter_nil, decide_eq_true_eq, List.nil_append]
    by_cases ht : title = "" <;> by_cases hf : file = "" <;>
      simp only [ht, hf, ne_eq, not_true_eq_false, not_false_eq_true, if_true, if_false,
        List.nil_append, List.cons_append, List.map_cons, List.map_nil]
    all_goals
      cases start <;> cases stop <;>
        simp only [gt_iff_lt, lt_self_iff_false, if_false] <;> (try split_ifs) <;> rfl
  refine ⟨key, ?_⟩
  rw [key]
  exact (List.filter_sublist _).map _

/-- C8: for the diagnostic with title `Oo,ps`, code `W,1` and file `a,b.go`
the comma of the title is escaped, those of the code and of the file are
not: the field section has two fields and three raw commas. -/
theorem github_fields_code_and_file_unescaped :
    githubEmitter.fields commaDiagnostic = ["title=[W,1] Oo%2Cps", "file=a,b.go"] ∧
    (Join (githubEmitter.fields commaDiagnostic) ",").data.count ',' = 3 ∧
    (githubEmitter.fields commaDiagnostic).length - 1 = 1 := by
  decide

/-! ## Annotations -/

/-- C9: for every diagnostic, `Line` then `Column` and `Column` then `Line`
give the same diagnostic, the one that differs from the original only in
`start`, which is `(l, c)`, whether `start` was allocated or not; and any two
annotations with no written field in common give the same diagnostic in
either order. -/
theorem annotations_commute (d : Diagnostic) (l c : Int) :
    d.With [ Annotation.Line l, Annotation.Column c] =
      d.With [ Annotation.Column c, Annotation.Line l] ∧
    d.With [ Annotation.Line l, Annotation.Column c] =
      { d with Start := some { Line := l, Column := c } } ∧
    ∀ a b : Annotation, (∀ f, f ∈ a.writes → f ∉ b.writes) →
      d.With [a, b] = d.With [b, a] := by
  obtain ⟨sev, code, title, message, file, start, stop⟩ := d
  refine ⟨?_, ?_, ?_⟩
  · cases start <;> rfl
  · cases start <;> rfl
  · intro a b hab
    cases a <;> cases b <;> simp [ Annotation.writes] at hab <;>
      cases start <;> cases stop <;> rfl

/-- C9 at a fresh error diagnostic: `LineRange 3 7` and `ColumnRange 5 9`
write different fields and give start (3, 5) and end (7, 9) in either
order. -/
theorem annotations_commute_witness :
    (∀ f, f ∈ Annotation.writes ( Annotation.LineRange 3 7) →
      f ∉ Annotation.writes ( Annotation.ColumnRange 5 9)) ∧
    (New SeverityError "m").With [ Annotation.LineRange 3 7, Annotation.ColumnRange 5 9] =
      (New SeverityError "m").With [ Annotation.ColumnRange 5 9, Annotation.LineRange 3 7] ∧
    ((New SeverityError "m").With [ Annotation.ColumnRange 5 9, Annotation.LineRange 3 7]).Start =
      some { Line := 3, Column := 5 } ∧
    ((New SeverityError "m").With [ Annotation.ColumnRange 5 9, Annotation.LineRange 3 7]).End =
      some { Line := 7, Column := 9 } :=
  ⟨by decide,
   (annotations_commute (New SeverityError "m") 0 0).2.2 _ _ (by decide),
   by decide, by decide⟩

/-! ## The underline row of the terminal emitter -/

/-- The replacer distributes over concatenation. -/
theorem replaceBytes_append (pairs : List (Char × String)) (xs ys : List Char) :
    replaceBytes pairs (xs ++ ys) = replaceBytes pairs xs ++ replaceBytes pairs ys := by
  induction xs with
  | nil => rfl
  | cons x xs ih =>
    rw [List.cons_append]
    simp only [replaceBytes]
    rw [ih, List.append_assoc]

/-- The display width of a concatenation is the sum of the widths. -/
theorem displayWidth_append (xs ys : List Char) :
    displayWidth (xs ++ ys) = displayWidth xs + displayWidth ys := by
  simp only [displayWidth, replaceBytes_append, List.length_append]

/-- A tab is three cells wide, any other byte one. -/
theorem displayWidth_singleton (ch : Char) :
    displayWidth [ch] = if ch = '\t' then 3 else 1 := by
  by_cases h : ch = '\t'
  · subst h; rfl
  · have : (ch == '\t') = false := by simpa using h
    simp [displayWidth, replaceBytes, List.lookup, this, h]

/-- The loop of `countPrefixSpaces` returns the display width of the first
`n` bytes of the line. -/
theorem countPrefixSpacesLoop_eq (line : List Char) :
    ∀ n : Nat, countPrefixSpacesLoop line n = (displayWidth (line.take n) : Int) := by
  induction line with
  | nil => intro n; simp [countPrefixSpacesLoop, displayWidth, replaceBytes]
  | cons ch rest ih =>
    intro n
    cases n with
    | zero => simp [countPrefixSpacesLoop, displayWidth, replaceBytes]
    | succ n =>
      have e : displayWidth (ch :: List.take n rest) =
          displayWidth [ch] + displayWidth (List.take n rest) :=
        displayWidth_append [ch] _
      simp only [countPrefixSpacesLoop, List.take_succ_cons, ih n, e, displayWidth_singleton]
      split_ifs <;> push_cast <;> ring

/-- The padding of the underline row for a column `c` inside the line: the
display width of the text before column `c`, and two more when the byte at
column `c` is a tab. -/
theorem padding_eq (text : List Char) (c : Nat) (ch : Char) (hc1 : 1 ≤ c)
    (hch : text[c - 1]? = some ch) :
    (max 0 (countPrefixSpacesLoop text c - 1)).toNat =
      displayWidth (text.take (c - 1)) + (if ch = '\t' then 2 else 0) := by
  obtain ⟨k, rfl⟩ : ∃ k, c = k + 1 := ⟨c - 1, by omega⟩
  simp only [Nat.add_sub_cancel] at hch ⊢
  have hk : k < text.length := (List.getElem?_eq_some_iff.1 hch).1
  have hget : text[k] = ch := (List.getElem?_eq_some_iff.1 hch).2
  have ht : text.take (k + 1) = text.take k ++ [ch] := by
    rw [List.take_succ, List.getElem?_eq_getElem hk, hget]; rfl
  rw [countPrefixSpacesLoop_eq, ht, displayWidth_append, displayWidth_singleton]
  split_ifs <;> push_cast <;> omega

/-- C10: on a file whose line 1 is a tab followed by `foo`, a diagnostic at
column 1 (the tab) gets an underline row with 2 padding spaces before the
caret, while the text before column 1 is empty, of display width 0, and the
excerpt row shows the tab from the first cell on; at column 2 (the `f`) the
padding is 3, the display width of the tab before it. -/
theorem underline_padding_counts_tab_at_column :
    terminalEmitter.underlineText sampleHost (terminalEmitter.severityFormat SeverityError)
        (columnDiagnostic 1) =
      .ok (some (" " ++ " " ++ "\x1b[31;1m" ++ " |   " ++ Repeat " " 2 ++ "\x1b[32m" ++ "^" ++
        "\x1b[0m" ++ "\n")) ∧
    displayWidth ("\tfoo".data.take (1 - 1)) = 0 ∧
    terminalEmitter.excerptTexts sampleHost (terminalEmitter.severityFormat SeverityError)
        (columnDiagnostic 1) =
      .ok [" \x1b[31;1m \x1b[31;1m |\x1b[0m\n",
           " \x1b[1;37m1\x1b[31;1m |\x1b[90m" ++ "   " ++ "   foo" ++ "\x1b[0m\n"] ∧
    terminalEmitter.underlineText sampleHost (terminalEmitter.severityFormat SeverityError)
        (columnDiagnostic 2) =
      .ok (some (" " ++ " " ++ "\x1b[31;1m" ++ " |   " ++ Repeat " " 3 ++ "\x1b[32m" ++ "^" ++
        "\x1b[0m" ++ "\n")) ∧
    displayWidth ("\tfoo".data.take (2 - 1)) = 3 := by
  decide

/-- The line data `readLineData` returns for a position whose line is in the file. -/
theorem readLineData_of_line (lines : List String) (pos : Position) (text : String)
    (hline : 1 ≤ pos.Line) (htext : lines[(pos.Line - 1).toNat]? = some text) :
    readLineData lines pos = .ok { text := text, line := pos.Line, col := pos.Column } := by
  have hlt : (pos.Line - 1).toNat < lines.length := (List.getElem?_eq_some_iff.1 htext).1
  have h0 : ¬ pos.Line = 0 := by omega
  have h1 : ¬ pos.Line - 1 ≥ (lines.length : Int) := by omega
  have h2 : ¬ pos.Line - 1 < 0 := by omega
  simp only [readLineData, h0, h1, h2, if_false, htext]
  split_ifs with hc
  · rw [hc]
  · rfl

/-- Where the byte at the start column is not a tab: on every readable file
and for every diagnostic whose underline is drawn, with the start column
inside the line, the underline row has as many padding spaces before the
caret as the text before that column is wide in the excerpt row, and the
excerpt row shows the byte of that column at that offset. -/
theorem underline_padding_of_ordinary_byte (h : Host) (format : SGRControlSequence) (msg : Diagnostic)
    (start : Position) (content text : String)
    (hstart : msg.Start = some start)
    (hend : ∀ stop, msg.End = some stop → start.Line = stop.Line ∧ start.Column ≤ stop.Column)
    (hfile : h.ReadFile msg.File = some content)
    (hline : 1 ≤ start.Line)
    (htext : (Split content '\n')[(start.Line - 1).toNat]? = some text)
    (hc1 : 1 ≤ start.Column) (hc2 : start.Column ≤ text.length)
    (hch : text.data[(start.Column - 1).toNat]? ≠ some '\t') :
    ∃ data : lineRange,
      readLineRange h msg.File msg.Start msg.End = .ok (.ok data) ∧
      data.start.text = text ∧
      terminalEmitter.underlineText h format msg =
        .ok (some (" " ++ terminalEmitter.format msg ++ format.Format ++ " |   " ++
          Repeat " " (displayWidth (text.data.take (start.Column - 1).toNat)) ++
          underlineFormat.Format ++ terminalEmitter.underlineMarks data msg start ++
          SGRParam.Format ansi.Reset ++ "\n")) ∧
      (expandTabs text).data[displayWidth (text.data.take (start.Column - 1).toNat)]? =
        text.data[(start.Column - 1).toNat]? := by
  have hlen : ((start.Column - 1).toNat) < text.data.length := by
    have : (text.length : Int) = text.data.length := rfl
    omega
  obtain ⟨ch, hget⟩ : ∃ ch, text.data[(start.Column - 1).toNat]? = some ch :=
    ⟨_, List.getElem?_eq_getElem hlen⟩
  have hnt : ch ≠ '\t' := by
    intro e; rw [hget, e] at hch; exact hch rfl
  have hsd := readLineData_of_line (Split content '\n') start text hline htext
  -- the padding
  have hpad : (max 0 (countPrefixSpaces text start.Column - 1)).toNat =
      displayWidth (text.data.take (start.Column - 1).toNat) := by
    have hc : start.Column.toNat - 1 = (start.Column - 1).toNat := by omega
    have := padding_eq text.data start.Column.toNat ch (by omega) (by rw [hc]; exact hget)
    rw [hc] at this
    simp only [countPrefixSpaces, this, if_neg hnt, Nat.add_zero]
  -- the excerpt row shows the character at the same offset
  have hshow : (expandTabs text).data[displayWidth (text.data.take (start.Column - 1).toNat)]? =
      text.data[(start.Column - 1).toNat]? := by
    have hsplit : text.data = text.data.take (start.Column - 1).toNat ++
        (ch :: text.data.drop ((start.Column - 1).toNat + 1)) := by
      have := List.take_append_drop (start.Column - 1).toNat text.data
      rw [List.drop_eq_getElem_cons hlen] at this
      have hg : text.data[(start.Column - 1).toNat] = ch := by
        have := List.getElem?_eq_getElem hlen
        rw [hget] at this
        exact (Option.some.inj this).symm
      rw [hg] at this
      exact this.symm
    have hone : replaceBytes [('\t', "   ")] [ch] = [ch] := by
      have : (ch == '\t') = false := by simpa using hnt
      simp [replaceBytes, List.lookup, this]
    have hexp : (expandTabs text).data =
        replaceBytes [('\t', "   ")] (text.data.take (start.Column - 1).toNat) ++
          (ch :: replaceBytes [('\t', "   ")] (text.data.drop ((start.Column - 1).toNat + 1))) := by
      show replaceBytes [('\t', "   ")] text.data = _
      conv_lhs => rw [hsplit]
      rw [replaceBytes_append]
      have : ch :: text.data.drop ((start.Column - 1).toNat + 1) =
          [ch] ++ text.data.drop ((start.Column - 1).toNat + 1) := rfl
      rw [this, replaceBytes_append, hone]
      rfl
    rw [hexp, hget]
    unfold displayWidth
    generalize replaceBytes [('\t', "   ")] (List.take (start.Column - 1).toNat text.data) = pre
    rw [List.getElem?_append_right (le_refl _), Nat.sub_self, List.getElem?_cons_zero]
  cases hE : msg.End with
  | none =>
    refine ⟨{ start := { text := text, line := start.Line, col := start.Column },
              «end» := lineData.zero }, ?_, rfl, ?_, hshow⟩
    · simp only [readLineRange, readLines, hfile, hstart, hsd]
    · have h0 : ¬ start.Column = 0 := by omega
      simp only [terminalEmitter.underlineText, hstart, hE, h0, if_false, readLineRange, readLines,
        hfile, hsd, hpad]
      simp
  | some stop =>
    obtain ⟨hl, hcol⟩ := hend stop hE
    have hed := readLineData_of_line (Split content '\n') stop text (by omega) (by rw [← hl]; exact htext)
    refine ⟨{ start := { text := text, line := start.Line, col := start.Column },
              «end» := { text := text, line := stop.Line, col := stop.Column } }, ?_, rfl, ?_, hshow⟩
    · simp only [readLineRange, readLines, hfile, hstart, hsd, hed]
    · have h0 : ¬ start.Column = 0 := by omega
      have hskip : (decide (start.Line ≠ stop.Line) || decide (start.Column > stop.Column)) = false := by
        simp [hl]; omega
      simp only [terminalEmitter.underlineText, hstart, hE, h0, if_false, readLineRange, readLines,
        hfile, hsd, hed, hpad, hskip]
      simp

/-! ## The reporter forwards to its emitter -/

/-- The outcome of `Report` for a valid diagnostic that is not a suppressed
debug diagnostic, on a reporter with an emitter. -/
theorem report_of_shown {σ : Type} (r : Reporter σ) (s : σ) (d : Diagnostic)
    (e : Emitter σ) (hv : Diagnostic.validate (some d) = none) (he : r.emitter = some e)
    (hshown : ¬ (d.Severity = SeverityDebug ∧ r.showDebug = false)) :
    (r.Report s (some d)).calls = [d] ∧
    (r.Report s (some d)).err = (e.Emit d s).err ∧
    (r.Report s (some d)).state = (e.Emit d s).state ∧
    (r.Report s (some d)).msg = some (e.Emit d s).msg ∧
    (d.Severity = SeverityError →
      (r.Report s (some d)).reporter.metrics =
        { r.metrics with Errors := increment r.metrics.Errors }) ∧
    (d.Severity = SeverityWarning →
      (r.Report s (some d)).reporter.metrics =
        { r.metrics with Warnings := increment r.metrics.Warnings }) ∧
    (d.Severity = SeverityNotice →
      (r.Report s (some d)).reporter.metrics =
        { r.metrics with Notices := increment r.metrics.Notices }) ∧
    (d.Severity = SeverityDebug →
      (r.Report s (some d)).reporter.metrics =
        { r.metrics with Debugs := increment r.metrics.Debugs }) := by
  have e1 : ¬ SeverityWarning = SeverityError := by decide
  have e2 : ¬ SeverityNotice = SeverityError := by decide
  have e3 : ¬ SeverityNotice = SeverityWarning := by decide
  have e4 : ¬ SeverityDebug = SeverityError := by decide
  have e5 : ¬ SeverityDebug = SeverityWarning := by decide
  have e6 : ¬ SeverityDebug = SeverityNotice := by decide
  have e1r : ¬ SeverityError = SeverityWarning := by decide
  have e2r : ¬ SeverityError = SeverityNotice := by decide
  have e3r : ¬ SeverityWarning = SeverityNotice := by decide
  have e4r : ¬ SeverityError = SeverityDebug := by decide
  have e5r : ¬ SeverityWarning = SeverityDebug := by decide
  have e6r : ¬ SeverityNotice = SeverityDebug := by decide
  rcases ((validate_eq_none_iff d).1 hv).1 with h | h | h | h
  · simp [Reporter.Report, hv, h, Reporter.forward, he, e1r, e2r, e4r]
  · simp [Reporter.Report, hv, h, Reporter.forward, he, e1, e3r, e5r]
  · simp [Reporter.Report, hv, h, Reporter.forward, he, e2, e3, e6r]
  · have hs : r.showDebug = true := by
      cases hsd : r.showDebug
      · exact absurd ⟨h, hsd⟩ hshown
      · rfl
    simp [Reporter.Report, hv, h, Reporter.forward, he, e4, e5, e6, hs]

/-- C14: for every valid diagnostic that is not a debug diagnostic suppressed
by `showDebug` being false, `Report` on a reporter with an emitter calls the
emitter exactly once, with that diagnostic, leaves the state the emitter left
and returns the emitter's result, nil or error, as it is; the counter of the
severity has been incremented whatever the emitter returned, the three other
counters keeping their values, and the increment of a counter below the
largest `int` is the counter plus 1. -/
theorem report_forwards_to_emitter {σ : Type} (r : Reporter σ) (s : σ) (d : Diagnostic)
    (e : Emitter σ) (hv : Diagnostic.validate (some d) = none) (he : r.emitter = some e)
    (hshown : ¬ (d.Severity = SeverityDebug ∧ r.showDebug = false)) :
    (r.Report s (some d)).calls = [d] ∧
    (r.Report s (some d)).err = (e.Emit d s).err ∧
    (r.Report s (some d)).state = (e.Emit d s).state ∧
    (r.Report s (some d)).msg = some (e.Emit d s).msg ∧
    (d.Severity = SeverityError →
      (r.Report s (some d)).reporter.metrics =
        { r.metrics with Errors := increment r.metrics.Errors }) ∧
    (d.Severity = SeverityWarning →
      (r.Report s (some d)).reporter.metrics =
        { r.metrics with Warnings := increment r.metrics.Warnings }) ∧
    (d.Severity = SeverityNotice →
      (r.Report s (some d)).reporter.metrics =
        { r.metrics with Notices := increment r.metrics.Notices }) ∧
    (d.Severity = SeverityDebug →
      (r.Report s (some d)).reporter.metrics =
        { r.metrics with Debugs := increment r.metrics.Debugs }) ∧
    (∀ c : Int, minInt ≤ c → c < maxInt → increment c = c + 1) := by
  obtain ⟨h1, h2, h3, h4, h5, h6, h7, h8⟩ := report_of_shown r s d e hv he hshown
  exact ⟨h1, h2, h3, h4, h5, h6, h7, h8, increment_of_lt⟩

/-- C14 at a warning on an emitter that fails and at a debug message shown
by a recorder: the error `broken pipe` comes back unchanged, the recorder
holds the debug message, and each call is made once. -/
theorem report_forwards_to_emitter_witness :
    Diagnostic.validate (some (New SeverityWarning "w")) = none ∧
    ((NewReporter (some brokenEmitter)).Report () (some (New SeverityWarning "w"))).err =
      some "broken pipe" ∧
    ((NewReporter (some brokenEmitter)).Report () (some (New SeverityWarning "w"))).calls =
      [New SeverityWarning "w"] ∧
    (((NewReporter (some Recorder.toEmitter)).ShowDebug true).Report { Diagnostics := [] }
        (some (New SeverityDebug "d"))).state = { Diagnostics := [New SeverityDebug "d"] } :=
  ⟨by decide,
   (report_forwards_to_emitter (NewReporter (some brokenEmitter)) () (New SeverityWarning "w")
      brokenEmitter (by decide) rfl (by decide)).2.1,
   (report_forwards_to_emitter (NewReporter (some brokenEmitter)) () (New SeverityWarning "w")
      brokenEmitter (by decide) rfl (by decide)).1,
   (report_forwards_to_emitter ((NewReporter (some Recorder.toEmitter)).ShowDebug true)
      { Diagnostics := [] } (New SeverityDebug "d") Recorder.toEmitter (by decide) rfl
      (by decide)).2.2.1⟩

/-! ## The wrapper -/

/-- C17: for every list of input lines, `Lines` on the nil wrapper and on a
wrapper whose `MaxWidth` is 0 return the lines `Lines` returns on a wrapper
whose `MaxWidth` is 120. -/
theorem lines_default_width (lines : List String) :
    Wrapper.Lines none lines = Wrapper.Lines (some { MaxWidth := 120 }) lines ∧
    Wrapper.Lines (some { MaxWidth := 0 }) lines =
      Wrapper.Lines (some { MaxWidth := 120 }) lines := by
  have h1 : Wrapper.maxWidth none = 120 := rfl
  have h2 : Wrapper.maxWidth (some { MaxWidth := 0 }) = 120 := rfl
  have h3 : Wrapper.maxWidth (some { MaxWidth := 120 }) = 120 := rfl
  simp only [Wrapper.Lines, h1, h2, h3, and_self]

/-- C18: the line feed of the argument `a`, line feed, `b` is not passed
through: `wrap.Lines` returns the one line `a b` and `wrap.Strings` the text
`a b`, in which the line feed has become a space, and so do the methods on a
wrapper of width 1, which breaks the line between the two words and returns
them without the line feed. -/
theorem wrap_drops_line_feeds :
    wrap.Lines ["a\nb"] = ["a b"] ∧
    wrap.Strings ["a\nb"] = "a b" ∧
    '\n' ∉ (wrap.Strings ["a\nb"]).data ∧
    Wrapper.Lines (some { MaxWidth := 120 }) ["a\nb"] = ["a b"] ∧
    Wrapper.Strings none ["a\n\nb", "c"] = "a b c" := by
  decide

/-! ## Flags and colour detection -/

/-- C19: with the output format set to `none`, the reporter `Flags.Reporter`
returns on a buffer writes the message `boom` of an error diagnostic to the
buffer, as the text reporter does, where the no-op reporter writes nothing;
`UnmarshalText` does accept `none`, and it accepts exactly the six values,
leaving the flag as it was for any other. -/
theorem flags_none_is_not_noop (h : Host) (env : Env) :
    (outputFormatFlag.UnmarshalText "" "none") = ("none", none) ∧
    ((Flags.Reporter h env noneFlags (some bufferSink)).Report
        (startRun env (some bufferSink) "") (some (New SeverityError "boom"))).state =
      .ok ("boom", none) ∧
    ((Reporter.lift (NewTextReporter (some bufferSink))).Report
        (startRun env (some bufferSink) "") (some (New SeverityError "boom"))).state =
      .ok ("boom", none) ∧
    ((Reporter.lift NewNoopReporter).Report
        (startRun env (some bufferSink) "") (some (New SeverityError "boom"))).state =
      .ok ("", none) ∧
    (∀ f b : String, (outputFormatFlag.UnmarshalText f b).2 = none ↔
      (b = "text" ∨ b = "terminal" ∨ b = "json" ∨ b = "github" ∨ b = "log" ∨ b = "none")) ∧
    (∀ f b : String, (outputFormatFlag.UnmarshalText f b).2 ≠ none →
      (outputFormatFlag.UnmarshalText f b).1 = f) := by
  refine ⟨by decide, by rfl, by rfl, by rfl, ?_, ?_⟩
  · intro f b
    unfold outputFormatFlag.UnmarshalText
    split_ifs with hb
    · simp [hb]
    · simp [hb]
  · intro f b
    unfold outputFormatFlag.UnmarshalText
    split_ifs with hb
    · simp
    · simp

/-- C20: `CanFormat` never reads the environment: `envIsTrue` parses the
name of the variable, which is no boolean, so on a file writer the result is
what `term.IsTerminal` says; with `NO_COLOR` set to `1`, which `ParseBool`
parses as true, and descriptor 1 a terminal, `CanFormat` returns true.  For
a writer made by `EnableFormat` it returns true in every environment. -/
theorem canFormat_ignores_no_color :
    ParseBool (sampleEnv.Getenv "NO_COLOR") = some true ∧
    sampleEnv.IsTerminal 1 = true ∧
    CanFormat sampleEnv (some (fileSink 1)) = true ∧
    envIsTrue "NO_COLOR" = false ∧ envIsTrue "NOCOLOR" = false ∧
    (∀ (env : Env) (fd : Nat), CanFormat env (some (fileSink fd)) = env.IsTerminal fd) ∧
    (∀ (env : Env) (w : Sink String), CanFormat env (some (EnableFormat w)) = true) := by
  refine ⟨by decide, by decide, by decide, by decide, by decide, ?_, ?_⟩
  · intro env fd
    rfl
  · intro env w
    rfl

/-! ## White space, fields and greedy wrapping -/

/-- Past a white space code point, the left trim goes on with what follows
it. -/
theorem trimLeftLoop_space (r rest : List Char) (hr : r ∈ spaceRunes) :
    trimLeftLoop 0 (r ++ rest) = trimLeftLoop 0 rest := by
  simp only [spaceRunes, List.mem_cons, List.mem_singleton, List.not_mem_nil, or_false] at hr
  rcases hr with h | h | h | h | h | h | h | h | h | h | h | h | h | h | h | h | h | h | h | h |
    h | h | h | h | h <;> subst h <;>
    simp [trimLeftLoop, spaceWidth, spaceRunes, List.find?, List.isPrefixOf]

/-- A text of white space only is trimmed to nothing. -/
theorem trimLeftLoop_whiteSpaceOnly (l : List Char) (h : WhiteSpaceOnly l) :
    trimLeftLoop 0 l = [] := by
  induction h with
  | nil => rfl
  | cons r rest hr _ ih => rw [trimLeftLoop_space r rest hr, ih]

/-- What the left trim returns starts with no white space. -/
theorem trimLeftLoop_idem (l : List Char) :
    ∀ k : Nat, trimLeftLoop 0 (trimLeftLoop k l) = trimLeftLoop k l := by
  induction l with
  | nil => intro k; cases k <;> rfl
  | cons c rest ih =>
    intro k
    cases k with
    | succ k => simpa only [trimLeftLoop] using ih k
    | zero =>
      cases hsw : spaceWidth (c :: rest) with
      | zero => simp only [trimLeftLoop, hsw]
      | succ n => simpa only [trimLeftLoop, hsw] using ih n

/-- The right trim of a text that starts with no white space is not empty. -/
theorem trimRightBytes_ne_nil (l : List Char) (hl : l ≠ []) (hs : trimLeftLoop 0 l = l) :
    trimRightBytes l ≠ [] := by
  cases l with
  | nil => exact absurd rfl hl
  | cons c rest =>
    simp only [trimRightBytes, hs]
    simp

/-- The trimmed text is empty exactly when the left trim leaves nothing. -/
theorem trimSpace_eq_empty_iff (line : String) :
    TrimSpace line = "" ↔ trimLeftLoop 0 line.data = [] := by
  constructor
  · intro h
    by_contra hne
    have h1 := trimRightBytes_ne_nil _ hne (trimLeftLoop_idem line.data 0)
    apply h1
    have := congrArg String.data h
    simpa [TrimSpace] using this
  · intro h
    simp [TrimSpace, h, trimRightBytes]

/-- A text the left trim leaves nothing of is white space only. -/
theorem whiteSpaceOnly_of_trimLeftLoop (l : List Char) :
    ∀ k : Nat, trimLeftLoop k l = [] → WhiteSpaceOnly (l.drop k) := by
  induction l with
  | nil => intro k _; simpa using WhiteSpaceOnly.nil
  | cons c rest ih =>
    intro k hk
    cases k with
    | succ k =>
      simp only [trimLeftLoop] at hk
      simpa using ih k hk
    | zero =>
      cases hsw : spaceWidth (c :: rest) with
      | zero => simp [trimLeftLoop, hsw] at hk
      | succ n =>
        simp only [trimLeftLoop, hsw] at hk
        have hrest := ih n hk
        unfold spaceWidth at hsw
        cases hf : spaceRunes.find? (fun r => r.isPrefixOf (c :: rest)) with
        | none => simp [hf] at hsw
        | some r =>
          simp only [hf] at hsw
          have hmem : r ∈ spaceRunes := List.mem_of_find?_eq_some hf
          have hpre : r.isPrefixOf (c :: rest) = true :=
            List.find?_some (p := fun r : List Char => r.isPrefixOf (c :: rest)) hf
          obtain ⟨t, ht⟩ := List.isPrefixOf_iff_prefix.1 hpre
          have hdrop : rest.drop n = t := by
            have h1 : (c :: rest).drop (n + 1) = t := by
              rw [← ht, ← hsw, List.drop_left]
            simpa using h1
          rw [List.drop_zero, ← ht]
          exact WhiteSpaceOnly.cons r t hmem (hdrop ▸ hrest)

/-- A line is blank for `Lines` exactly when it is white space only. -/
theorem trimSpace_eq_empty_iff_whiteSpaceOnly (line : String) :
    TrimSpace line = "" ↔ WhiteSpaceOnly line.data := by
  rw [trimSpace_eq_empty_iff]
  constructor
  · intro h
    simpa using whiteSpaceOnly_of_trimLeftLoop line.data 0 h
  · exact trimLeftLoop_whiteSpaceOnly line.data

/-- C16 as stated fails: the empty line holds no byte that is not white
space, and `Lines` returns no line for it. -/
theorem lines_of_empty_line :
    WhiteSpaceOnly "".data ∧ Wrapper.Lines none [""] = [] ∧
    Wrapper.Lines (some { MaxWidth := 3 }) [""] ≠ [""] := by
  refine ⟨WhiteSpaceOnly.nil, by decide, by decide⟩

/-- C16, amended: for every wrapper, nil or of any width, and every input
line that is not empty and consists only of white space, `Lines` applied to
that single line returns exactly one line, the empty string. -/
theorem lines_of_blank_line (w : Option Wrapper) (line : String) (hne : line ≠ "")
    (hblank : WhiteSpaceOnly line.data) :
    Wrapper.Lines w [line] = [""] := by
  have ht : TrimSpace line = "" := (trimSpace_eq_empty_iff_whiteSpaceOnly line).2 hblank
  have h1 : ¬ (some line = some "") := by
    intro h
    exact hne (Option.some.inj h)
  simp [Wrapper.Lines, wrapLine, ht, hne]

/-- C16, amended, at the line of two blanks and a tab, on a wrapper of
width 3. -/
theorem lines_of_blank_line_witness :
    "  \t" ≠ "" ∧ WhiteSpaceOnly "  \t".data ∧
    Wrapper.Lines (some { MaxWidth := 3 }) ["  \t"] = [""] :=
  ⟨by decide,
   WhiteSpaceOnly.cons [' '] _ (by decide)
     (WhiteSpaceOnly.cons [' '] _ (by decide)
       (WhiteSpaceOnly.cons ['\t'] _ (by decide) WhiteSpaceOnly.nil)),
   lines_of_blank_line (some { MaxWidth := 3 }) "  \t" (by decide)
     (WhiteSpaceOnly.cons [' '] _ (by decide)
       (WhiteSpaceOnly.cons [' '] _ (by decide)
         (WhiteSpaceOnly.cons ['\t'] _ (by decide) WhiteSpaceOnly.nil)))⟩


/-- Every field the scan returns holds a byte, when the field being read
does or is empty. -/
theorem fieldsLoop_nonempty (l : List Char) :
    ∀ (skip : Nat) (word : List Char), ∀ x ∈ fieldsLoop skip word l, x ≠ [] := by
  induction l with
  | nil =>
    intro skip word x hx
    cases skip <;> simp only [fieldsLoop] at hx <;> split_ifs at hx with hw <;> simp_all
  | cons c rest ih =>
    intro skip word x hx
    cases skip with
    | succ k =>
      simp only [fieldsLoop] at hx
      exact ih k word x hx
    | zero =>
      cases hsw : spaceWidth (c :: rest) with
      | zero =>
        simp only [fieldsLoop, hsw] at hx
        exact ih 0 _ x hx
      | succ n =>
        simp only [fieldsLoop, hsw, List.mem_append] at hx
        rcases hx with hx | hx
        · split_ifs at hx with hw <;> simp_all
        · exact ih n [] x hx

/-- The scan returns a field when it is reading one. -/
theorem fieldsLoop_ne_nil_of_word (l : List Char) :
    ∀ (skip : Nat) (word : List Char), word ≠ [] → fieldsLoop skip word l ≠ [] := by
  induction l with
  | nil =>
    intro skip word hw
    cases skip <;> simp [fieldsLoop, hw]
  | cons c rest ih =>
    intro skip word hw
    cases skip with
    | succ k =>
      simp only [fieldsLoop]
      exact ih k word hw
    | zero =>
      cases hsw : spaceWidth (c :: rest) with
      | zero =>
        simp only [fieldsLoop, hsw]
        exact ih 0 _ (by simp)
      | succ n =>
        simp [fieldsLoop, hsw, hw]

/-- The scan returns a field when the text is not white space only. -/
theorem fieldsLoop_ne_nil (l : List Char) :
    ∀ skip : Nat, trimLeftLoop skip l ≠ [] → fieldsLoop skip [] l ≠ [] := by
  induction l with
  | nil => intro skip h; cases skip <;> simp [trimLeftLoop] at h
  | cons c rest ih =>
    intro skip h
    cases skip with
    | succ k =>
      simp only [trimLeftLoop] at h
      simp only [fieldsLoop]
      exact ih k h
    | zero =>
      cases hsw : spaceWidth (c :: rest) with
      | zero =>
        simp only [fieldsLoop, hsw]
        exact fieldsLoop_ne_nil_of_word rest 0 _ (by simp)
      | succ n =>
        simp only [trimLeftLoop, hsw] at h
        simp only [fieldsLoop, hsw]
        have := ih n h
        simp [this]

/-- Every field of a line holds a byte. -/
theorem fields_length_pos (line : String) : ∀ word ∈ Fields line, 0 < word.length := by
  intro word hw
  simp only [Fields, List.mem_map] at hw
  obtain ⟨x, hx, rfl⟩ := hw
  have := fieldsLoop_nonempty line.data 0 [] x hx
  simpa [List.length_pos] using this

/-- A line that is not blank has a field. -/
theorem fields_ne_nil (line : String) (h : TrimSpace line ≠ "") : Fields line ≠ [] := by
  have h1 : trimLeftLoop 0 line.data ≠ [] := fun e => h ((trimSpace_eq_empty_iff line).2 e)
  have h2 := fieldsLoop_ne_nil line.data 0 h1
  simpa [Fields] using h2

/-- The text of a line with one more word. -/
theorem lineText_concat (cur : List String) (word : String) (hcur : cur ≠ []) :
    lineText (cur ++ [word]) = lineText cur ++ " " ++ word := by
  induction cur with
  | nil => exact absurd rfl hcur
  | cons a rest ih =>
    cases rest with
    | nil => rfl
    | cons b rest2 =>
      have h1 : lineText (b :: rest2 ++ [word]) = lineText (b :: rest2) ++ " " ++ word :=
        ih (by simp)
      show a ++ " " ++ lineText (b :: rest2 ++ [word]) =
        a ++ " " ++ lineText (b :: rest2) ++ " " ++ word
      rw [h1]
      simp only [String.append_assoc]

/-- The text of a line of words that each hold a byte is not empty. -/
theorem lineText_length_pos (cur : List String) (hcur : cur ≠ [])
    (hpos : ∀ word ∈ cur, 0 < word.length) : 0 < (lineText cur).length := by
  cases cur with
  | nil => exact absurd rfl hcur
  | cons a rest =>
    have ha := hpos a (List.mem_cons_self _ _)
    cases rest with
    | nil => simpa [lineText, Join] using ha
    | cons b rest2 =>
      simp only [lineText, Join, String.length_append]
      omega

/-- The length of a line with one more word. -/
theorem lineText_concat_length_le (cur : List String) (word : String) :
    (lineText (cur ++ [word])).length ≤ (lineText cur).length + 1 + word.length := by
  cases cur with
  | nil => simp [lineText, Join]
  | cons a rest =>
    have h1 : " ".length = 1 := rfl
    rw [lineText_concat (a :: rest) word (by simp)]
    simp only [String.length_append, h1]
    omega

/-- A round of the inner loop that breaks the line. -/
theorem wrapWord_break (w : Int) (st : WrapState) (word : String)
    (h : (st.sb.length : Int) + (word.length : Int) + 1 > w) :
    wrapWord w st word = { newlines := st.newlines ++ [st.sb], sb := word } := by
  have h0 : ¬ ("".length > 0) := by decide
  simp only [wrapWord, if_pos h, if_neg h0, String.empty_append]

/-- A round of the inner loop on an empty builder that does not break. -/
theorem wrapWord_first (w : Int) (st : WrapState) (word : String)
    (h : ¬ ((st.sb.length : Int) + (word.length : Int) + 1 > w)) (h0 : st.sb = "") :
    wrapWord w st word = { newlines := st.newlines, sb := word } := by
  have h1 : ¬ (st.sb.length > 0) := by rw [h0]; decide
  simp only [wrapWord, if_neg h, if_neg h1]
  rw [h0, String.empty_append]

/-- A round of the inner loop on a builder that holds text and does not
break. -/
theorem wrapWord_next (w : Int) (st : WrapState) (word : String)
    (h : ¬ ((st.sb.length : Int) + (word.length : Int) + 1 > w)) (h0 : st.sb.length > 0) :
    wrapWord w st word = { newlines := st.newlines, sb := st.sb ++ " " ++ word } := by
  simp only [wrapWord, if_neg h, if_pos h0]

/-- The string builder of `Lines` follows greedy wrapping: from a builder
that holds the text of the words `cur`, the lines already put out, then the
builder, are the lines put out before and then the texts of the lines of
greedy wrapping. -/
theorem foldl_wrapWord_greedy (w : Int) (words : List String) :
    ∀ (nl : List String) (cur : List String),
      (∀ word ∈ cur, 0 < word.length) → (∀ word ∈ words, 0 < word.length) →
      ((words.foldl (wrapWord w) { newlines := nl, sb := lineText cur }).newlines ++
        [(words.foldl (wrapWord w) { newlines := nl, sb := lineText cur }).sb]) =
      nl ++ (greedyLoop w cur words).map lineText := by
  induction words with
  | nil => intro nl cur _ _; rfl
  | cons word rest ih =>
    intro nl cur hcur hwords
    have hword : 0 < word.length := hwords word (List.mem_cons_self _ _)
    have hrest : ∀ x ∈ rest, 0 < x.length := fun x hx => hwords x (List.mem_cons_of_mem _ hx)
    simp only [List.foldl_cons, greedyLoop]
    by_cases hbreak : ((lineText cur).length : Int) + (word.length : Int) + 1 > w
    · have hstep : wrapWord w { newlines := nl, sb := lineText cur } word =
          { newlines := nl ++ [lineText cur], sb := lineText [word] } :=
        wrapWord_break w _ word hbreak
      have hw1 : ∀ x ∈ [word], 0 < x.length := by
        intro x hx
        rw [List.mem_singleton.1 hx]; exact hword
      rw [hstep, if_pos hbreak, ih (nl ++ [lineText cur]) [word] hw1 hrest]
      simp
    · have hstep : wrapWord w { newlines := nl, sb := lineText cur } word =
          { newlines := nl, sb := lineText (cur ++ [word]) } := by
        by_cases hc : cur = []
        · subst hc
          exact wrapWord_first w _ word hbreak rfl
        · have hpos := lineText_length_pos cur hc hcur
          rw [lineText_concat cur word hc]
          exact wrapWord_next w _ word hbreak hpos
      have hcur2 : ∀ x ∈ cur ++ [word], 0 < x.length := by
        intro x hx
        rcases List.mem_append.1 hx with h | h
        · exact hcur x h
        · rw [List.mem_singleton.1 h]; exact hword
      rw [hstep, if_neg hbreak, ih nl (cur ++ [word]) hcur2 hrest]

/-- After a word has gone through the loop, the builder is not empty. -/
theorem foldl_wrapWord_sb_pos (w : Int) (words : List String) :
    ∀ st : WrapState, words ≠ [] → (∀ word ∈ words, 0 < word.length) →
      0 < (words.foldl (wrapWord w) st).sb.length := by
  induction words with
  | nil => intro st h; exact absurd rfl h
  | cons word rest ih =>
    intro st _ hwords
    have hword : 0 < word.length := hwords word (List.mem_cons_self _ _)
    cases rest with
    | nil =>
      simp only [List.foldl_cons, List.foldl_nil, wrapWord]
      split_ifs <;> simp [String.length_append] <;> omega
    | cons b rest2 =>
      rw [List.foldl_cons]
      exact ih _ (by simp) (fun x hx => hwords x (List.mem_cons_of_mem _ hx))

/-- Every line of greedy wrapping that holds more than one word fits the
width, when the current line does. -/
theorem greedyLoop_fits (w : Int) (words : List String) :
    ∀ cur : List String, (2 ≤ cur.length → ((lineText cur).length : Int) ≤ w) →
      ∀ g ∈ greedyLoop w cur words, 2 ≤ g.length → ((lineText g).length : Int) ≤ w := by
  induction words with
  | nil =>
    intro cur hcur g hg
    simp only [greedyLoop, List.mem_singleton] at hg
    rw [hg]; exact hcur
  | cons word rest ih =>
    intro cur hcur g hg
    simp only [greedyLoop] at hg
    split_ifs at hg with hbreak
    · rcases List.mem_cons.1 hg with h | h
      · rw [h]; exact hcur
      · exact ih [word] (by simp) g h
    · refine ih (cur ++ [word]) ?_ g hg
      intro _
      have := lineText_concat_length_le cur word
      have hle : ((lineText (cur ++ [word])).length : Int) ≤
          ((lineText cur).length : Int) + 1 + (word.length : Int) := by exact_mod_cast this
      omega

/-- Greedy wrapping keeps the words and their order. -/
theorem greedyLoop_flatten (w : Int) (words : List String) :
    ∀ cur : List String, (greedyLoop w cur words).flatten = cur ++ words := by
  induction words with
  | nil => intro cur; simp [greedyLoop]
  | cons word rest ih =>
    intro cur
    simp only [greedyLoop]
    split_ifs
    · simp [ih]
    · simp [ih]

/-- C15: for every width `w` of at least 1 and every single input line that
is not blank, the lines `Lines` returns are the texts of the lines of greedy
wrapping of the fields of the line, in which a line break stands before a
word exactly when the current line, a separating space and the word together
are longer than `w`; the breaks fall between words, every line that holds
more than one word is at most `w` long, and `a b c` at width 3 gives `a b`
and `c`. -/
theorem lines_is_greedy (w : Int) (hw : 1 ≤ w) (line : String)
    (hline : ¬ WhiteSpaceOnly line.data) :
    Wrapper.Lines (some { MaxWidth := w }) [line] =
      (greedyLoop w [] (Fields line)).map lineText ∧
    (greedyLoop w [] (Fields line)).flatten = Fields line ∧
    (∀ g ∈ greedyLoop w [] (Fields line), 2 ≤ g.length → ((lineText g).length : Int) ≤ w) ∧
    Wrapper.Lines (some { MaxWidth := 3 }) ["a b c"] = ["a b", "c"] := by
  have htrim : TrimSpace line ≠ "" :=
    fun e => hline ((trimSpace_eq_empty_iff_whiteSpaceOnly line).1 e)
  have hne : line ≠ "" := by
    intro e
    apply hline
    rw [e]
    exact WhiteSpaceOnly.nil
  have hmax : Wrapper.maxWidth (some { MaxWidth := w }) = w := by
    have : w ≠ 0 := by omega
    simp [Wrapper.maxWidth, this]
  have hpos := fields_length_pos line
  have hsb := foldl_wrapWord_sb_pos w (Fields line) { newlines := [], sb := "" }
    (fields_ne_nil line htrim) hpos
  have hgreedy := foldl_wrapWord_greedy w (Fields line) [] [] (by simp) hpos
  refine ⟨?_, by simpa using greedyLoop_flatten w (Fields line) [], ?_, by decide⟩
  · have hre : Wrapper.Lines (some { MaxWidth := w }) [line] =
        (List.foldl (wrapWord w) { newlines := [], sb := lineText [] } (Fields line)).newlines ++
          [(List.foldl (wrapWord w) { newlines := [], sb := lineText [] } (Fields line)).sb] := by
      have hsb2 : 0 < (List.foldl (wrapWord w) { newlines := [], sb := lineText [] }
          (Fields line)).sb.length := hsb
      simp only [Wrapper.Lines, hmax, List.length_singleton, List.foldl_cons, List.foldl_nil,
        wrapLine, htrim, if_false]
      have h2 : ¬ (True ∧ [line][0]? = some "") := by
        simp [hne]
      rw [if_neg h2]
      exact if_pos hsb2
    rw [hre, hgreedy, List.nil_append]
  · exact greedyLoop_fits w (Fields line) [] (by simp)

/-- C15 at the line `aa bb cc` and width 5: the lines are `aa bb` and `cc`,
and the line of two words is 5 long. -/
theorem lines_is_greedy_witness :
    ¬ WhiteSpaceOnly "aa bb cc".data ∧
    Wrapper.Lines (some { MaxWidth := 5 }) ["aa bb cc"] = ["aa bb", "cc"] ∧
    (greedyLoop 5 [] (Fields "aa bb cc")).map lineText = ["aa bb", "cc"] :=
  ⟨fun h => absurd ((trimSpace_eq_empty_iff_whiteSpaceOnly "aa bb cc").2 h) (by decide),
   by decide,
   ((lines_is_greedy 5 (by decide) "aa bb cc"
      (fun h => absurd ((trimSpace_eq_empty_iff_whiteSpaceOnly "aa bb cc").2 h)
        (by decide))).1).symm.trans (by decide)⟩

/-! ## The terminal emitter: underline, excerpt and failures -/

/-- Reading the data of a line whose number is not negative does not panic. -/
theorem readLineData_ok (lines : List String) (pos : Position) (hpos : 0 ≤ pos.Line) :
    ∃ d, readLineData lines pos = .ok d := by
  unfold readLineData
  by_cases h0 : pos.Line = 0
  · exact ⟨_, if_pos h0⟩
  · rw [if_neg h0]
    by_cases h1 : pos.Line - 1 ≥ (lines.length : Int)
    · exact ⟨_, if_pos h1⟩
    · have h2 : ¬ pos.Line - 1 < 0 := by omega
      have hlt : (pos.Line - 1).toNat < lines.length := by omega
      simp only [if_neg h1, if_neg h2, List.getElem?_eq_getElem hlt]
      split_ifs <;> exact ⟨_, rfl⟩

/-- Reading the lines of a readable file for positions whose line numbers
are not negative returns the two line data. -/
theorem readLineRange_ok (h : Host) (file content : String) (start stop : Option Position)
    (hfile : h.ReadFile file = some content)
    (hstart : ∀ p, start = some p → 0 ≤ p.Line) (hstop : ∀ p, stop = some p → 0 ≤ p.Line) :
    ∃ data, readLineRange h file start stop = .ok (.ok data) := by
  have h1 : ∃ d, (match start with
      | some p => readLineData (Split content '\n') p
      | none => Exec.ok lineData.zero) = .ok d := by
    cases start with
    | none => exact ⟨_, rfl⟩
    | some p => exact readLineData_ok _ p (hstart p rfl)
  have h2 : ∃ d, (match stop with
      | some p => readLineData (Split content '\n') p
      | none => Exec.ok lineData.zero) = .ok d := by
    cases stop with
    | none => exact ⟨_, rfl⟩
    | some p => exact readLineData_ok _ p (hstop p rfl)
  obtain ⟨d1, hd1⟩ := h1
  obtain ⟨d2, hd2⟩ := h2
  refine ⟨{ start := d1, «end» := d2 }, ?_⟩
  simp only [readLineRange, readLines, hfile, hd1, hd2]

/-- Reading the lines of a file that cannot be read returns the error. -/
theorem readLineRange_unreadable (h : Host) (file : String) (start stop : Option Position)
    (hfile : h.ReadFile file = none) :
    readLineRange h file start stop = .ok (.error "read error") := by
  simp only [readLineRange, readLines, hfile]

/-- Where the underline is not due, `writeUnderline` returns before it reads
the file. -/
theorem underlineText_skip (h : Host) (format : SGRControlSequence) (msg : Diagnostic)
    (hdue : ¬ underlineDue msg) : terminalEmitter.underlineText h format msg = .ok none := by
  unfold terminalEmitter.underlineText
  cases hs : msg.Start with
  | none => rfl
  | some start =>
    by_cases hc : start.Column = 0
    · simp only [hc, if_true]
    · simp only [hc, if_false]
      cases he : msg.End with
      | none => exact absurd ⟨start, hs, hc, Or.inl he⟩ hdue
      | some stop =>
        have hskip : (decide (start.Line ≠ stop.Line) || decide (start.Column > stop.Column)) =
            true := by
          by_contra hn
          simp only [Bool.or_eq_true, decide_eq_true_eq, not_or, ne_eq, not_not, not_lt,
            gt_iff_lt] at hn
          exact hdue ⟨start, hs, hc, Or.inr ⟨stop, he, hn.1.symm, hn.2⟩⟩
        simp only [hskip, if_true]

/-- Where the underline is due and the file has been read, `writeUnderline`
formats a row. -/
theorem underlineText_due (h : Host) (format : SGRControlSequence) (msg : Diagnostic)
    (data : lineRange) (hdue : underlineDue msg)
    (hread : readLineRange h msg.File msg.Start msg.End = .ok (.ok data)) :
    ∃ row, terminalEmitter.underlineText h format msg = .ok (some row) := by
  obtain ⟨start, hs, hc, hend⟩ := hdue
  unfold terminalEmitter.underlineText
  rw [hs] at hread
  simp only [hs, hc, if_false]
  rcases hend with he | ⟨stop, he, hl, hcol⟩
  · rw [he] at hread
    simp only [he, hread]
    exact ⟨_, rfl⟩
  · rw [he] at hread
    have hskip : (decide (start.Line ≠ stop.Line) || decide (start.Column > stop.Column)) =
        false := by
      simp only [Bool.or_eq_false_iff, decide_eq_false_iff_not, ne_eq, not_not, gt_iff_lt,
        not_lt]
      exact ⟨hl.symm, hcol⟩
    simp only [he, hskip, hread]
    exact ⟨_, rfl⟩

/-- C11: for every diagnostic with line numbers that are not negative and a
readable file, `writeUnderline` formats and writes an underline row exactly
when the start column is known and the end is unset or on the start line at
a column not before the start column; in every other case, so for a range
over several lines, an end column before the start column and an end column
left unset on the start line, it writes nothing and returns nil. -/
theorem underline_row_iff {σ : Type} (h : Host) (e : terminalEmitter σ)
    (format : SGRControlSequence) (msg : Diagnostic) (s : σ) (content : String)
    (hfile : h.ReadFile msg.File = some content)
    (hstart : ∀ p, msg.Start = some p → 0 ≤ p.Line)
    (hstop : ∀ p, msg.End = some p → 0 ≤ p.Line) :
    ((∃ row, terminalEmitter.underlineText h format msg = .ok (some row) ∧
        terminalEmitter.writeUnderline h e format msg s = .ok (e.writer.Write row s)) ↔
      underlineDue msg) ∧
    (¬ underlineDue msg →
      terminalEmitter.underlineText h format msg = .ok none ∧
      terminalEmitter.writeUnderline h e format msg s = .ok (s, none)) ∧
    (∀ start stop, msg.Start = some start → msg.End = some stop →
      (start.Line ≠ stop.Line ∨ stop.Column < start.Column ∨
        (0 < start.Column ∧ stop.Column = 0)) →
      terminalEmitter.writeUnderline h e format msg s = .ok (s, none)) := by
  have hskipAll : ¬ underlineDue msg →
      terminalEmitter.underlineText h format msg = .ok none ∧
      terminalEmitter.writeUnderline h e format msg s = .ok (s, none) := by
    intro hdue
    have := underlineText_skip h format msg hdue
    exact ⟨this, by simp only [terminalEmitter.writeUnderline, this]⟩
  refine ⟨⟨?_, ?_⟩, hskipAll, ?_⟩
  · rintro ⟨row, hrow, _⟩
    by_contra hdue
    rw [underlineText_skip h format msg hdue] at hrow
    cases hrow
  · intro hdue
    obtain ⟨data, hread⟩ := readLineRange_ok h msg.File content msg.Start msg.End hfile hstart hstop
    obtain ⟨row, hrow⟩ := underlineText_due h format msg data hdue hread
    exact ⟨row, hrow, by simp only [terminalEmitter.writeUnderline, hrow, Fprintf]⟩
  · intro start stop hs he hcase
    refine (hskipAll ?_).2
    rintro ⟨start2, hs2, hc2, hend⟩
    rw [hs] at hs2
    cases hs2
    rcases hend with hnone | ⟨stop2, he2, hl, hcol⟩
    · rw [he] at hnone
      cases hnone
    · rw [he] at he2
      cases he2
      rcases hcase with h1 | h1 | ⟨h1, h2⟩
      · exact h1 hl.symm
      · omega
      · omega

/-- C11 on the file whose first line is a tab and `foo`: a diagnostic at
line 1, column 2 with no end gets an underline row; with the end at line 2
it gets none and nil is returned. -/
theorem underline_row_iff_witness :
    sampleHost.ReadFile (columnDiagnostic 2).File = some "\tfoo\nbar" ∧
    (∃ row, terminalEmitter.underlineText sampleHost
        (terminalEmitter.severityFormat SeverityError) (columnDiagnostic 2) = .ok (some row) ∧
      terminalEmitter.writeUnderline sampleHost
        { writer := bufferWriter, basePath := "", wrapper := none }
        (terminalEmitter.severityFormat SeverityError) (columnDiagnostic 2) "" =
        .ok (bufferWriter.Write row "")) ∧
    terminalEmitter.writeUnderline sampleHost
        { writer := bufferWriter, basePath := "", wrapper := none }
        (terminalEmitter.severityFormat SeverityError)
        ((columnDiagnostic 2).With [ Annotation.End 2 3]) "" = .ok ("", none) :=
  ⟨rfl,
   (underline_row_iff sampleHost { writer := bufferWriter, basePath := "", wrapper := none }
      (terminalEmitter.severityFormat SeverityError) (columnDiagnostic 2) "" "\tfoo\nbar" rfl
      (fun p hp => by
        have e : p = { Line := 1, Column := 2 } := (Option.some.inj hp).symm
        rw [e]; decide)
      (fun p hp => by
        have hp2 : (none : Option Position) = some p := hp
        cases hp2)).1.2
      ⟨{ Line := 1, Column := 2 }, rfl, by decide, Or.inl rfl⟩,
   (underline_row_iff sampleHost { writer := bufferWriter, basePath := "", wrapper := none }
      (terminalEmitter.severityFormat SeverityError)
      ((columnDiagnostic 2).With [ Annotation.End 2 3]) "" "\tfoo\nbar" rfl
      (fun p hp => by
        have e : p = { Line := 1, Column := 2 } := (Option.some.inj hp).symm
        rw [e]; decide)
      (fun p hp => by
        have e : p = { Line := 2, Column := 3 } := (Option.some.inj hp).symm
        rw [e]; decide)).2.2 { Line := 1, Column := 2 } { Line := 2, Column := 3 } rfl rfl
      (Or.inl (by decide))⟩

/-- C12 as stated fails: on a readable file of five lines, the range from
line 5 back to line 2 gets an ellipsis row between its two excerpted lines,
though 2 is not greater than 5 + 1. -/
theorem ellipsis_for_reversed_range :
    terminalEmitter.excerptTexts linesHost (terminalEmitter.severityFormat SeverityError)
        (rangeDiagnostic 5 2) =
      .ok [terminalEmitter.blockQuotePrefixText (terminalEmitter.severityFormat SeverityError)
             (rangeDiagnostic 5 2),
           excerptRow (terminalEmitter.severityFormat SeverityError) 1 5 "l5",
           ellipsisRow (terminalEmitter.severityFormat SeverityError) (rangeDiagnostic 5 2),
           excerptRow (terminalEmitter.severityFormat SeverityError) 1 2 "l2"] ∧
    ¬ ((2 : Int) > 5 + 1) := by
  decide

/-- C12, amended: for every readable file and every diagnostic whose start
line and end line are known and exist in the file, the excerpt is the quote
row, the row of the start line and, when the end line is another line, the
row of the end line, with exactly one ellipsis row between the two when the
end line is not the line after the start line, and none when it is; for a
start line that is not after the end line that is: exactly when the end line
is greater than the start line plus 1. -/
theorem excerpt_ellipsis_row (h : Host) (format : SGRControlSequence) (msg : Diagnostic)
    (start stop : Position) (content t1 t2 : String)
    (hf : msg.File ≠ "") (hfile : h.ReadFile msg.File = some content)
    (hs : msg.Start = some start) (he : msg.End = some stop)
    (hl1 : 1 ≤ start.Line) (ht1 : (Split content '\n')[(start.Line - 1).toNat]? = some t1)
    (hl2 : 1 ≤ stop.Line) (ht2 : (Split content '\n')[(stop.Line - 1).toNat]? = some t2) :
    terminalEmitter.excerptTexts h format msg =
      .ok ([terminalEmitter.blockQuotePrefixText format msg,
            excerptRow format (max (countDigits start.Line) (countDigits stop.Line))
              start.Line t1] ++
          (if stop.Line = start.Line then []
           else
            (if stop.Line ≠ start.Line + 1 then [ellipsisRow format msg] else []) ++
            [excerptRow format (max (countDigits start.Line) (countDigits stop.Line))
              stop.Line t2])) ∧
    (start.Line ≤ stop.Line →
      terminalEmitter.excerptTexts h format msg =
        .ok ([terminalEmitter.blockQuotePrefixText format msg,
              excerptRow format (max (countDigits start.Line) (countDigits stop.Line))
                start.Line t1] ++
            (if stop.Line = start.Line then []
             else
              (if stop.Line > start.Line + 1 then [ellipsisRow format msg] else []) ++
              [excerptRow format (max (countDigits start.Line) (countDigits stop.Line))
                stop.Line t2]))) := by
  have hsd := readLineData_of_line (Split content '\n') start t1 hl1 ht1
  have hed := readLineData_of_line (Split content '\n') stop t2 hl2 ht2
  have h0 : ¬ (start.Line = 0 ∨ msg.File = "") := by
    rintro (h1 | h1)
    · omega
    · exact hf h1
  have hs0 : ¬ start.Line = 0 := by omega
  have he0 : ¬ stop.Line = 0 := by omega
  have key : terminalEmitter.excerptTexts h format msg =
      .ok ([terminalEmitter.blockQuotePrefixText format msg,
            excerptRow format (max (countDigits start.Line) (countDigits stop.Line))
              start.Line t1] ++
          (if stop.Line = start.Line then []
           else
            (if stop.Line ≠ start.Line + 1 then [ellipsisRow format msg] else []) ++
            [excerptRow format (max (countDigits start.Line) (countDigits stop.Line))
              stop.Line t2])) := by
    simp only [terminalEmitter.excerptTexts, hs, he, h0, if_false, readLineRange, readLines,
      hfile, hsd, hed, hs0, he0, false_or, lineRange.isContiguous, hf]
    by_cases hsame : stop.Line = start.Line
    · simp only [hsame, if_true, List.append_nil, excerptRow, or_true]
    · simp only [hsame, if_false]
      by_cases hnext : stop.Line = start.Line + 1
      · have hd : decide (start.Line + 1 = stop.Line) = true := by simp [hnext]
        simp [hd, hnext, excerptRow]
      · have hd : decide (start.Line + 1 = stop.Line) = false := by
          simp only [decide_eq_false_iff_not]
          omega
        simp [hd, hnext, excerptRow, ellipsisRow]
  refine ⟨key, ?_⟩
  intro hle
  rw [key]
  by_cases hsame : stop.Line = start.Line
  · simp only [hsame, if_true]
  · simp only [hsame, if_false]
    by_cases hnext : stop.Line = start.Line + 1
    · have hgt : ¬ stop.Line > start.Line + 1 := by omega
      simp only [hnext, ne_eq, not_true_eq_false, if_false, gt_iff_lt, lt_self_iff_false]
    · have hgt : stop.Line > start.Line + 1 := by omega
      simp only [ne_eq, hnext, not_false_eq_true, if_true, hgt]

/-- C12, amended, on a file of five lines: the range from line 1 to line 2
has no ellipsis row, the range from line 1 to line 5 has exactly one, between
its two excerpted lines. -/
theorem excerpt_ellipsis_row_witness :
    terminalEmitter.excerptTexts linesHost (terminalEmitter.severityFormat SeverityError)
        (rangeDiagnostic 1 2) =
      .ok [terminalEmitter.blockQuotePrefixText (terminalEmitter.severityFormat SeverityError)
             (rangeDiagnostic 1 2),
           excerptRow (terminalEmitter.severityFormat SeverityError) 1 1 "l1",
           excerptRow (terminalEmitter.severityFormat SeverityError) 1 2 "l2"] ∧
    terminalEmitter.excerptTexts linesHost (terminalEmitter.severityFormat SeverityError)
        (rangeDiagnostic 1 5) =
      .ok [terminalEmitter.blockQuotePrefixText (terminalEmitter.severityFormat SeverityError)
             (rangeDiagnostic 1 5),
           excerptRow (terminalEmitter.severityFormat SeverityError) 1 1 "l1",
           ellipsisRow (terminalEmitter.severityFormat SeverityError) (rangeDiagnostic 1 5),
           excerptRow (terminalEmitter.severityFormat SeverityError) 1 5 "l5"] :=
  ⟨(excerpt_ellipsis_row linesHost (terminalEmitter.severityFormat SeverityError)
      (rangeDiagnostic 1 2) { Line := 1, Column := 0 } { Line := 2, Column := 0 }
      "l1\nl2\nl3\nl4\nl5" "l1" "l2" (by decide) rfl rfl rfl (by decide) (by decide)
      (by decide) (by decide)).2 (by decide),
   (excerpt_ellipsis_row linesHost (terminalEmitter.severityFormat SeverityError)
      (rangeDiagnostic 1 5) { Line := 1, Column := 0 } { Line := 5, Column := 0 }
      "l1\nl2\nl3\nl4\nl5" "l1" "l5" (by decide) rfl rfl rfl (by decide) (by decide)
      (by decide) (by decide)).2 (by decide)⟩

/-- On a sink that accepts every write, a run of writes returns nil. -/
theorem writeAll_ok {σ : Type} (w : Writer σ) (hsink : ∀ text s1, (w.Write text s1).2 = none)
    (texts : List String) : ∀ s : σ, (writeAll w texts s).2 = none := by
  induction texts with
  | nil => intro s; rfl
  | cons text rest ih =>
    intro s
    have h1 := hsink text s
    simp only [writeAll, Fprintf]
    cases hw : w.Write text s with
    | mk s1 err =>
      rw [hw] at h1
      simp only at h1
      subst h1
      exact ih s1

/-- On a sink that accepts every write, two runs of writes one after the
other are one run. -/
theorem writeAll_append {σ : Type} (w : Writer σ)
    (hsink : ∀ text s1, (w.Write text s1).2 = none) (a b : List String) :
    ∀ s : σ, writeAll w (a ++ b) s = writeAll w b (writeAll w a s).1 := by
  induction a with
  | nil => intro s; rfl
  | cons text rest ih =>
    intro s
    have h1 := hsink text s
    simp only [List.cons_append, writeAll, Fprintf]
    cases hw : w.Write text s with
    | mk s1 err =>
      rw [hw] at h1
      simp only at h1
      subst h1
      exact ih s1

/-- With line numbers that are not negative, `writeExcerpt` formats its
texts without a panic. -/
theorem excerptTexts_ok (h : Host) (format : SGRControlSequence) (msg : Diagnostic)
    (hstart : ∀ p, msg.Start = some p → 0 ≤ p.Line)
    (hstop : ∀ p, msg.End = some p → 0 ≤ p.Line) :
    ∃ texts, terminalEmitter.excerptTexts h format msg = .ok texts := by
  unfold terminalEmitter.excerptTexts
  cases hs : msg.Start with
  | none => exact ⟨_, rfl⟩
  | some start =>
    simp only
    split_ifs with hg
    · exact ⟨_, rfl⟩
    · cases hfile : h.ReadFile msg.File with
      | none =>
        rw [readLineRange_unreadable h msg.File _ _ hfile]
        exact ⟨_, rfl⟩
      | some content =>
        obtain ⟨data, hread⟩ := readLineRange_ok h msg.File content (some start) msg.End hfile
          (fun p hp => hstart p (hs ▸ hp)) hstop
        rw [hread]
        simp only
        split_ifs <;> exact ⟨_, rfl⟩

/-- With line numbers that are not negative, `writeUnderline` formats its
text without a panic. -/
theorem underlineText_ok (h : Host) (format : SGRControlSequence) (msg : Diagnostic)
    (hstart : ∀ p, msg.Start = some p → 0 ≤ p.Line)
    (hstop : ∀ p, msg.End = some p → 0 ≤ p.Line) :
    ∃ text, terminalEmitter.underlineText h format msg = .ok text := by
  by_cases hdue : underlineDue msg
  · cases hfile : h.ReadFile msg.File with
    | none =>
      obtain ⟨start, hs, hc, _⟩ := hdue
      refine ⟨none, ?_⟩
      unfold terminalEmitter.underlineText
      simp only [hs, hc, if_false]
      rw [← hs, readLineRange_unreadable h msg.File _ _ hfile]
      simp only
      split_ifs <;> rfl
    | some content =>
      obtain ⟨data, hread⟩ := readLineRange_ok h msg.File content msg.Start msg.End hfile
        hstart hstop
      obtain ⟨row, hrow⟩ := underlineText_due h format msg data hdue hread
      exact ⟨_, hrow⟩
  · exact ⟨none, underlineText_skip h format msg hdue⟩

/-- When the file cannot be read, `writeExcerpt` formats nothing. -/
theorem excerptTexts_unreadable (h : Host) (format : SGRControlSequence) (msg : Diagnostic)
    (hfile : h.ReadFile msg.File = none) :
    terminalEmitter.excerptTexts h format msg = .ok [] := by
  unfold terminalEmitter.excerptTexts
  cases hs : msg.Start with
  | none => rfl
  | some start =>
    simp only
    split_ifs with hg
    · rfl
    · rw [readLineRange_unreadable h msg.File _ _ hfile]

/-- When the file cannot be read, `writeUnderline` formats nothing. -/
theorem underlineText_unreadable (h : Host) (format : SGRControlSequence) (msg : Diagnostic)
    (hfile : h.ReadFile msg.File = none) :
    terminalEmitter.underlineText h format msg = .ok none := by
  unfold terminalEmitter.underlineText
  cases hs : msg.Start with
  | none => rfl
  | some start =>
    simp only
    split_ifs with h1 h2
    · rfl
    · rfl
    · rw [← hs, readLineRange_unreadable h msg.File _ _ hfile]

/-- C13: for every diagnostic with line numbers that are not negative,
whatever the state of the file, if the sink accepts every write then `Emit`
returns nil (and does not panic); and when the file cannot be read, the
excerpt step and the underline step write nothing, and what reaches the sink
is the title texts, the file texts and the message texts, in that order. -/
theorem emit_tolerates_file_errors {σ : Type} (h : Host) (env : Env) (e : terminalEmitter σ)
    (msg : Diagnostic) (s : σ)
    (hstart : ∀ p, msg.Start = some p → 0 ≤ p.Line)
    (hstop : ∀ p, msg.End = some p → 0 ≤ p.Line)
    (hsink : ∀ text s1, (e.writer.Write text s1).2 = none) :
    (∃ e1 s1, terminalEmitter.Emit h env e msg s = .ok (e1, s1, none)) ∧
    (h.ReadFile msg.File = none →
      terminalEmitter.excerptTexts h (terminalEmitter.severityFormat msg.Severity) msg =
        .ok [] ∧
      terminalEmitter.underlineText h (terminalEmitter.severityFormat msg.Severity) msg =
        .ok none ∧
      terminalEmitter.Emit h env e msg s =
        .ok (terminalEmitter.afterMessage e msg,
          (writeAll e.writer
            (terminalEmitter.titleTexts e (terminalEmitter.severityFormat msg.Severity) msg ++
              terminalEmitter.fileTexts h env e (terminalEmitter.severityFormat msg.Severity)
                msg ++
              terminalEmitter.messageTexts e (terminalEmitter.severityFormat msg.Severity)
                msg) s).1,
          none)) := by
  have hall : ∀ (texts : List String) (s1 : σ),
      writeAll e.writer texts s1 = ((writeAll e.writer texts s1).1, none) := by
    intro texts s1
    exact Prod.ext rfl (writeAll_ok e.writer hsink texts s1)
  obtain ⟨ex, hex⟩ := excerptTexts_ok h (terminalEmitter.severityFormat msg.Severity) msg
    hstart hstop
  obtain ⟨ul, hul⟩ := underlineText_ok h (terminalEmitter.severityFormat msg.Severity) msg
    hstart hstop
  have hunder : ∃ s5 : σ → σ, ∀ s4, terminalEmitter.writeUnderline h e
      (terminalEmitter.severityFormat msg.Severity) msg s4 = .ok (s5 s4, none) := by
    cases ul with
    | none =>
      exact ⟨fun s4 => s4, fun s4 => by simp only [terminalEmitter.writeUnderline, hul]⟩
    | some row =>
      refine ⟨fun s4 => (e.writer.Write row s4).1, fun s4 => ?_⟩
      simp only [terminalEmitter.writeUnderline, hul, Fprintf]
      exact congrArg Exec.ok (Prod.ext rfl (hsink row s4))
  obtain ⟨s5, hs5⟩ := hunder
  constructor
  · refine Exists.intro (terminalEmitter.afterMessage e msg) (Exists.intro ?s1 ?_)
    case s1 =>
      exact (writeAll e.writer
        (terminalEmitter.messageTexts e (terminalEmitter.severityFormat msg.Severity) msg)
        (s5 (writeAll e.writer ex
          (writeAll e.writer
            (terminalEmitter.fileTexts h env e (terminalEmitter.severityFormat msg.Severity) msg)
            (writeAll e.writer
              (terminalEmitter.titleTexts e (terminalEmitter.severityFormat msg.Severity) msg)
              s).1).1).1)).1
    unfold terminalEmitter.Emit
    simp only [terminalEmitter.writeTitle, terminalEmitter.writeFile,
      terminalEmitter.writeExcerpt, terminalEmitter.writeMessage, hex]
    rw [hall (terminalEmitter.titleTexts e _ msg) s]
    simp only
    rw [hall (terminalEmitter.fileTexts h env e _ msg)]
    simp only
    rw [hall ex]
    simp only [hs5]
    rw [hall (terminalEmitter.messageTexts e _ msg)]
  · intro hfile
    have hex0 := excerptTexts_unreadable h (terminalEmitter.severityFormat msg.Severity) msg hfile
    have hul0 := underlineText_unreadable h (terminalEmitter.severityFormat msg.Severity) msg
      hfile
    refine ⟨hex0, hul0, ?_⟩
    unfold terminalEmitter.Emit
    simp only [terminalEmitter.writeTitle, terminalEmitter.writeFile,
      terminalEmitter.writeExcerpt, terminalEmitter.writeMessage,
      terminalEmitter.writeUnderline, hex0, hul0]
    rw [hall (terminalEmitter.titleTexts e _ msg) s]
    simp only
    rw [hall (terminalEmitter.fileTexts h env e _ msg)]
    have hnil : ∀ s2 : σ, writeAll e.writer [] s2 = (s2, none) := fun _ => rfl
    simp only [hnil]
    rw [hall (terminalEmitter.messageTexts e _ msg)]
    rw [writeAll_append e.writer hsink, writeAll_append e.writer hsink]

/-- C13 on a file that cannot be read: `Emit` returns nil, the excerpt step
formats nothing, and the buffer holds the title row, the file row and the
three message rows. -/
theorem emit_tolerates_file_errors_witness :
    sampleHost.ReadFile missingDiagnostic.File = none ∧
    (∃ e1 s1, terminalEmitter.Emit sampleHost sampleEnv sampleTerminal missingDiagnostic "" =
      .ok (e1, s1, none)) ∧
    terminalEmitter.excerptTexts sampleHost
      (terminalEmitter.severityFormat missingDiagnostic.Severity) missingDiagnostic = .ok [] ∧
    emitOutcome (terminalEmitter.Emit sampleHost sampleEnv sampleTerminal missingDiagnostic "") =
      some ("\x1b[31;1merror:\x1b[0m \x1b[97mT\x1b[0m\n" ++
            "  \x1b[31;1m--->\x1b[0m \x1b[97;4mmissing.go:3:1\x1b[0m\n" ++
            " \x1b[31;1m \x1b[31;1m |\x1b[0m\n" ++
            " \x1b[31;1m \x1b[31;1m | \x1b[0mm\n" ++
            " \x1b[31;1m \x1b[31;1m |\x1b[0m\n", none) :=
  ⟨rfl,
   (emit_tolerates_file_errors sampleHost sampleEnv sampleTerminal missingDiagnostic ""
      (fun p hp => by
        have e : p = { Line := 3, Column := 1 } := (Option.some.inj hp).symm
        rw [e]; decide)
      (fun p hp => by
        have hp2 : (none : Option Position) = some p := hp
        cases hp2)
      (fun _ _ => rfl)).1,
   ((emit_tolerates_file_errors sampleHost sampleEnv sampleTerminal missingDiagnostic ""
      (fun p hp => by
        have e : p = { Line := 3, Column := 1 } := (Option.some.inj hp).symm
        rw [e]; decide)
      (fun p hp => by
        have hp2 : (none : Option Position) = some p := hp
        cases hp2)
      (fun _ _ => rfl)).2 rfl).1,
   by decide⟩

/-! ## The underline marks, the gutter and the source descriptor -/

/-- C22: on line 2 of `a.go`, which is `bar`, the range from column 1 to
column 2 has the visual columns 1 and 2, of difference 1, and gets the
underline `^` with no `~` after it, where the claim has `^~`; from column 1
to column 3 the difference is 2 and the underline is `^~~`, and from column
1 to column 1 it is `^`: the test `distance > 1` leaves the difference 1
out. -/
theorem underline_of_difference_one_has_no_tilde :
    countPrefixSpaces "bar" 2 - countPrefixSpaces "bar" 1 = 1 ∧
    terminalEmitter.underlineText sampleHost (terminalEmitter.severityFormat SeverityError)
        (barDiagnostic 1 2) =
      .ok (some (" " ++ " " ++ "\x1b[31;1m" ++ " |   " ++ Repeat " " 0 ++ "\x1b[32m" ++ "^" ++
        "\x1b[0m" ++ "\n")) ∧
    countPrefixSpaces "bar" 3 - countPrefixSpaces "bar" 1 = 2 ∧
    terminalEmitter.underlineText sampleHost (terminalEmitter.severityFormat SeverityError)
        (barDiagnostic 1 3) =
      .ok (some (" " ++ " " ++ "\x1b[31;1m" ++ " |   " ++ Repeat " " 0 ++ "\x1b[32m" ++ "^~~" ++
        "\x1b[0m" ++ "\n")) ∧
    terminalEmitter.underlineText sampleHost (terminalEmitter.severityFormat SeverityError)
        (barDiagnostic 1 1) =
      .ok (some (" " ++ " " ++ "\x1b[31;1m" ++ " |   " ++ Repeat " " 0 ++ "\x1b[32m" ++ "^" ++
        "\x1b[0m" ++ "\n")) := by
  decide

/-- C23: on a readable file of five lines, the range from line 5 to line 10
has its one excerpted row, that of line 5, in a gutter of width 1, the digit
count of the start line alone, while the larger digit count of the two lines
is 2 and the blank gutter prefix of the quote, ellipsis, underline and
message rows is 2 wide. -/
theorem excerpt_gutter_ignores_end_line_past_file :
    terminalEmitter.excerptTexts linesHost (terminalEmitter.severityFormat SeverityError)
        (rangeDiagnostic 5 10) =
      .ok [terminalEmitter.blockQuotePrefixText (terminalEmitter.severityFormat SeverityError)
             (rangeDiagnostic 5 10),
           excerptRow (terminalEmitter.severityFormat SeverityError) 1 5 "l5"] ∧
    (fmtIntWidth 1 5).length = 1 ∧
    max (countDigits 5) (countDigits 10) = 2 ∧
    (terminalEmitter.format (rangeDiagnostic 5 10)).length = 2 := by
  decide

/-- C24: the column range from (3, 5) to (3, 9) in `a.go` has the source
descriptor `a.go:3-3`, the two line numbers, and not `a.go:3:5-9`. -/
theorem source_of_column_range_prints_lines :
    terminalEmitter.source sampleHost sampleEnv sampleTerminal spanDiagnostic = "a.go:3-3" ∧
    terminalEmitter.source sampleHost sampleEnv sampleTerminal spanDiagnostic ≠ "a.go:3:5-9" := by
  decide

/-- C30: for the position (9, 2) in `a.go`, a file of two lines, and for
column 2 with no line, the excerpt step writes no row and the underline step
writes its row of a caret. -/
theorem underline_without_source_row :
    terminalEmitter.excerptTexts sampleHost (terminalEmitter.severityFormat SeverityError)
        pastEndDiagnostic = .ok [] ∧
    terminalEmitter.underlineText sampleHost (terminalEmitter.severityFormat SeverityError)
        pastEndDiagnostic =
      .ok (some (" " ++ " " ++ "\x1b[31;1m" ++ " |   " ++ "\x1b[32m" ++ "^" ++ "\x1b[0m" ++ "\n")) ∧
    terminalEmitter.excerptTexts sampleHost (terminalEmitter.severityFormat SeverityError)
        noLineDiagnostic = .ok [] ∧
    terminalEmitter.underlineText sampleHost (terminalEmitter.severityFormat SeverityError)
        noLineDiagnostic =
      .ok (some (" " ++ " " ++ "\x1b[31;1m" ++ " |   " ++ "\x1b[32m" ++ "^" ++ "\x1b[0m" ++ "\n")) := by
  decide

/-! ## The wrapper of the emitter and blank lines -/

/-- C29: an emitter whose wrapper is 12 wide has, after `Emit` of a
diagnostic with a title and the message `aaaa bbbb cc`, a wrapper 8 wide;
the first `Emit` wraps the message at 8 into `aaaa` and `bbbb cc`, the second
one, on the emitter the first left, at 4 into an empty line, `aaaa`, `bbbb`
and `cc`, and the bytes written differ. -/
theorem emit_narrows_the_wrapper :
    (emitterAfter narrowTerminal
      (terminalEmitter.Emit sampleHost sampleEnv narrowTerminal wordyDiagnostic "")).wrapper =
      some { MaxWidth := 8 } ∧
    Wrapper.Lines (some (terminalEmitter.messageWrapper narrowTerminal wordyDiagnostic))
      [wordyDiagnostic.Message] = ["aaaa", "bbbb cc"] ∧
    Wrapper.Lines (some (terminalEmitter.messageWrapper
        (emitterAfter narrowTerminal
          (terminalEmitter.Emit sampleHost sampleEnv narrowTerminal wordyDiagnostic ""))
        wordyDiagnostic))
      [wordyDiagnostic.Message] = ["", "aaaa", "bbbb", "cc"] ∧
    emitOutcome (terminalEmitter.Emit sampleHost sampleEnv narrowTerminal wordyDiagnostic "") ≠
      emitOutcome (terminalEmitter.Emit sampleHost sampleEnv
        (emitterAfter narrowTerminal
          (terminalEmitter.Emit sampleHost sampleEnv narrowTerminal wordyDiagnostic ""))
        wordyDiagnostic "") := by
  decide

/-- C27: `Lines` of `a`, an empty line and `b` at width 120 is the empty line
followed by `a b`: the empty output line comes before the word of the
earlier input line, and the words on its two sides share a line. -/
theorem lines_blank_line_comes_first :
    Wrapper.Lines (some { MaxWidth := 120 }) ["a", "", "b"] = ["", "a b"] ∧
    wrap.Lines ["a", "", "b"] = ["", "a b"] ∧
    Wrapper.Lines (some { MaxWidth := 120 }) ["a", " ", "b", "", "c"] = ["", "", "a b c"] := by
  decide

/-! ## Position annotations -/

/-- C28: applied to any diagnostic, `Line`, `Column` and `Start` set `start`
to a position and leave `end` and every other field as they were, `End` does
so for `end`, and `LineRange` and `ColumnRange` set both; the field of the
position the annotation does not name keeps its value, which is 0 when the
position was absent. -/
theorem position_annotations_write_own_fields (d : Diagnostic) (a b : Int) :
    Annotation.annotate ( Annotation.Line a) d =
      { d with Start := some { Line := a, Column := startColumn d } } ∧
    Annotation.annotate ( Annotation.Column a) d =
      { d with Start := some { Line := startLine d, Column := a } } ∧
    Annotation.annotate ( Annotation.Start a b) d =
      { d with Start := some { Line := a, Column := b } } ∧
    Annotation.annotate ( Annotation.End a b) d =
      { d with End := some { Line := a, Column := b } } ∧
    Annotation.annotate ( Annotation.LineRange a b) d =
      { d with Start := some { Line := a, Column := startColumn d },
               End := some { Line := b, Column := endColumn d } } ∧
    Annotation.annotate ( Annotation.ColumnRange a b) d =
      { d with Start := some { Line := startLine d, Column := a },
               End := some { Line := endLine d, Column := b } } ∧
    allocate none = { Line := 0, Column := 0 } ∧
    (∀ p : Position, allocate (some p) = p) := by
  refine ⟨?_, ?_, ?_, ?_, ?_, ?_, rfl, fun _ => rfl⟩ <;>
    cases hs : d.Start <;> cases he : d.End <;>
    simp [ Annotation.annotate, allocate, startColumn, startLine, endColumn, endLine, hs, he]

/-- The text `writeUnderline` formats when the underline is due and the file
was read. -/
theorem underlineText_row (h : Host) (format : SGRControlSequence) (msg : Diagnostic)
    (start : Position) (data : lineRange) (hdue : underlineDue msg)
    (hs : msg.Start = some start)
    (hread : readLineRange h msg.File msg.Start msg.End = .ok (.ok data)) :
    terminalEmitter.underlineText h format msg =
      .ok (some (" " ++ terminalEmitter.format msg ++ format.Format ++ " |   " ++
        Repeat " " (max 0 (countPrefixSpaces data.start.text start.Column - 1)).toNat ++
        underlineFormat.Format ++ terminalEmitter.underlineMarks data msg start ++
        SGRParam.Format ansi.Reset ++ "\n")) := by
  obtain ⟨start2, hs2, hc, hend⟩ := hdue
  rw [hs] at hs2
  cases hs2
  unfold terminalEmitter.underlineText
  rw [hs] at hread
  simp only [hs, hc, if_false]
  rcases hend with he | ⟨stop, he, hl, hcol⟩
  · rw [he] at hread
    simp only [he, hread]
    rfl
  · rw [he] at hread
    have hskip : (decide (start.Line ≠ stop.Line) || decide (start.Column > stop.Column)) =
        false := by
      simp [hl]
      omega
    simp only [he, hskip, hread]
    rfl
/-! ## The padding of the underline -/

/-- C21 as stated fails: on line 1 of `a.go`, a tab followed by `foo`, the
underline at column 2 has 3 padding spaces; the characters strictly before
column 2 are the tab alone, which sum to 3, and the formula of the claim,
that sum less 1, is 2. -/
theorem underline_padding_is_not_prefix_less_one :
    terminalEmitter.underlineText sampleHost (terminalEmitter.severityFormat SeverityError)
        (columnDiagnostic 2) =
      .ok (some (" " ++ " " ++ "\x1b[31;1m" ++ " |   " ++ Repeat " " 3 ++ "\x1b[32m" ++ "^" ++
        "\x1b[0m" ++ "\n")) ∧
    displayWidth ("\tfoo".data.take (2 - 1)) = 3 ∧
    (max 0 ((displayWidth ("\tfoo".data.take (2 - 1)) : Int) - 1)).toNat = 2 := by
  decide

/-- C21, amended: the visual column the underline uses is the sum, over the
characters of the raw line up to and including the target column, of 1, or
3 for a tab, and for every diagnostic whose underline is drawn, every file
read and every start column c, 1 or more, at which the start line has no
tab, the underline row has max(0, visual(c) - 1) padding spaces before the
caret; for c inside the line that is the sum over the characters strictly
before column c. -/
theorem underline_padding_formula (h : Host) (format : SGRControlSequence) (msg : Diagnostic)
    (start : Position) (data : lineRange) (hdue : underlineDue msg)
    (hs : msg.Start = some start)
    (hread : readLineRange h msg.File msg.Start msg.End = .ok (.ok data))
    (hc1 : 1 ≤ start.Column)
    (hch : data.start.text.data[(start.Column - 1).toNat]? ≠ some '\t') :
    countPrefixSpaces data.start.text start.Column =
      (displayWidth (data.start.text.data.take start.Column.toNat) : Int) ∧
    terminalEmitter.underlineText h format msg =
      .ok (some (" " ++ terminalEmitter.format msg ++ format.Format ++ " |   " ++
        Repeat " "
          (max 0 ((displayWidth (data.start.text.data.take start.Column.toNat) : Int) - 1)).toNat ++
        underlineFormat.Format ++ terminalEmitter.underlineMarks data msg start ++
        SGRParam.Format ansi.Reset ++ "\n")) ∧
    (start.Column ≤ data.start.text.length →
      (max 0 ((displayWidth (data.start.text.data.take start.Column.toNat) : Int) - 1)).toNat =
        displayWidth (data.start.text.data.take (start.Column - 1).toNat)) := by
  have hcps : countPrefixSpaces data.start.text start.Column =
      (displayWidth (data.start.text.data.take start.Column.toNat) : Int) :=
    countPrefixSpacesLoop_eq _ _
  refine ⟨hcps, ?_, ?_⟩
  · rw [underlineText_row h format msg start data hdue hs hread, hcps]
  · intro hc2
    have hlen : ((start.Column - 1).toNat) < data.start.text.data.length := by
      have : (data.start.text.length : Int) = data.start.text.data.length := rfl
      omega
    obtain ⟨ch, hget⟩ : ∃ ch, data.start.text.data[(start.Column - 1).toNat]? = some ch :=
      ⟨_, List.getElem?_eq_getElem hlen⟩
    have hnt : ch ≠ '\t' := by
      intro e; rw [hget, e] at hch; exact hch rfl
    have hc : start.Column.toNat - 1 = (start.Column - 1).toNat := by omega
    have := padding_eq data.start.text.data start.Column.toNat ch (by omega)
      (by rw [hc]; exact hget)
    rw [hc, countPrefixSpacesLoop_eq] at this
    simp only [this, if_neg hnt, Nat.add_zero]

/-- C21, amended, on line 1 of `a.go`, a tab followed by `foo`: at column 2,
the `f`, the visual column is 4 and the padding is 3, the width of the tab
before it. -/
theorem underline_padding_formula_witness :
    underlineDue (columnDiagnostic 2) ∧
    terminalEmitter.underlineText sampleHost (terminalEmitter.severityFormat SeverityError)
        (columnDiagnostic 2) =
      .ok (some (" " ++ terminalEmitter.format (columnDiagnostic 2) ++
        SGRControlSequence.Format (terminalEmitter.severityFormat SeverityError) ++ " |   " ++
        Repeat " " (max 0 ((displayWidth ("\tfoo".data.take (2 : Int).toNat) : Int) - 1)).toNat ++
        underlineFormat.Format ++
        terminalEmitter.underlineMarks
          { start := { text := "\tfoo", line := 1, col := 2 }, «end» := lineData.zero }
          (columnDiagnostic 2) { Line := 1, Column := 2 } ++
        SGRParam.Format ansi.Reset ++ "\n")) :=
  ⟨⟨{ Line := 1, Column := 2 }, rfl, by decide, Or.inl rfl⟩,
   (underline_padding_formula sampleHost (terminalEmitter.severityFormat SeverityError)
      (columnDiagnostic 2) { Line := 1, Column := 2 }
      { start := { text := "\tfoo", line := 1, col := 2 }, «end» := lineData.zero }
      ⟨{ Line := 1, Column := 2 }, rfl, by decide, Or.inl rfl⟩ rfl rfl (by decide)
      (by decide)).2.1⟩

/-! ## The message body -/

/-- The lines `Lines` returns for one line that is not empty are never none. -/
theorem lines_singleton_ne_nil (w : Option Wrapper) (text : String) (h : text ≠ "") :
    Wrapper.Lines w [text] ≠ [] := by
  have h1 : ¬ ([text].length = 0) := by simp
  have h2 : ¬ ([text].length = 1 ∧ [text][0]? = some "") := by
    simp [h]
  simp only [Wrapper.Lines, if_neg h1, if_neg h2, List.foldl_cons, List.foldl_nil]
  by_cases ht : TrimSpace text = ""
  · simp [wrapLine, ht]
  · have hpos := foldl_wrapWord_sb_pos (Wrapper.maxWidth w) (Fields text)
      { newlines := [], sb := "" } (fields_ne_nil text ht) (fields_length_pos text)
    simp only [wrapLine, if_neg ht, if_pos hpos]
    simp

/-- C25: for every diagnostic, the texts the message step formats are none
when the title is empty (or the message is); when both are not empty they
are one blank gutter row, then one gutter-prefixed row for each line of the
wrapped message, of which there is at least one, in order, then one blank
gutter row; the step writes them in that order.  With the title empty and
the message not, the message is the last text of the title line. -/
theorem message_rows {σ : Type} (e : terminalEmitter σ) (format : SGRControlSequence)
    (msg : Diagnostic) (s : σ) :
    terminalEmitter.messageTexts e format msg =
      (if msg.Title = "" ∨ msg.Message = "" then []
       else
        [terminalEmitter.blockQuotePrefixText format msg] ++
        (Wrapper.Lines (some (terminalEmitter.messageWrapper e msg)) [msg.Message]).map
          (fun line =>
            " " ++ format.Format ++ terminalEmitter.format msg ++ format.Format ++ " | " ++
              SGRParam.Format ansi.Reset ++ line ++ "\n") ++
        [terminalEmitter.blockQuotePrefixText format msg]) ∧
    (msg.Message = "" ∨
      Wrapper.Lines (some (terminalEmitter.messageWrapper e msg)) [msg.Message] ≠ []) ∧
    (terminalEmitter.writeMessage e format msg s).2 =
      writeAll e.writer (terminalEmitter.messageTexts e format msg) s ∧
    (terminalEmitter.titleTexts e format msg).getLast? =
      some (if msg.Title ≠ "" then
              " " ++ titleFormat.Format ++ msg.Title ++ SGRParam.Format ansi.Reset ++ "\n"
            else if msg.Message ≠ "" then " " ++ Wrapper.String e.wrapper msg.Message ++ "\n"
            else ":" ++ SGRParam.Format ansi.Reset) := by
  refine ⟨?_, ?_, rfl, ?_⟩
  · by_cases ht : msg.Title = ""
    · simp [terminalEmitter.messageTexts, ht]
    · by_cases hm : msg.Message = ""
      · simp [terminalEmitter.messageTexts, ht, hm]
      · have hne := lines_singleton_ne_nil (some (terminalEmitter.messageWrapper e msg))
          msg.Message hm
        have hlen : (Wrapper.Lines (some (terminalEmitter.messageWrapper e msg))
            [msg.Message]).length > 0 := List.length_pos.2 hne
        simp only [terminalEmitter.messageTexts, ht, hm, false_or, if_false, ne_eq,
          not_false_eq_true, if_true, hlen]
  · by_cases hm : msg.Message = ""
    · exact Or.inl hm
    · exact Or.inr (lines_singleton_ne_nil _ _ hm)
  · by_cases ht : msg.Title = "" <;> by_cases hm : msg.Message = "" <;>
      by_cases hc : msg.Code = "" <;>
      simp [terminalEmitter.titleTexts, ht, hm, hc]

/-! ## The words of the wrapped lines -/

/-- The bytes start with no white space code point exactly when `spaceWidth`
is zero. -/
theorem spaceWidth_eq_zero_iff (l : List Char) : spaceWidth l = 0 ↔ NoSpaceAt l := by
  unfold spaceWidth NoSpaceAt
  constructor
  · intro h r hr hp
    cases hf : spaceRunes.find? (fun r => r.isPrefixOf l) with
    | none =>
      rw [List.find?_eq_none] at hf
      exact hf r hr (by simpa using hp)
    | some x =>
      rw [hf] at h
      have hx : x ∈ spaceRunes := List.mem_of_find?_eq_some hf
      have hne : ∀ y ∈ spaceRunes, y.length ≠ 0 := by decide
      exact hne x hx h
  · intro h
    have hnone : spaceRunes.find? (fun r => r.isPrefixOf l) = none :=
      List.find?_eq_none.2 (fun x hx => by simpa using h x hx)
    rw [hnone]

/-- A space starts a white space code point of one byte. -/
theorem spaceWidth_space (m : List Char) : spaceWidth (' ' :: m) = 1 := by
  simp [spaceWidth, spaceRunes, List.find?, List.isPrefixOf]

/-- Bytes that start with no white space start with none before any text. -/
theorem noSpaceAt_of_append (t ctx : List Char) (h : NoSpaceAt (t ++ ctx)) : NoSpaceAt t :=
  fun r hr hp => h r hr (hp.trans (List.prefix_append t ctx))

/-- Bytes, at least one, that start with no white space start with none
before the end of the text and before a space. -/
theorem noSpaceAt_append (t ctx : List Char) (ht : t ≠ []) (h : NoSpaceAt t)
    (hctx : ctx = [] ∨ ∃ m, ctx = ' ' :: m) : NoSpaceAt (t ++ ctx) := by
  intro r hr hp
  have htail : ∀ y ∈ spaceRunes, ' ' ∉ y.tail := by decide
  rcases Nat.le_total r.length t.length with hle | hle
  · exact h r hr (List.prefix_of_prefix_length_le hp (List.prefix_append t ctx) hle)
  · obtain ⟨r2, rfl⟩ := List.prefix_of_prefix_length_le (List.prefix_append t ctx) hp hle
    have hp2 : r2 <+: ctx := (List.prefix_append_right_inj t).1 hp
    cases r2 with
    | nil =>
      rw [List.append_nil] at hr
      exact h t hr (List.prefix_refl t)
    | cons c r3 =>
      rcases hctx with rfl | ⟨m, rfl⟩
      · simp at hp2
      · have hc : c = ' ' := (List.cons_prefix_cons.1 hp2).1
        subst hc
        apply htail _ hr
        cases t with
        | nil => exact absurd rfl ht
        | cons a t2 => simp

/-- The tail of bytes among which no white space stands. -/
theorem spaceFree_tail (c : Char) (t : List Char) (h : SpaceFree (c :: t)) :
    NoSpaceAt (c :: t) ∧ SpaceFree t :=
  ⟨h 0 (by simp), fun i hi => by
    have := h (i + 1) (by simp; omega)
    simpa using this⟩

/-- The scan of `strings.Fields` takes bytes among which no white space
stands into the field it is reading, up to the end or a space. -/
theorem fieldsLoop_word (t : List Char) :
    ∀ (acc ctx : List Char), SpaceFree t → (ctx = [] ∨ ∃ m, ctx = ' ' :: m) →
      fieldsLoop 0 acc (t ++ ctx) = fieldsLoop 0 (acc ++ t) ctx := by
  induction t with
  | nil => intro acc ctx _ _; simp
  | cons c t ih =>
    intro acc ctx hsf hctx
    obtain ⟨h0, hrest⟩ := spaceFree_tail c t hsf
    have hsw : spaceWidth (c :: (t ++ ctx)) = 0 :=
      (spaceWidth_eq_zero_iff _).2 (noSpaceAt_append (c :: t) ctx (by simp) h0 hctx)
    rw [List.cons_append]
    simp only [fieldsLoop, hsw]
    rw [ih (acc ++ [c]) ctx hrest hctx, List.append_assoc]
    rfl

/-- The bytes of a line of words: the first word, then the end or a space
and the bytes of the line of the other words. -/
theorem lineText_cons_data (a : String) (rest : List String) :
    (lineText (a :: rest)).data =
      a.data ++ (if rest = [] then [] else ' ' :: (lineText rest).data) := by
  cases rest with
  | nil => simp [lineText, Join]
  | cons b rest2 =>
    simp [lineText, Join, String.data_append]

/-- The fields of a line of words are the words. -/
theorem fieldsLoop_lineText (ws : List String) (h : ∀ w ∈ ws, IsWord w) :
    fieldsLoop 0 [] (lineText ws).data = ws.map String.data := by
  induction ws with
  | nil => rfl
  | cons a rest ih =>
    have ha := h a (List.mem_cons_self _ _)
    have hrest : ∀ w ∈ rest, IsWord w := fun w hw => h w (List.mem_cons_of_mem _ hw)
    rw [lineText_cons_data]
    by_cases hr : rest = []
    · rw [if_pos hr, fieldsLoop_word a.data [] [] ha.2 (Or.inl rfl)]
      simp [fieldsLoop, ha.1, hr]
    · rw [if_neg hr, fieldsLoop_word a.data [] _ ha.2 (Or.inr ⟨_, rfl⟩)]
      simp only [fieldsLoop, spaceWidth_space, List.nil_append, if_neg ha.1, ih hrest,
        List.map_cons, List.singleton_append]

/-- The function `Fields` returns the words of a line of words. -/
theorem fields_lineText (ws : List String) (h : ∀ w ∈ ws, IsWord w) :
    Fields (lineText ws) = ws := by
  simp only [Fields, fieldsLoop_lineText ws h, List.map_map]
  have : (String.mk ∘ String.data) = id := by
    funext s
    rfl
  rw [this, List.map_id]

/-- The fields `strings.Fields` reads hold no white space: while a field is
being read, no white space code point starts at any of its bytes. -/
theorem fieldsLoop_spaceFree (l : List Char) :
    ∀ (skip : Nat) (acc : List Char), (skip = 0 ∨ acc = []) →
      (∀ i, i < acc.length → NoSpaceAt (acc.drop i ++ l)) →
      ∀ w ∈ fieldsLoop skip acc l, SpaceFree w := by
  induction l with
  | nil =>
    intro skip acc _ hinv w hw
    have hw2 : w = acc := by
      cases skip <;> simp only [fieldsLoop] at hw <;> split_ifs at hw <;> simp_all
    subst hw2
    intro i hi
    simpa using hinv i hi
  | cons c rest ih =>
    intro skip acc hsk hinv w hw
    cases skip with
    | succ k =>
      have hacc : acc = [] := by
        rcases hsk with h | h
        · omega
        · exact h
      subst hacc
      simp only [fieldsLoop] at hw
      exact ih k [] (Or.inr rfl) (by simp) w hw
    | zero =>
      cases hsw : spaceWidth (c :: rest) with
      | zero =>
        simp only [fieldsLoop, hsw] at hw
        refine ih 0 (acc ++ [c]) (Or.inl rfl) ?_ w hw
        intro i hi
        have hi2 : i ≤ acc.length := by
          simp at hi
          omega
        rw [List.drop_append_of_le_length hi2, List.append_assoc, List.singleton_append]
        rcases Nat.lt_or_ge i acc.length with hlt | hge
        · exact hinv i hlt
        · rw [List.drop_eq_nil_of_le hge, List.nil_append]
          exact (spaceWidth_eq_zero_iff _).1 hsw
      | succ n =>
        simp only [fieldsLoop, hsw, List.mem_append] at hw
        rcases hw with hw | hw
        · have hw2 : w = acc := by
            split_ifs at hw <;> simp_all
          subst hw2
          intro i hi
          exact noSpaceAt_of_append _ _ (hinv i hi)
        · exact ih n [] (Or.inr rfl) (by simp) w hw

/-- Every field `Fields` returns is a word. -/
theorem fields_isWord (line : String) : ∀ w ∈ Fields line, IsWord w := by
  intro w hw
  simp only [Fields, List.mem_map] at hw
  obtain ⟨x, hx, rfl⟩ := hw
  exact ⟨fieldsLoop_nonempty line.data 0 [] x hx,
    fieldsLoop_spaceFree line.data 0 [] (Or.inl rfl) (by simp) x hx⟩

/-- A text the left trim leaves nothing of has no fields. -/
theorem fieldsLoop_eq_nil (l : List Char) :
    ∀ skip : Nat, trimLeftLoop skip l = [] → fieldsLoop skip [] l = [] := by
  induction l with
  | nil => intro skip _; cases skip <;> simp [fieldsLoop]
  | cons c rest ih =>
    intro skip h
    cases skip with
    | succ k =>
      simp only [trimLeftLoop] at h
      simp only [fieldsLoop]
      exact ih k h
    | zero =>
      cases hsw : spaceWidth (c :: rest) with
      | zero => simp [trimLeftLoop, hsw] at h
      | succ n =>
        simp only [trimLeftLoop, hsw] at h
        simp only [fieldsLoop, hsw, if_true, List.nil_append]
        exact ih n h

/-- A blank line has no fields. -/
theorem fields_of_blank (line : String) (h : TrimSpace line = "") : Fields line = [] := by
  simp only [Fields, fieldsLoop_eq_nil line.data 0 ((trimSpace_eq_empty_iff line).1 h),
    List.map_nil]

/-- The left trim leaves a line of words as it is. -/
theorem trimLeftLoop_lineText (ws : List String) (h : ∀ w ∈ ws, IsWord w) :
    trimLeftLoop 0 (lineText ws).data = (lineText ws).data := by
  cases ws with
  | nil => rfl
  | cons a rest =>
    have ha := h a (List.mem_cons_self _ _)
    rw [lineText_cons_data]
    generalize hctx : (if rest = [] then [] else ' ' :: (lineText rest).data) = ctx
    have hc : ctx = [] ∨ ∃ m, ctx = ' ' :: m := by
      rw [← hctx]
      split_ifs
      · exact Or.inl rfl
      · exact Or.inr ⟨_, rfl⟩
    cases hd : a.data with
    | nil => exact absurd hd ha.1
    | cons c t =>
      have hsf : SpaceFree (c :: t) := hd ▸ ha.2
      have hsw : spaceWidth (c :: (t ++ ctx)) = 0 :=
        (spaceWidth_eq_zero_iff _).2
          (noSpaceAt_append (c :: t) ctx (by simp) (spaceFree_tail c t hsf).1 hc)
      rw [List.cons_append]
      simp only [trimLeftLoop, hsw]

/-- The right trim passes bytes among which no white space stands, up to the
end or a space. -/
theorem trimRightBytes_word (t : List Char) :
    ∀ ctx : List Char, SpaceFree t → (ctx = [] ∨ ∃ m, ctx = ' ' :: m) →
      trimRightBytes (t ++ ctx) = t ++ trimRightBytes ctx := by
  induction t with
  | nil => intro ctx _ _; rfl
  | cons c t ih =>
    intro ctx hsf hctx
    obtain ⟨h0, hrest⟩ := spaceFree_tail c t hsf
    have hsw : spaceWidth (c :: (t ++ ctx)) = 0 :=
      (spaceWidth_eq_zero_iff _).2 (noSpaceAt_append (c :: t) ctx (by simp) h0 hctx)
    rw [List.cons_append]
    simp only [trimRightBytes, trimLeftLoop, hsw, ih ctx hrest hctx]
    simp

/-- The right trim leaves a line of words as it is. -/
theorem trimRightBytes_lineText (ws : List String) (h : ∀ w ∈ ws, IsWord w) :
    trimRightBytes (lineText ws).data = (lineText ws).data := by
  induction ws with
  | nil => rfl
  | cons a rest ih =>
    have ha := h a (List.mem_cons_self _ _)
    have hrest : ∀ w ∈ rest, IsWord w := fun w hw => h w (List.mem_cons_of_mem _ hw)
    rw [lineText_cons_data]
    by_cases hr : rest = []
    · rw [if_pos hr, trimRightBytes_word a.data [] ha.2 (Or.inl rfl)]
      rfl
    · rw [if_neg hr, trimRightBytes_word a.data _ ha.2 (Or.inr ⟨_, rfl⟩)]
      have hleft := trimLeftLoop_lineText rest hrest
      have hne : (lineText rest).data ≠ [] := by
        intro e
        have hpos := lineText_length_pos rest hr
          (fun w hw => List.length_pos.2 (hrest w hw).1)
        have : (lineText rest).length = 0 := by
          show (lineText rest).data.length = 0
          rw [e]; rfl
        omega
      have hsp : trimLeftLoop 0 (' ' :: (lineText rest).data) ≠ [] := by
        simp only [trimLeftLoop, spaceWidth_space, hleft]
        exact hne
      simp only [trimRightBytes, if_neg hsp, ih hrest]

/-- The function `TrimSpace` leaves a line of words as it is. -/
theorem trimSpace_lineText (ws : List String) (h : ∀ w ∈ ws, IsWord w) :
    TrimSpace (lineText ws) = lineText ws := by
  simp only [TrimSpace, trimLeftLoop_lineText ws h, trimRightBytes_lineText ws h]

/-- A word holds a byte. -/
theorem isWord_length_pos (word : String) (h : IsWord word) : 0 < word.length :=
  List.length_pos.2 h.1

/-- One round of the inner loop of `Lines` keeps the words in their order
and adds the word of the round at the end. -/
theorem wrapWord_holds (w : Int) (st : WrapState) (word : String)
    (groups : List (List String)) (cur : List String) (h : st.Holds groups cur)
    (hw : IsWord word) :
    ∃ groups2 cur2, (wrapWord w st word).Holds groups2 cur2 ∧
      groups2.flatten ++ cur2 = groups.flatten ++ cur ++ [word] := by
  obtain ⟨hnl, hsb, hg, hc⟩ := h
  by_cases hbreak : (st.sb.length : Int) + (word.length : Int) + 1 > w
  · refine ⟨groups ++ [cur], [word], ⟨?_, ?_, ?_, ?_⟩, by simp⟩
    · rw [wrapWord_break w st word hbreak]
      simp [hnl, hsb]
    · rw [wrapWord_break w st word hbreak]
      rfl
    · intro g hgm x hx
      rcases List.mem_append.1 hgm with h1 | h1
      · exact hg g h1 x hx
      · rw [List.mem_singleton] at h1
        subst h1
        exact hc x hx
    · intro x hx
      rw [List.mem_singleton] at hx
      subst hx
      exact hw
  · have hwords : ∀ x ∈ cur ++ [word], IsWord x := by
      intro x hx
      rcases List.mem_append.1 hx with h1 | h1
      · exact hc x h1
      · rw [List.mem_singleton] at h1
        subst h1
        exact hw
    refine ⟨groups, cur ++ [word], ⟨?_, ?_, hg, hwords⟩, by simp⟩
    · by_cases hcur : cur = []
      · rw [wrapWord_first w st word hbreak (by rw [hsb, hcur]; rfl)]
        exact hnl
      · have hpos : st.sb.length > 0 := by
          rw [hsb]
          exact lineText_length_pos cur hcur (fun x hx => isWord_length_pos x (hc x hx))
        rw [wrapWord_next w st word hbreak hpos]
        exact hnl
    · by_cases hcur : cur = []
      · rw [wrapWord_first w st word hbreak (by rw [hsb, hcur]; rfl), hcur]
        rfl
      · have hpos : st.sb.length > 0 := by
          rw [hsb]
          exact lineText_length_pos cur hcur (fun x hx => isWord_length_pos x (hc x hx))
        rw [wrapWord_next w st word hbreak hpos, lineText_concat cur word hcur, hsb]

/-- The inner loop of `Lines` keeps the words in their order and adds the
words of the line at the end. -/
theorem foldl_wrapWord_holds (w : Int) (words : List String) :
    ∀ (st : WrapState) (groups : List (List String)) (cur : List String),
      st.Holds groups cur → (∀ x ∈ words, IsWord x) →
      ∃ groups2 cur2, (words.foldl (wrapWord w) st).Holds groups2 cur2 ∧
        groups2.flatten ++ cur2 = groups.flatten ++ cur ++ words := by
  induction words with
  | nil => intro st groups cur h _; exact ⟨groups, cur, h, by simp⟩
  | cons word rest ih =>
    intro st groups cur h hwords
    obtain ⟨g1, c1, h1, e1⟩ := wrapWord_holds w st word groups cur h
      (hwords word (List.mem_cons_self _ _))
    obtain ⟨g2, c2, h2, e2⟩ := ih (wrapWord w st word) g1 c1 h1
      (fun x hx => hwords x (List.mem_cons_of_mem _ hx))
    refine ⟨g2, c2, h2, ?_⟩
    rw [e2, e1]
    simp

/-- One round of the outer loop of `Lines` keeps the words in their order
and adds the words of its line at the end. -/
theorem wrapLine_holds (w : Int) (st : WrapState) (line : String)
    (groups : List (List String)) (cur : List String) (h : st.Holds groups cur) :
    ∃ groups2 cur2, (wrapLine w st line).Holds groups2 cur2 ∧
      groups2.flatten ++ cur2 = groups.flatten ++ cur ++ Fields line := by
  by_cases ht : TrimSpace line = ""
  · obtain ⟨hnl, hsb, hg, hc⟩ := h
    refine ⟨groups ++ [[]], cur, ⟨?_, ?_, ?_, hc⟩, ?_⟩
    · simp only [wrapLine, if_pos ht, hnl, List.map_append, List.map_cons, List.map_nil]
      rfl
    · simp only [wrapLine, if_pos ht]
      exact hsb
    · intro g hgm x hx
      rcases List.mem_append.1 hgm with h1 | h1
      · exact hg g h1 x hx
      · rw [List.mem_singleton] at h1
        subst h1
        simp at hx
    · rw [fields_of_blank line ht]
      simp
  · simp only [wrapLine, if_neg ht]
    exact foldl_wrapWord_holds w (Fields line) st groups cur h (fields_isWord line)

/-- The outer loop of `Lines` keeps the words in their order and adds the
words of the lines at the end. -/
theorem foldl_wrapLine_holds (w : Int) (lines : List String) :
    ∀ (st : WrapState) (groups : List (List String)) (cur : List String),
      st.Holds groups cur →
      ∃ groups2 cur2, (lines.foldl (wrapLine w) st).Holds groups2 cur2 ∧
        groups2.flatten ++ cur2 = groups.flatten ++ cur ++ wordsOf lines := by
  induction lines with
  | nil => intro st groups cur h; exact ⟨groups, cur, h, by simp [wordsOf]⟩
  | cons line rest ih =>
    intro st groups cur h
    obtain ⟨g1, c1, h1, e1⟩ := wrapLine_holds w st line groups cur h
    obtain ⟨g2, c2, h2, e2⟩ := ih (wrapLine w st line) g1 c1 h1
    refine ⟨g2, c2, h2, ?_⟩
    rw [e2, e1]
    simp [wordsOf]

/-- The lines `Lines` returns are lines of words, which are the words of the
input lines in their order. -/
theorem lines_groups (w : Option Wrapper) (lines : List String) :
    ∃ groups : List (List String),
      Wrapper.Lines w lines = groups.map lineText ∧
      (∀ g ∈ groups, ∀ x ∈ g, IsWord x) ∧
      groups.flatten = wordsOf lines := by
  unfold Wrapper.Lines
  by_cases h1 : lines.length = 0
  · have : lines = [] := List.length_eq_zero.1 h1
    subst this
    exact ⟨[], by simp, by simp, rfl⟩
  · by_cases h2 : lines.length = 1 ∧ lines[0]? = some ""
    · have hl : lines = [""] := by
        match lines, h2 with
        | [a], ⟨_, h3⟩ =>
          simp at h3
          rw [h3]
      subst hl
      exact ⟨[], by simp, by simp, by decide⟩
    · simp only [if_neg h1, if_neg h2]
      obtain ⟨g, c, ⟨hnl, hsb, hg, hc⟩, e⟩ :=
        foldl_wrapLine_holds (Wrapper.maxWidth w) lines { newlines := [], sb := "" } [] []
          ⟨rfl, rfl, by simp, by simp⟩
      simp only [List.flatten_nil, List.nil_append] at e
      by_cases hpos : (lines.foldl (wrapLine (Wrapper.maxWidth w))
          { newlines := [], sb := "" }).sb.length > 0
      · refine ⟨g ++ [c], ?_, ?_, ?_⟩
        · rw [if_pos hpos, hnl, hsb]
          simp only [List.map_append, List.map_cons, List.map_nil]
        · intro g2 hgm x hx
          rcases List.mem_append.1 hgm with h3 | h3
          · exact hg g2 h3 x hx
          · rw [List.mem_singleton] at h3
            subst h3
            exact hc x hx
        · rw [← e]
          simp
      · have hcnil : c = [] := by
          by_contra hne
          apply hpos
          rw [hsb]
          exact lineText_length_pos c hne (fun x hx => isWord_length_pos x (hc x hx))
        refine ⟨g, ?_, hg, ?_⟩
        · rw [if_neg hpos, hnl]
        · rw [← e, hcnil]
          simp

/-- C26: for every wrapper, nil or of any width, and every list of input
lines, the white-space-separated words of the lines `Lines` returns, taken in
order, are the white-space-separated words of the input lines, taken in
order, and every line returned is its own words joined by single spaces,
with no white space at either end. -/
theorem lines_keeps_words (w : Option Wrapper) (lines : List String) :
    wordsOf (Wrapper.Lines w lines) = wordsOf lines ∧
    ∀ out ∈ Wrapper.Lines w lines, out = Join (Fields out) " " ∧ TrimSpace out = out := by
  obtain ⟨groups, hl, hg, hf⟩ := lines_groups w lines
  rw [hl]
  constructor
  · rw [← hf]
    simp only [wordsOf, List.map_map]
    congr 1
    have hid : groups.map (Fields ∘ lineText) = groups.map id :=
      List.map_congr_left (fun g hgm => fields_lineText g (hg g hgm))
    rw [hid, List.map_id]
  · intro out hout
    obtain ⟨g, hgm, rfl⟩ := List.mem_map.1 hout
    refine ⟨?_, trimSpace_lineText g (hg g hgm)⟩
    rw [fields_lineText g (hg g hgm)]
    rfl

/-! ## The queries of the recorder -/

/-- Where every condition returns on a diagnostic, `matchesAll` returns
whether all of them hold. -/
theorem matchesAll_of_total (conditions : List Condition) (d : Diagnostic)
    (htotal : ∀ c ∈ conditions, ∃ b, c d = .ok b) :
    matchesAll conditions d = .ok (Satisfies conditions d) := by
  induction conditions with
  | nil => rfl
  | cons c rest ih =>
    obtain ⟨b, hb⟩ := htotal c (List.mem_cons_self _ _)
    have hrest := ih (fun x hx => htotal x (List.mem_cons_of_mem _ hx))
    cases b with
    | false =>
      simp only [matchesAll, hb, Satisfies, List.all_cons]
      rfl
    | true =>
      simp only [matchesAll, hb, hrest, Satisfies, List.all_cons]
      simp

/-- Where every condition returns on every recorded diagnostic, the loop of
`Filter` appends, in recording order, the diagnostics that satisfy all the
conditions. -/
theorem filterLoop_of_total (conditions : List Condition) (ds : List Diagnostic) :
    ∀ acc : List Diagnostic,
      (∀ d ∈ ds, ∀ c ∈ conditions, ∃ b, c d = .ok b) →
      filterLoop conditions ds acc = .ok (acc ++ ds.filter (Satisfies conditions)) := by
  induction ds with
  | nil => intro acc _; simp [filterLoop]
  | cons d rest ih =>
    intro acc htotal
    have hd := matchesAll_of_total conditions d (htotal d (List.mem_cons_self _ _))
    have hrest : ∀ x ∈ rest, ∀ c ∈ conditions, ∃ b, c x = .ok b :=
      fun x hx => htotal x (List.mem_cons_of_mem _ hx)
    cases hs : Satisfies conditions d with
    | false =>
      rw [hs] at hd
      simp only [filterLoop, hd, ih acc hrest, List.filter_cons, hs]
      simp
    | true =>
      rw [hs] at hd
      simp only [filterLoop, hd, ih (acc ++ [d]) hrest, List.filter_cons, hs]
      simp

/-- On diagnostics that all have a start and an end, `HasStart`, `HasEnd`
and `HasRange` return, and `Filter` with them returns, in recording order,
the diagnostics that satisfy all of them. -/
theorem filter_of_positions (r : Recorder) (conditions : List Condition)
    (hcond : ∀ c ∈ conditions,
      (∃ l k, c = HasStart l k) ∨ (∃ l k, c = HasEnd l k) ∨ (∃ a b l k, c = HasRange a b l k))
    (hpos : ∀ d ∈ r.Diagnostics, d.Start.isSome ∧ d.End.isSome) :
    r.Filter conditions = .ok (r.Diagnostics.filter (Satisfies conditions)) := by
  have h := filterLoop_of_total conditions r.Diagnostics [] (by
    intro d hd c hc
    obtain ⟨hs, he⟩ := hpos d hd
    obtain ⟨start, hstart⟩ := Option.isSome_iff_exists.1 hs
    obtain ⟨stop, hstop⟩ := Option.isSome_iff_exists.1 he
    rcases hcond c hc with ⟨l, k, rfl⟩ | ⟨l, k, rfl⟩ | ⟨a, b, l, k, rfl⟩
    · refine ⟨decide (start.Line = l) && decide (start.Column = k), ?_⟩
      simp only [HasStart, hstart]
    · refine ⟨decide (stop.Line = l) && decide (stop.Column = k), ?_⟩
      simp only [HasEnd, hstop]
    · by_cases hm : start.Line = a ∧ start.Column = b
      · refine ⟨decide (stop.Line = l) && decide (stop.Column = k), ?_⟩
        simp only [HasRange, hstart, hstop, if_pos hm]
      · refine ⟨false, ?_⟩
        simp only [HasRange, hstart, if_neg hm])
  simpa [Recorder.Filter] using h

/-- C32: on a recorder whose first diagnostic has no position, `Filter` with
`HasStart`, `Count` with `HasEnd` and `Contains` with `HasRange` stop in the
panic of a nil pointer dereference; so does `HasRange` on a diagnostic whose
start matches and whose end is unset.  On a recorder all of whose
diagnostics have both positions they return: `Filter` the matching
diagnostics in recording order, `Count` their number. -/
theorem recorder_queries_panic_without_position :
    sampleRecorder.Filter [HasStart 1 1] = .panic nilDereference ∧
    sampleRecorder.Count [HasEnd 1 4] = .panic nilDereference ∧
    sampleRecorder.Contains [HasRange 1 1 1 4] = .panic nilDereference ∧
    HasStart 1 1 (New SeverityError "bare") = .panic nilDereference ∧
    HasEnd 1 4 ((New SeverityError "point").With [ Annotation.Start 1 1]) =
      .panic nilDereference ∧
    HasRange 1 1 1 4 ((New SeverityError "point").With [ Annotation.Start 1 1]) =
      .panic nilDereference ∧
    rangedRecorder.Filter [HasRange 1 1 1 4] =
      .ok [(New SeverityError "one").With [ Annotation.Start 1 1, Annotation.End 1 4],
           (New SeverityError "three").With [ Annotation.Start 1 1, Annotation.End 1 4]] ∧
    rangedRecorder.Count [HasStart 1 1, HasEnd 1 4] = .ok 2 ∧
    rangedRecorder.Contains [HasStart 3 1] = .ok false := by
  decide

/-! ## The digit count -/

/-- The loop of `countDigits` entered with `i` zero leaves the count as it
is, whatever the rounds allowed. -/
theorem countDigitsLoop_zero (fuel : Nat) (count : Int) :
    countDigitsLoop fuel 0 count = count := by
  cases fuel <;> simp [countDigitsLoop]

/-- The loop of `countDigits`, allowed `|i|` rounds or more, ends, having
added to the count the number of decimal digits of `|i|`. -/
theorem countDigitsLoop_eq (fuel : Nat) :
    ∀ (i count : Int), i ≠ 0 → i.natAbs ≤ fuel →
      countDigitsLoop fuel i count = count + ((Nat.log 10 i.natAbs + 1 : Nat) : Int) := by
  induction fuel with
  | zero =>
    intro i count hi hfuel
    exact absurd (Int.natAbs_eq_zero.1 (Nat.le_zero.1 hfuel)) hi
  | succ k ih =>
    intro i count hi hfuel
    have hpos : 0 < i.natAbs := Int.natAbs_pos.2 hi
    have habs : (i.tdiv 10).natAbs = i.natAbs / 10 := Int.natAbs_tdiv i 10
    simp only [countDigitsLoop, if_neg hi]
    by_cases hj : i.tdiv 10 = 0
    · have hlt : i.natAbs < 10 := by
        rw [hj] at habs
        have h0 : i.natAbs / 10 = 0 := by simpa using habs.symm
        omega
      rw [hj, countDigitsLoop_zero, Nat.log_of_lt hlt]
      simp
    · have hge : 10 ≤ i.natAbs := by
        by_contra hlt
        apply hj
        apply Int.natAbs_eq_zero.1
        rw [habs]
        omega
      have hle : (i.tdiv 10).natAbs ≤ k := by
        rw [habs]
        omega
      rw [ih (i.tdiv 10) (count + 1) hj hle, habs,
        Nat.log_of_one_lt_of_le (by norm_num) hge]
      push_cast
      ring

/-- C33: `countDigits` of 0 is 1; for every integer `i` the loop of
`countDigits` ends within `|i|` rounds, so that allowing it more rounds gives
the same count; and for every `n` of 1 or more the count `d` that
`countDigits` returns is at least 1 and has 10^(d-1) <= n < 10^d. -/
theorem countDigits_is_digit_count (i : Int) (fuel : Nat) (hfuel : i.natAbs ≤ fuel)
    (n : Int) (hn : 1 ≤ n) :
    countDigits 0 = 1 ∧
    (if i = 0 then 1 else countDigitsLoop fuel i 0) = countDigits i ∧
    1 ≤ countDigits n ∧
    (10 : Int) ^ ((countDigits n).toNat - 1) ≤ n ∧
    n < (10 : Int) ^ (countDigits n).toNat := by
  refine ⟨rfl, ?_, ?_⟩
  · by_cases hi : i = 0
    · simp [hi, countDigits]
    · simp only [countDigits, if_neg hi]
      rw [countDigitsLoop_eq fuel i 0 hi hfuel, countDigitsLoop_eq i.natAbs i 0 hi (le_refl _)]
  · have hn0 : n ≠ 0 := by omega
    have hd : countDigits n = ((Nat.log 10 n.natAbs + 1 : Nat) : Int) := by
      simp only [countDigits, if_neg hn0]
      rw [countDigitsLoop_eq n.natAbs n 0 hn0 (le_refl _)]
      simp
    have hnat : (n.natAbs : Int) = n := Int.natAbs_of_nonneg (by omega)
    have hne : n.natAbs ≠ 0 := by omega
    have h1 := Nat.pow_log_le_self 10 hne
    have h2 := Nat.lt_pow_succ_log_self (by norm_num : 1 < 10) n.natAbs
    rw [hd]
    refine ⟨by omega, ?_, ?_⟩
    · rw [Int.toNat_ofNat, Nat.add_sub_cancel, ← hnat]
      exact_mod_cast h1
    · rw [Int.toNat_ofNat, ← hnat]
      exact_mod_cast h2

/-- C33 at -1234 with 5000 rounds allowed and at 1000: four digits each, and
10^3 <= 1000 < 10^4. -/
theorem countDigits_is_digit_count_witness :
    (-1234 : Int).natAbs ≤ 5000 ∧ (1 : Int) ≤ 1000 ∧
    (if (-1234 : Int) = 0 then 1 else countDigitsLoop 5000 (-1234) 0) = countDigits (-1234) ∧
    countDigits (-1234) = 4 ∧ countDigits 1000 = 4 ∧
    (10 : Int) ^ ((countDigits 1000).toNat - 1) ≤ 1000 ∧
    (1000 : Int) < (10 : Int) ^ (countDigits 1000).toNat :=
  ⟨by decide, by decide,
   (countDigits_is_digit_count (-1234) 5000 (by decide) 1000 (by decide)).2.1,
   by decide, by decide,
   (countDigits_is_digit_count (-1234) 5000 (by decide) 1000 (by decide)).2.2.2.1,
   (countDigits_is_digit_count (-1234) 5000 (by decide) 1000 (by decide)).2.2.2.2⟩

/-! ## Empty lines from the wrapper -/

/-- One round of the inner loop of `Lines` on a builder that holds text
leaves a builder that holds text and puts out no empty line. -/
theorem wrapWord_no_empty (w : Int) (st : WrapState) (word : String)
    (hword : 0 < word.length) (hsb : 0 < st.sb.length) (hnl : "" ∉ st.newlines) :
    0 < (wrapWord w st word).sb.length ∧ "" ∉ (wrapWord w st word).newlines := by
  have hne : st.sb ≠ "" := by
    intro e
    rw [e] at hsb
    exact absurd hsb (by decide)
  by_cases hbreak : (st.sb.length : Int) + (word.length : Int) + 1 > w
  · rw [wrapWord_break w st word hbreak]
    refine ⟨hword, ?_⟩
    simp only [List.mem_append, List.mem_singleton, not_or]
    exact ⟨hnl, fun e => hne e.symm⟩
  · rw [wrapWord_next w st word hbreak hsb]
    refine ⟨?_, hnl⟩
    simp only [String.length_append]
    omega

/-- The inner loop of `Lines` on a builder that holds text leaves a builder
that holds text and puts out no empty line. -/
theorem foldl_wrapWord_no_empty (w : Int) (words : List String) :
    ∀ st : WrapState, (∀ x ∈ words, 0 < x.length) → 0 < st.sb.length → "" ∉ st.newlines →
      0 < (words.foldl (wrapWord w) st).sb.length ∧
      "" ∉ (words.foldl (wrapWord w) st).newlines := by
  induction words with
  | nil => intro st _ hsb hnl; exact ⟨hsb, hnl⟩
  | cons word rest ih =>
    intro st hwords hsb hnl
    obtain ⟨h1, h2⟩ := wrapWord_no_empty w st word (hwords word (List.mem_cons_self _ _))
      hsb hnl
    exact ih (wrapWord w st word) (fun x hx => hwords x (List.mem_cons_of_mem _ hx)) h1 h2

/-- The outer loop of `Lines` over lines none of which is blank, on a builder
that holds text, leaves a builder that holds text and puts out no empty
line. -/
theorem foldl_wrapLine_no_empty (w : Int) (lines : List String) :
    ∀ st : WrapState, (∀ l ∈ lines, TrimSpace l ≠ "") → 0 < st.sb.length →
      "" ∉ st.newlines →
      0 < (lines.foldl (wrapLine w) st).sb.length ∧
      "" ∉ (lines.foldl (wrapLine w) st).newlines := by
  induction lines with
  | nil => intro st _ hsb hnl; exact ⟨hsb, hnl⟩
  | cons line rest ih =>
    intro st hlines hsb hnl
    have hline : TrimSpace line ≠ "" := hlines line (List.mem_cons_self _ _)
    have hstep : wrapLine w st line = (Fields line).foldl (wrapWord w) st := by
      simp only [wrapLine, if_neg hline]
    obtain ⟨h1, h2⟩ := foldl_wrapWord_no_empty w (Fields line) st (fields_length_pos line)
      hsb hnl
    rw [List.foldl_cons, hstep]
    exact ih _ (fun l hl => hlines l (List.mem_cons_of_mem _ hl)) h1 h2

/-- Where the first word of the first line, with a separating space, is not
longer than the width, and no later line is blank, `Lines` returns no empty
line. -/
theorem lines_no_empty_of_short_first_word (w : Option Wrapper) (line : String)
    (rest : List String) (word : String) (words : List String)
    (hfirst : Fields line = word :: words)
    (hfit : (word.length : Int) + 1 ≤ Wrapper.maxWidth w)
    (hrest : ∀ l ∈ rest, TrimSpace l ≠ "") :
    "" ∉ Wrapper.Lines w (line :: rest) := by
  have hline : TrimSpace line ≠ "" := by
    intro e
    rw [fields_of_blank line e] at hfirst
    cases hfirst
  have hne : line ≠ "" := by
    intro e
    apply hline
    rw [e]
    decide
  have hpos : ∀ x ∈ word :: words, 0 < x.length := by
    rw [← hfirst]
    exact fields_length_pos line
  have h1 : ¬ ((line :: rest).length = 0) := by simp
  have h2 : ¬ ((line :: rest).length = 1 ∧ (line :: rest)[0]? = some "") := by
    simp [hne]
  have hbreak : ¬ ((("" : String).length : Int) + (word.length : Int) + 1 >
      Wrapper.maxWidth w) := by
    have : (("" : String).length : Int) = 0 := rfl
    omega
  have hstep : wrapLine (Wrapper.maxWidth w) { newlines := [], sb := "" } line =
      words.foldl (wrapWord (Wrapper.maxWidth w)) { newlines := [], sb := word } := by
    simp only [wrapLine, if_neg hline, hfirst, List.foldl_cons]
    rw [wrapWord_first (Wrapper.maxWidth w) { newlines := [], sb := "" } word hbreak rfl]
  obtain ⟨h3, h4⟩ := foldl_wrapWord_no_empty (Wrapper.maxWidth w) words
    { newlines := [], sb := word } (fun x hx => hpos x (List.mem_cons_of_mem _ hx))
    (hpos word (List.mem_cons_self _ _)) (by simp)
  obtain ⟨h5, h6⟩ := foldl_wrapLine_no_empty (Wrapper.maxWidth w) rest _ hrest h3 h4
  simp only [Wrapper.Lines, if_neg h1, if_neg h2, List.foldl_cons, hstep, if_pos h5,
    List.mem_append, List.mem_singleton, not_or]
  refine ⟨h6, ?_⟩
  intro e
  rw [← e] at h5
  exact absurd h5 (by decide)

/-- One round of the inner loop of `Lines` keeps the first line put out. -/
theorem wrapWord_head (w : Int) (st : WrapState) (word : String) (first : String)
    (h : st.newlines.head? = some first) :
    (wrapWord w st word).newlines.head? = some first := by
  have happ : (st.newlines ++ [st.sb]).head? = some first := by
    cases hn : st.newlines with
    | nil => rw [hn] at h; cases h
    | cons a t => rw [hn] at h; simpa using h
  by_cases hbreak : (st.sb.length : Int) + (word.length : Int) + 1 > w
  · rw [wrapWord_break w st word hbreak]
    exact happ
  · simp only [wrapWord, if_neg hbreak]
    split_ifs <;> exact h

/-- The inner loop of `Lines` keeps the first line put out. -/
theorem foldl_wrapWord_head (w : Int) (words : List String) (first : String) :
    ∀ st : WrapState, st.newlines.head? = some first →
      (words.foldl (wrapWord w) st).newlines.head? = some first := by
  induction words with
  | nil => intro st h; exact h
  | cons word more ih =>
    intro st h
    rw [List.foldl_cons]
    exact ih (wrapWord w st word) (wrapWord_head w st word first h)

/-- The outer loop of `Lines` keeps the first line put out. -/
theorem foldl_wrapLine_head (w : Int) (lines : List String) (first : String) :
    ∀ st : WrapState, st.newlines.head? = some first →
      (lines.foldl (wrapLine w) st).newlines.head? = some first := by
  induction lines with
  | nil => intro st h; exact h
  | cons line rest ih =>
    intro st h
    rw [List.foldl_cons]
    apply ih
    by_cases ht : TrimSpace line = ""
    · simp only [wrapLine, if_pos ht]
      cases hn : st.newlines with
      | nil => rw [hn] at h; cases h
      | cons a t => rw [hn] at h; simpa using h
    · simp only [wrapLine, if_neg ht]
      exact foldl_wrapWord_head w (Fields line) first st h

/-- Where the first word of the first line, with a separating space, is
longer than the width, the first line `Lines` returns is empty. -/
theorem lines_empty_of_long_first_word (w : Option Wrapper) (line : String)
    (rest : List String) (word : String) (words : List String)
    (hfirst : Fields line = word :: words)
    (hlong : (word.length : Int) + 1 > Wrapper.maxWidth w) :
    (Wrapper.Lines w (line :: rest)).head? = some "" := by
  have hline : TrimSpace line ≠ "" := by
    intro e
    rw [fields_of_blank line e] at hfirst
    cases hfirst
  have hne : line ≠ "" := by
    intro e
    apply hline
    rw [e]
    decide
  have h1 : ¬ ((line :: rest).length = 0) := by simp
  have h2 : ¬ ((line :: rest).length = 1 ∧ (line :: rest)[0]? = some "") := by
    simp [hne]
  have hbreak : ((("" : String).length : Int) + (word.length : Int) + 1 >
      Wrapper.maxWidth w) := by
    have : (("" : String).length : Int) = 0 := rfl
    omega
  have hstep : (wrapLine (Wrapper.maxWidth w) { newlines := [], sb := "" } line).newlines.head?
      = some "" := by
    simp only [wrapLine, if_neg hline, hfirst, List.foldl_cons]
    rw [wrapWord_break (Wrapper.maxWidth w) { newlines := [], sb := "" } word hbreak]
    exact foldl_wrapWord_head (Wrapper.maxWidth w) words "" _ rfl
  have hall := foldl_wrapLine_head (Wrapper.maxWidth w) rest "" _ hstep
  simp only [Wrapper.Lines, if_neg h1, if_neg h2, List.foldl_cons]
  split_ifs
  · cases hn : (rest.foldl (wrapLine (Wrapper.maxWidth w))
        (wrapLine (Wrapper.maxWidth w) { newlines := [], sb := "" } line)).newlines with
    | nil => rw [hn] at hall; cases hall
    | cons a t => rw [hn] at hall; simpa using hall
  · exact hall

/-- C31: at width 4 the one line `aaaa`, which is not blank, gives an empty
line and then `aaaa`; at width 1 the line `a b` gives an empty line, `a` and
`b`; at width 3 the lines `ab` and `abcdef g` give no empty line: the empty
line comes from the first word alone, when it is as long as the width or
longer. -/
theorem lines_empty_line_before_long_first_word :
    Wrapper.Lines (some { MaxWidth := 4 }) ["aaaa"] = ["", "aaaa"] ∧
    TrimSpace "aaaa" ≠ "" ∧
    Wrapper.Lines (some { MaxWidth := 1 }) ["a b"] = ["", "a", "b"] ∧
    Wrapper.Lines (some { MaxWidth := 3 }) ["ab", "abcdef g"] = ["ab", "abcdef", "g"] := by
  decide

end GoCli
